import Mathlib

/-!
Naval (single player): placement, map validation and guess evaluation

A shallow embedding of `naval.c`.

* `unsigned int` values are natural numbers; arithmetic on them is taken modulo `2 ^ 32`
  (`uadd`, `usub`), and the conversions between `int` and `unsigned int` are `to_int`, `to_uint`.
* The solution array `int **answer` is a list of columns, `answer[x][y]` being entry `y` of
  column `x`.  An access outside the allocated array is undefined behaviour in C; every function
  that touches the array returns an `Option`, and `none` stands for such an access.
* A `FILE *` is the list of characters not yet read.  `fgets` and `sscanf` belong to the C
  library; they are modelled after their documented behaviour (`%u` as `strtoul` followed by a
  truncation to 32 bits).
* Loop counters of type `int` are natural numbers: they count cells, columns or ships of arrays
  that exist, and stay below `INT_MAX`.  A loop that runs `n` times is a recursion on `n`.
* Text printed by `make_guess`, `display_board` and the interaction loop is the list of the
  strings passed to `printf`; `exit(0)` is recorded in the result.  The messages printed by the
  error functions of the parse functions are not modelled, only the codes they return.
* A local buffer that is read before it is written (`line` in `parse_rules` and `get_prompt`
  when `fgets` meets the end of input) holds an arbitrary string, a parameter `line0`.
-/

namespace Naval

/-! ## Constants -/

/-- Max number of ships. -/
def MAX_SHIPS : Nat := 15

/-- Max characters per line (size of the line buffers). -/
def BUFF_LEN : Nat := 22

/-- Error processing rules file. -/
def ERR_RULES_INVALID : Int := 40

/-- Ships overlap in map. -/
def ERR_MAP_OVERLAP : Int := 50

/-- Ship goes out of bounds. -/
def ERR_MAP_OOB : Int := 51

/-- Other error processing map file. -/
def ERR_MAPS_INVALID : Int := 52

/-- Input runs out before game is over. -/
def ERR_BAD_GUESS : Int := 60

/-- Number of values of an `unsigned int`. -/
def UINT_MOD : Nat := 4294967296

/-- Largest value of an `int`. -/
def INT_MAX : Nat := 2147483647

/-- Number of values of an `unsigned long`. -/
def ULONG_MOD : Nat := 18446744073709551616

/-! ## Machine arithmetic -/

/-- Sum of two `unsigned int`. -/
def uadd (a b : Nat) : Nat := (a + b) % UINT_MOD

/-- Difference of two `unsigned int`. -/
def usub (a b : Nat) : Nat := (a % UINT_MOD + (UINT_MOD - b % UINT_MOD)) % UINT_MOD

/-- Conversion of an `unsigned int` to `int` (two's complement). -/
def to_int (u : Nat) : Int :=
  if u % UINT_MOD ≤ INT_MAX then ((u % UINT_MOD : Nat) : Int)
  else ((u % UINT_MOD : Nat) : Int) - (UINT_MOD : Int)

/-- Conversion of an `int` to `unsigned int`. -/
def to_uint (i : Int) : Nat := (i % (UINT_MOD : Int)).toNat

/-! ## Data model -/

/-- The struct `Ship`. -/
structure Ship where
  length : Nat
  xPos : Nat
  yPos : Nat
  direction : Char
deriving DecidableEq

/-- The struct `Grid`. -/
structure Grid where
  width : Nat
  height : Nat
deriving DecidableEq

/-- The array `int **answer`, a list of columns. -/
abbrev Answer := List (List Int)

/-- The read `answer[x][y]`; `none` outside the array. -/
def cell_get (answer : Answer) (x y : Nat) : Option Int :=
  match answer[x]? with
  | none => none
  | some col => col[y]?

/-- The write `answer[x][y] = v`, used only after `answer[x][y]` has been read. -/
def cell_set (answer : Answer) (x y : Nat) (v : Int) : Answer :=
  match answer[x]? with
  | none => answer
  | some col => answer.set x (col.set y v)

/-- The initialisation of the answer array in `main`: `width` columns of `height` cells,
each `1`. -/
def init_answer (board : Grid) : Answer :=
  List.replicate board.width (List.replicate board.height 1)

/-! ## Error functions (return codes) -/

/-- The function `rules_invalid`. -/
def rules_invalid : Int := ERR_RULES_INVALID

/-- The function `map_invalid`. -/
def map_invalid : Int := ERR_MAPS_INVALID

/-- The function `map_oob`. -/
def map_oob : Int := ERR_MAP_OOB

/-- The function `map_overlap`. -/
def map_overlap : Int := ERR_MAP_OVERLAP

/-- The function `bad_guess`. -/
def bad_guess : Int := ERR_BAD_GUESS

/-! ## C library: strings, `fgets`, `sscanf` -/

/-- The characters of a buffer seen as a C string: those before the first NUL. -/
def c_str (buf : List Char) : List Char := buf.takeWhile (fun c => c != '\x00')

/-- Characters stored by `fgets` and the rest of the stream; `n` characters may still be
stored. -/
def fgets_chars : Nat → List Char → List Char × List Char
  | 0, s => ([], s)
  | _ + 1, [] => ([], [])
  | n + 1, c :: s =>
    if c = '\n' then ([c], s)
    else ((c :: (fgets_chars n s).1), (fgets_chars n s).2)

/-- The call `fgets(line, size, stream)`: `none` is the NULL returned at end of input. -/
def fgets (size : Nat) (stream : List Char) : Option (List Char) × List Char :=
  match stream with
  | [] => (none, [])
  | _ :: _ => (some (fgets_chars (size - 1) stream).1, (fgets_chars (size - 1) stream).2)

/-- The predicate `isspace`. -/
def is_space (c : Char) : Bool :=
  c = ' ' || c = '\t' || c = '\n' || c = '\x0b' || c = '\x0c' || c = '\r'

/-- Value of a run of decimal digits. -/
def digits_value (ds : List Char) : Nat :=
  ds.foldl (fun acc c => 10 * acc + (c.toNat - 48)) 0

/-- Result of `strtoul` on a sign and a run of digits, stored into an `unsigned int`. -/
def store_uint (neg : Bool) (ds : List Char) : Nat :=
  let v := digits_value ds
  if ULONG_MOD ≤ v then (ULONG_MOD - 1) % UINT_MOD
  else if neg then ((ULONG_MOD - v) % ULONG_MOD) % UINT_MOD
  else v % UINT_MOD

/-- The conversion `%u` of `sscanf` without its leading white space: an optional sign and at
least one digit. -/
def scan_digits (neg : Bool) (s : List Char) : Option (Nat × List Char) :=
  if s.takeWhile Char.isDigit = [] then none
  else some (store_uint neg (s.takeWhile Char.isDigit), s.dropWhile Char.isDigit)

/-- The conversion `%u` of `sscanf`: the value stored and the rest of the input. -/
def scan_uint (s : List Char) : Option (Nat × List Char) :=
  match s.dropWhile is_space with
  | '-' :: r => scan_digits true r
  | '+' :: r => scan_digits false r
  | r => scan_digits false r

/-- The call `sscanf(line, "%u %u", a, b)` when it returns 2. -/
def sscanf_uu (line : List Char) : Option (Nat × Nat) :=
  match scan_uint (c_str line) with
  | none => none
  | some (a, r) =>
    match scan_uint r with
    | none => none
    | some (b, _) => some (a, b)

/-- The call `sscanf(line, "%u %u %c", x, y, d)` when it returns 3. -/
def sscanf_uuc (line : List Char) : Option (Nat × Nat × Char) :=
  match scan_uint (c_str line) with
  | none => none
  | some (a, r) =>
    match scan_uint r with
    | none => none
    | some (b, r2) =>
      match r2.dropWhile is_space with
      | [] => none
      | c :: _ => some (a, b, c)

/-- The call `sscanf(line, "%u", n)` when it returns 1. -/
def sscanf_u (line : List Char) : Option Nat :=
  match scan_uint (c_str line) with
  | none => none
  | some (n, _) => some n

/-- The buffer `line` and the stream after a call `fgets(line, BUFF_LEN, stream)` whose result
is not looked at: at end of input `fgets` leaves the buffer as it was. -/
def fgets_keep (line : List Char) (stream : List Char) : List Char × List Char :=
  match (fgets BUFF_LEN stream).1 with
  | none => (line, (fgets BUFF_LEN stream).2)
  | some l => (l, (fgets BUFF_LEN stream).2)

/-! ## Helper functions -/

/-- The function `check_length`.  For the empty string the code reads the byte at `line[-1]`,
which lies before the buffer; that byte is taken to differ from the line break (with a line
break there the code returns 1).  The parse functions return the same code in both cases. -/
def check_length (line : List Char) : Int :=
  if (c_str line).getLast? ≠ some '\n' then
    if (c_str line).length = 0 then 0 else -1
  else 1

/-- Inner loop of `is_sunk` and `is_game_over`: the cells `answer[i][j]`, `answer[i][j + 1]`,
..., `fuel` of them; `some true` when a cell passes the test of the `if`. -/
def scan_col (p : Int → Bool) (answer : Answer) (i : Nat) : Nat → Nat → Option Bool
  | 0, _ => some false
  | fuel + 1, j =>
    match cell_get answer i j with
    | none => none
    | some v => if p v then some true else scan_col p answer i fuel (j + 1)

/-- Outer loop of `is_sunk` and `is_game_over`: the columns `i, i + 1, ...`, `fuel` of them. -/
def scan_grid (p : Int → Bool) (height : Nat) (answer : Answer) : Nat → Nat → Option Bool
  | 0, _ => some false
  | fuel + 1, i =>
    match scan_col p answer i height 0 with
    | none => none
    | some true => some true
    | some false => scan_grid p height answer fuel (i + 1)

/-- The function `is_sunk`: 0 as soon as a cell equals `n`, 1 otherwise. -/
def is_sunk (n : Int) (board : Grid) (answer : Answer) : Option Int :=
  match scan_grid (fun v => v == n) board.height answer board.width 0 with
  | none => none
  | some true => some 0
  | some false => some 1

/-- The function `is_game_over`: 0 as soon as a cell is greater than 1, 1 otherwise. -/
def is_game_over (board : Grid) (answer : Answer) : Option Int :=
  match scan_grid (fun v => decide (v > 1)) board.height answer board.width 0 with
  | none => none
  | some true => some 0
  | some false => some 1

/-- The function `read_two_uints`: the status and the two values when they are stored. -/
def read_two_uints (line : List Char) : Int × Option (Nat × Nat) :=
  if check_length line = 0 then (-1, none)
  else
    match sscanf_uu line with
    | none => (-1, none)
    | some (a, b) => if a > INT_MAX ∨ b > INT_MAX then (-1, some (a, b)) else (0, some (a, b))

/-! ## Parse functions -/

/-- What `parse_rules` leaves when it returns 0: the board, the number of ships, the ship array
and the rest of the rules stream. -/
structure RulesResult where
  board : Grid
  numShips : Nat
  ships : List Ship
  rest : List Char

/-- The loop of `parse_rules` from ship `i` on, `fuel` ships being left: the error code, or the
ship array and the rest of the stream once every line is accepted. -/
def parse_rules_from :
    Nat → Nat → List Char → List Ship → Option (Except Int (List Ship × List Char))
  | 0, _, stream, ships => some (.ok (ships, stream))
  | fuel + 1, i, stream, ships =>
    match (fgets BUFF_LEN stream).1 with
    | none => some (.error rules_invalid)
    | some line =>
      if check_length line = 0 then some (.error rules_invalid)
      else
        match ships[i]? with
        | none => none
        | some s =>
          match sscanf_u line with
          | none => some (.error rules_invalid)
          | some len =>
            if len < 1 then some (.error rules_invalid)
            else
              parse_rules_from fuel (i + 1) (fgets BUFF_LEN stream).2
                (ships.set i { s with length := len })

/-- The function `parse_rules`.  The buffer `line` is not initialised: `line0` is what it
holds when the function is entered. -/
def parse_rules (line0 : List Char) (rules : List Char) (ships : List Ship) :
    Option (Except Int RulesResult) :=
  if (read_two_uints (fgets_keep line0 rules).1).1 ≠ 0 then some (.error rules_invalid)
  else
    match (read_two_uints (fgets_keep line0 rules).1).2 with
    | none => some (.error rules_invalid)
    | some (width, height) =>
      if width ≤ 0 ∨ height ≤ 0 then some (.error rules_invalid)
      else if check_length
          (fgets_keep (fgets_keep line0 rules).1 (fgets_keep line0 rules).2).1 = 0 then
        some (.error rules_invalid)
      else
        match sscanf_u (fgets_keep (fgets_keep line0 rules).1 (fgets_keep line0 rules).2).1 with
        | none => some (.error rules_invalid)
        | some numShips =>
          if numShips ≤ 0 then some (.error rules_invalid)
          else if numShips > MAX_SHIPS then some (.error rules_invalid)
          else
            match parse_rules_from numShips 0
                (fgets_keep (fgets_keep line0 rules).1 (fgets_keep line0 rules).2).2 ships with
            | none => none
            | some (.error e) => some (.error e)
            | some (.ok (ships1, rest)) => some (.ok ⟨⟨width, height⟩, numShips, ships1, rest⟩)

/-- The out of bounds check of `parse_map` on the ship just read: 0 when the ship passes. -/
def map_bounds (board : Grid) (s : Ship) : Int :=
  if s.xPos > board.width ∨ s.xPos > board.height then map_oob
  else if s.direction = 'N' then
    if to_int (usub s.yPos (usub s.length 1)) < 0 then map_oob else 0
  else if s.direction = 'S' then
    if to_uint (to_int (uadd s.yPos (usub s.length 1))) ≥ board.height then map_oob else 0
  else if s.direction = 'E' then
    if to_uint (to_int (uadd s.xPos (usub s.length 1))) ≥ board.width then map_oob else 0
  else if s.direction = 'W' then
    if to_int (usub s.xPos (usub s.length 1)) < 0 then map_oob else 0
  else map_invalid

/-- The loop of `parse_map` from ship `i` on, `fuel` ships being left: the error code, or the
ship array once every line is accepted. -/
def parse_map_from (board : Grid) :
    Nat → Nat → List Char → List Ship → Option (Except Int (List Ship))
  | 0, _, _, ships => some (.ok ships)
  | fuel + 1, i, stream, ships =>
    match (fgets BUFF_LEN stream).1 with
    | none => some (.error map_invalid)
    | some line =>
      if check_length line = 0 then some (.error map_invalid)
      else
        match ships[i]? with
        | none => none
        | some s =>
          match sscanf_uuc line with
          | none => some (.error map_invalid)
          | some (x, y, d) =>
            if d ≠ 'N' ∧ d ≠ 'S' ∧ d ≠ 'E' ∧ d ≠ 'W' then some (.error map_invalid)
            else if map_bounds board { s with xPos := x, yPos := y, direction := d } ≠ 0 then
              some (.error (map_bounds board { s with xPos := x, yPos := y, direction := d }))
            else
              parse_map_from board fuel (i + 1) (fgets BUFF_LEN stream).2
                (ships.set i { s with xPos := x, yPos := y, direction := d })

/-- The function `parse_map`. -/
def parse_map (mapFile : List Char) (ships : List Ship) (board : Grid) (numShips : Nat) :
    Option (Except Int (List Ship)) :=
  parse_map_from board numShips 0 mapFile ships

/-- The inner loop of `place_ships` for ship `i`, at offsets `x`, `y`, `fuel` iterations being
left: the code returned by `place_ships` if it returns from inside the loop (0 if the loop
ends) and the array. -/
def place_ship (s : Ship) (i : Nat) : Nat → Int → Int → Answer → Option (Int × Answer)
  | 0, _, _, answer => some (0, answer)
  | fuel + 1, x, y, answer =>
    match cell_get answer (uadd s.xPos (to_uint x)) (uadd s.yPos (to_uint y)) with
    | none => none
    | some v =>
      if v ≠ 1 then some (map_overlap, answer)
      else if s.direction = 'N' then
        place_ship s i fuel x (y - 1)
          (cell_set answer (uadd s.xPos (to_uint x)) (uadd s.yPos (to_uint y)) ((i : Int) + 2))
      else if s.direction = 'S' then
        place_ship s i fuel x (y + 1)
          (cell_set answer (uadd s.xPos (to_uint x)) (uadd s.yPos (to_uint y)) ((i : Int) + 2))
      else if s.direction = 'E' then
        place_ship s i fuel (x + 1) y
          (cell_set answer (uadd s.xPos (to_uint x)) (uadd s.yPos (to_uint y)) ((i : Int) + 2))
      else if s.direction = 'W' then
        place_ship s i fuel (x - 1) y
          (cell_set answer (uadd s.xPos (to_uint x)) (uadd s.yPos (to_uint y)) ((i : Int) + 2))
      else
        some (map_invalid,
          cell_set answer (uadd s.xPos (to_uint x)) (uadd s.yPos (to_uint y)) ((i : Int) + 2))

/-- The outer loop of `place_ships` from ship `i` on, `fuel` ships being left. -/
def place_ships_from (ships : List Ship) : Nat → Nat → Answer → Option (Int × Answer)
  | 0, _, answer => some (0, answer)
  | fuel + 1, i, answer =>
    match ships[i]? with
    | none => none
    | some s =>
      match place_ship s i s.length 0 0 answer with
      | none => none
      | some (status, answer1) =>
        if status = 0 then place_ships_from ships fuel (i + 1) answer1
        else some (status, answer1)

/-- The function `place_ships`: the code returned and the array as it is left. -/
def place_ships (ships : List Ship) (numShips : Nat) (answer : Answer) : Option (Int × Answer) :=
  place_ships_from ships numShips 0 answer

/-! ## The guess -/

/-- What a call of `make_guess` does: the strings printed, the array as it is left, and the
exit code when the call ends the program. -/
structure GuessResult where
  out : List String
  answer : Answer
  exited : Option Int
deriving DecidableEq

/-- The function `make_guess`. -/
def make_guess (xGuess yGuess : Nat) (board : Grid) (answer : Answer) : Option GuessResult :=
  if xGuess ≥ board.width ∨ yGuess ≥ board.height then
    some ⟨["Bad guess\n"], answer, none⟩
  else
    match cell_get answer xGuess yGuess with
    | none => none
    | some v =>
      if v = 1 ∨ v = -1 then
        some ⟨["Miss\n"], cell_set answer xGuess yGuess (-1), none⟩
      else if v > 0 then
        match is_sunk (- -v) board (cell_set answer xGuess yGuess (-v)) with
        | none => none
        | some sunk =>
          match is_game_over board (cell_set answer xGuess yGuess (-v)) with
          | none => none
          | some over =>
            some ⟨["Hit\n"] ++ (if sunk ≠ 0 then ["Ship sunk\n"] else [])
                    ++ (if over ≠ 0 then ["Game over\n"] else []),
                  cell_set answer xGuess yGuess (-v),
                  if over ≠ 0 then some 0 else none⟩
      else
        match is_game_over board answer with
        | none => none
        | some over =>
          some ⟨["Hit\n"] ++ (if over ≠ 0 then ["Game over\n"] else []),
                answer,
                if over ≠ 0 then some 0 else none⟩

/-! ## Interaction functions -/

/-- The `switch` of `display_board`: the string printed for a cell. -/
def glyph (v : Int) : String :=
  if v = 1 then "."
  else if v = -1 then "/"
  else if v > 1 then "." else "*"

/-- Inner loop of `display_board` for the row `i`, from column `j` on, `fuel` columns being
left, with the line break printed after the row. -/
def display_row (answer : Answer) (i : Nat) : Nat → Nat → Option (List String)
  | 0, _ => some ["\n"]
  | fuel + 1, j =>
    match cell_get answer j i with
    | none => none
    | some v =>
      match display_row answer i fuel (j + 1) with
      | none => none
      | some out => some (glyph v :: out)

/-- Outer loop of `display_board` from row `i` on, `fuel` rows being left. -/
def display_rows (gWidth : Nat) (answer : Answer) : Nat → Nat → Option (List String)
  | 0, _ => some []
  | fuel + 1, i =>
    match display_row answer i gWidth 0 with
    | none => none
    | some row =>
      match display_rows gWidth answer fuel (i + 1) with
      | none => none
      | some out => some (row ++ out)

/-- The function `display_board`: the strings printed. -/
def display_board (gWidth gHeight : Nat) (answer : Answer) : Option (List String) :=
  display_rows gWidth answer gHeight 0

/-- The function `display_prompt`: the string printed. -/
def display_prompt : List String := ["(x,y)>"]

/-- The loop of `get_prompt` that reads the rest of an over-long line with `getchar`: the
value returned by `get_prompt` and the rest of the stream.  The variable `c` is a `char`, taken
to be signed: the byte 255 compares equal to `EOF`. -/
def flush_line : List Char → Int × List Char
  | [] => (-1, [])
  | c :: s =>
    if c = '\n' then (1, s)
    else if c = '\xff' then (-1, s)
    else flush_line s

/-- The function `get_prompt`: the value returned, the guess when `read_two_uints` stores one,
and the rest of the input.  The buffer `line` is not initialised: `line0` is what it holds
when the function is entered. -/
def get_prompt (line0 : List Char) (stdin : List Char) : Int × Option (Nat × Nat) × List Char :=
  if check_length (fgets_keep line0 stdin).1 = 0 then (-1, none, (fgets_keep line0 stdin).2)
  else if check_length (fgets_keep line0 stdin).1 = -1 then
    ((flush_line (fgets_keep line0 stdin).2).1, none, (flush_line (fgets_keep line0 stdin).2).2)
  else if (read_two_uints (fgets_keep line0 stdin).1).1 ≠ 0 then
    (1, (read_two_uints (fgets_keep line0 stdin).1).2, (fgets_keep line0 stdin).2)
  else (0, (read_two_uints (fgets_keep line0 stdin).1).2, (fgets_keep line0 stdin).2)

/-- What one turn of the interaction loop of `main` does: the strings printed, the array and the
input as they are left, and the exit code when the turn ends the program. -/
structure TurnResult where
  out : List String
  answer : Answer
  stdin : List Char
  exited : Option Int
deriving DecidableEq

/-- The body of the interaction loop of `main`; `line0` is what the buffer of `get_prompt`
holds when it is entered. -/
def main_turn (line0 : List Char) (board : Grid) (answer : Answer) (stdin : List Char) :
    Option TurnResult :=
  match display_board board.width board.height answer with
  | none => none
  | some pic =>
    if (get_prompt line0 stdin).1 = 0 then
      match (get_prompt line0 stdin).2.1 with
      | none => none
      | some (xGuess, yGuess) =>
        match make_guess xGuess yGuess board answer with
        | none => none
        | some r =>
          some ⟨pic ++ display_prompt ++ r.out, r.answer, (get_prompt line0 stdin).2.2, r.exited⟩
    else if (get_prompt line0 stdin).1 = 1 then
      some ⟨pic ++ display_prompt ++ ["Bad guess\n"], answer, (get_prompt line0 stdin).2.2, none⟩
    else if (get_prompt line0 stdin).1 = -1 then
      some ⟨pic ++ display_prompt ++ ["Bad guess\n"], answer, (get_prompt line0 stdin).2.2,
        some bad_guess⟩
    else
      some ⟨pic ++ display_prompt, answer, (get_prompt line0 stdin).2.2, none⟩

/-! ## Specification vocabulary -/

/-- Unit vector of a direction (N: y decreases, S: y increases, E: x increases, W: x
decreases). -/
def unit_vec (d : Char) : Int × Int :=
  if d = 'N' then (0, -1)
  else if d = 'S' then (0, 1)
  else if d = 'E' then (1, 0)
  else if d = 'W' then (-1, 0)
  else (0, 0)

/-- The `k`-th occupied cell of a ship: `anchor + k * unit(direction)`. -/
def ship_cell (s : Ship) (k : Nat) : Int × Int :=
  ((s.xPos : Int) + (k : Int) * (unit_vec s.direction).1,
   (s.yPos : Int) + (k : Int) * (unit_vec s.direction).2)

/-- The cell `(x, y)` belongs to the occupied-cell set of the ship. -/
def Occupies (s : Ship) (x y : Int) : Prop :=
  ∃ k, k < s.length ∧ ship_cell s k = (x, y)

instance (s : Ship) (x y : Int) : Decidable (Occupies s x y) := by
  unfold Occupies; infer_instance

/-- The cell lies within `[0,width) x [0,height)`. -/
def CellIn (b : Grid) (c : Int × Int) : Prop :=
  0 ≤ c.1 ∧ c.1 < b.width ∧ 0 ≤ c.2 ∧ c.2 < b.height

instance (b : Grid) (c : Int × Int) : Decidable (CellIn b c) := by
  unfold CellIn; infer_instance

/-- Every occupied cell of the ship lies within `[0,width) x [0,height)`. -/
def InBoard (board : Grid) (s : Ship) : Prop :=
  ∀ k, k < s.length → CellIn board (ship_cell s k)

instance (board : Grid) (s : Ship) : Decidable (InBoard board s) := by
  unfold InBoard; infer_instance

/-- The direction is one of `N`, `S`, `E`, `W`. -/
def ValidDir (d : Char) : Prop := d = 'N' ∨ d = 'S' ∨ d = 'E' ∨ d = 'W'

instance (d : Char) : Decidable (ValidDir d) := by
  unfold ValidDir; infer_instance

/-- The text `s` starts with an unsigned integer as the conversion `%u` reads it: white space
`w`, an optional sign `sg`, a non-empty run of digits `d` that the rest `r` of the text does not
extend; `v` is the value stored. -/
def LeadingUInt (s : List Char) (v : Nat) (r : List Char) : Prop :=
  ∃ w sg d : List Char, s = w ++ sg ++ d ++ r ∧
    (∀ c, c ∈ w → is_space c = true) ∧
    (sg = [] ∨ sg = ['+'] ∨ sg = ['-']) ∧
    d ≠ [] ∧ (∀ c, c ∈ d → c.isDigit = true) ∧
    (∀ c, r.head? = some c → c.isDigit = false) ∧
    v = store_uint (decide (sg = ['-'])) d

/-- The text starts with two non-negative integers separated by white space: optional white
space, the digits `d1`, white space, the digits `d2`, which the rest of the text does not
extend; `a` and `b` are the values of `d1` and `d2`. -/
def StartsWithTwoNumbers (s : List Char) (a b : Nat) : Prop :=
  ∃ w1 d1 w2 d2 rest : List Char, s = w1 ++ d1 ++ w2 ++ d2 ++ rest ∧
    (∀ c, c ∈ w1 → is_space c = true) ∧
    d1 ≠ [] ∧ (∀ c, c ∈ d1 → c.isDigit = true) ∧
    w2 ≠ [] ∧ (∀ c, c ∈ w2 → is_space c = true) ∧
    d2 ≠ [] ∧ (∀ c, c ∈ d2 → c.isDigit = true) ∧
    (∀ c, rest.head? = some c → c.isDigit = false) ∧
    a = digits_value d1 ∧ b = digits_value d2

/-- No numeral of the text reaches `2 ^ 32`: every block of digits of the text has a value
that an `unsigned int` holds. -/
def SmallNumerals (text : List Char) : Prop :=
  ∀ pre d post : List Char, text = pre ++ d ++ post →
    (∀ c, c ∈ d → c.isDigit = true) → digits_value d < UINT_MOD

/-- The value is one of the four cell states: Empty (1), Missed (-1), ShipIntact (`id + 2`,
at least 2) or ShipHit (`-(id + 2)`, at most -2). -/
def ValidCell (v : Int) : Prop := v = 1 ∨ v = -1 ∨ 2 ≤ v ∨ v ≤ -2

instance (v : Int) : Decidable (ValidCell v) := by
  unfold ValidCell; infer_instance

/-- The array has the shape allocated in `main`: `width` columns of `height` cells. -/
def Shaped (board : Grid) (answer : Answer) : Prop :=
  answer.length = board.width ∧ ∀ col, col ∈ answer → col.length = board.height

instance (board : Grid) (answer : Answer) : Decidable (Shaped board answer) := by
  unfold Shaped; infer_instance


/-- The ship `k` is the first ship of the fleet, in fleet order, whose occupied-cell set
contains `(X, Y)`. -/
def FirstOwner (ships : List Ship) (X Y : Int) (k : Nat) : Prop :=
  (∃ s, ships[k]? = some s ∧ Occupies s X Y) ∧
  ∀ k1 s1, k1 < k → ships[k1]? = some s1 → ¬ Occupies s1 X Y

/-- Every marked cell of the array carries the index of its first owner among the first `n`
ships. -/
def Owned (ships : List Ship) (n : Nat) (a : Answer) : Prop :=
  ∀ (X Y : Nat) (v : Int), cell_get a X Y = some v → v ≠ 1 →
    ∃ k : Nat, k < n ∧ v = (k : Int) + 2 ∧ FirstOwner ships X Y k

/-- The ship `s`, of index `i`, shares a cell with a ship of lower index. -/
def Clash (ships : List Ship) (i : Nat) (s : Ship) : Prop :=
  ∃ (k : Nat) (sk : Ship) (X Y : Int),
    k < i ∧ ships[k]? = some sk ∧ Occupies sk X Y ∧ Occupies s X Y

/-- The ships of index below `i` are placed on the array: a cell is 1 if none of them occupies
it, and `k + 2` if ship `k` is the one that does. -/
def Placed (ships : List Ship) (b : Grid) (i : Nat) (a : Answer) : Prop :=
  Shaped b a ∧ ∀ (X Y : Nat) (v : Int), cell_get a X Y = some v →
    (v = 1 ∧ ∀ k s, k < i → ships[k]? = some s → ¬ Occupies s X Y) ∨
    (∃ k s, k < i ∧ ships[k]? = some s ∧ v = (k : Int) + 2 ∧ Occupies s X Y ∧
      ∀ k1 s1, k1 < i → ships[k1]? = some s1 → Occupies s1 X Y → k1 = k)

/-- The array `a1` is the array `a` with the cells `j, ..., k0 - 1` of the ship set to
`i + 2`. -/
def Marked (b : Grid) (s : Ship) (i j k0 : Nat) (a a1 : Answer) : Prop :=
  Shaped b a1 ∧
  (∀ X Y : Nat, (∃ k, j ≤ k ∧ k < k0 ∧ ship_cell s k = ((X : Int), (Y : Int))) →
    cell_get a1 X Y = some ((i : Int) + 2)) ∧
  (∀ X Y : Nat, (¬ ∃ k, j ≤ k ∧ k < k0 ∧ ship_cell s k = ((X : Int), (Y : Int))) →
    cell_get a1 X Y = cell_get a X Y)

/-- The index arithmetic of `place_ships` does not wrap around at this cell. -/
def NoWrap (c : Int × Int) : Prop :=
  -1 ≤ c.1 ∧ c.1 < 4294967296 ∧ -1 ≤ c.2 ∧ c.2 < 4294967296

/-- The guesses of the interaction loop of `main`, in order: the array left when the guesses
run out or a guess ends the program. -/
def play (board : Grid) : List (Nat × Nat) → Answer → Option Answer
  | [], answer => some answer
  | (x, y) :: rest, answer =>
    match make_guess x y board answer with
    | none => none
    | some r => if r.exited.isSome then some r.answer else play board rest r.answer

end Naval

namespace Naval

/-! ## The answer array: reads, writes, shape -/

theorem cell_get_cell_set (a : Answer) (x y : Nat) (v : Int) (x1 y1 : Nat) :
    cell_get (cell_set a x y v) x1 y1 =
      if x1 = x ∧ y1 = y ∧ (cell_get a x y).isSome = true then some v else cell_get a x1 y1 := by
  unfold cell_set cell_get
  cases hx : a[x]? with
  | none =>
    simp only [Option.isSome_none]
    simp
  | some col =>
    have hxlt : x < a.length := by
      rcases List.getElem?_eq_some.mp hx with ⟨h, _⟩
      exact h
    by_cases hx1 : x1 = x
    · subst hx1
      simp only [List.getElem?_set_self hxlt, true_and]
      by_cases hy1 : y1 = y
      · subst hy1
        cases hy : col[y1]? with
        | none =>
          have hlen : col.length ≤ y1 := List.getElem?_eq_none_iff.mp hy
          simp [List.getElem?_eq_none_iff.mpr, hlen, hx]
        | some w =>
          have hylt : y1 < col.length := by
            rcases List.getElem?_eq_some.mp hy with ⟨h, _⟩
            exact h
          simp [List.getElem?_set_self hylt]
      · have : y ≠ y1 := fun h => hy1 h.symm
        simp [List.getElem?_set_ne this, hy1, hx]
    · have : x ≠ x1 := fun h => hx1 h.symm
      simp [List.getElem?_set_ne this, hx1]

theorem cell_get_cell_set_self (a : Answer) (x y : Nat) (v w : Int)
    (h : cell_get a x y = some w) : cell_get (cell_set a x y v) x y = some v := by
  rw [cell_get_cell_set]; simp [h]

theorem cell_get_cell_set_other (a : Answer) (x y : Nat) (v : Int) (x1 y1 : Nat)
    (h : ¬ (x1 = x ∧ y1 = y)) : cell_get (cell_set a x y v) x1 y1 = cell_get a x1 y1 := by
  rw [cell_get_cell_set]
  have : ¬ (x1 = x ∧ y1 = y ∧ (cell_get a x y).isSome = true) := fun h1 => h ⟨h1.1, h1.2.1⟩
  simp [this]

theorem cell_get_isSome_of_shaped {b : Grid} {a : Answer} (h : Shaped b a) (x y : Nat) :
    (cell_get a x y).isSome = true ↔ x < b.width ∧ y < b.height := by
  unfold cell_get
  cases hx : a[x]? with
  | none =>
    have : a.length ≤ x := List.getElem?_eq_none_iff.mp hx
    simp only [Option.isSome_none]
    constructor
    · intro h1; cases h1
    · intro h1; rw [h.1] at this; omega
  | some col =>
    rcases List.getElem?_eq_some.mp hx with ⟨hlt, hcol⟩
    have hmem : col ∈ a := by rw [← hcol]; exact List.getElem_mem _
    have hlen := h.2 col hmem
    rw [h.1] at hlt
    simp only []
    constructor
    · intro h1
      rcases Option.isSome_iff_exists.mp h1 with ⟨w, hw⟩
      rcases List.getElem?_eq_some.mp hw with ⟨hy, _⟩
      exact ⟨hlt, by omega⟩
    · intro h1
      have : y < col.length := by omega
      simp [List.getElem?_eq_getElem this]

theorem cell_get_some_of_shaped {b : Grid} {a : Answer} (h : Shaped b a) {x y : Nat}
    (hx : x < b.width) (hy : y < b.height) : ∃ v, cell_get a x y = some v :=
  Option.isSome_iff_exists.mp ((cell_get_isSome_of_shaped h x y).mpr ⟨hx, hy⟩)

theorem cell_get_bounds_of_shaped {b : Grid} {a : Answer} (h : Shaped b a) {x y : Nat} {v : Int}
    (hv : cell_get a x y = some v) : x < b.width ∧ y < b.height :=
  (cell_get_isSome_of_shaped h x y).mp (by simp [hv])

theorem shaped_cell_set {b : Grid} {a : Answer} (h : Shaped b a) (x y : Nat) (v : Int) :
    Shaped b (cell_set a x y v) := by
  unfold cell_set
  cases hx : a[x]? with
  | none => exact h
  | some col =>
    rcases List.getElem?_eq_some.mp hx with ⟨hlt, hcol⟩
    have hmem : col ∈ a := by rw [← hcol]; exact List.getElem_mem _
    refine ⟨by simp [h.1], ?_⟩
    intro c hc
    rcases List.mem_or_eq_of_mem_set hc with h1 | h1
    · exact h.2 c h1
    · rw [h1, List.length_set]; exact h.2 col hmem

theorem shaped_init_answer (b : Grid) : Shaped b (init_answer b) := by
  unfold init_answer
  refine ⟨by simp, ?_⟩
  intro c hc
  rw [(List.mem_replicate.mp hc).2]
  simp

theorem cell_get_init_answer (b : Grid) (x y : Nat) :
    cell_get (init_answer b) x y = if x < b.width ∧ y < b.height then some 1 else none := by
  unfold cell_get init_answer
  by_cases hx : x < b.width
  · by_cases hy : y < b.height
    · simp [List.getElem?_replicate, hx, hy]
    · simp [List.getElem?_replicate, hx, hy]
  · simp [List.getElem?_replicate, hx]

theorem fresh_init_answer (b : Grid) :
    ∀ X Y v, cell_get (init_answer b) X Y = some v → 1 ≤ v := by
  intro X Y v hv
  rw [cell_get_init_answer] at hv
  split_ifs at hv
  cases hv
  omega

/-- Two arrays of the same shape with the same cells are equal. -/
theorem answer_ext {b : Grid} {a1 a2 : Answer} (h1 : Shaped b a1) (h2 : Shaped b a2)
    (h : ∀ x y, cell_get a1 x y = cell_get a2 x y) : a1 = a2 := by
  apply List.ext_getElem? 
  intro x
  cases hx1 : a1[x]? with
  | none =>
    have : a1.length ≤ x := List.getElem?_eq_none_iff.mp hx1
    have : a2.length ≤ x := by rw [h2.1, ← h1.1]; exact this
    rw [List.getElem?_eq_none_iff.mpr this]
  | some c1 =>
    rcases List.getElem?_eq_some.mp hx1 with ⟨hlt, hc1⟩
    have hlt2 : x < a2.length := by rw [h2.1, ← h1.1]; exact hlt
    have hx2 : a2[x]? = some (a2[x]) := List.getElem?_eq_getElem hlt2
    rw [hx2]
    congr 1
    apply List.ext_getElem?
    intro y
    have := h x y
    unfold cell_get at this
    rw [hx1, hx2] at this
    exact this

/-- Writing to a cell the value it holds leaves the array as it is. -/
theorem cell_set_same {b : Grid} {a : Answer} (hs : Shaped b a) {x y : Nat} {v : Int}
    (hv : cell_get a x y = some v) : cell_set a x y v = a := by
  apply answer_ext (shaped_cell_set hs x y v) hs
  intro X Y
  rw [cell_get_cell_set]
  split_ifs with h
  · rw [h.1, h.2.1, hv]
  · rfl

theorem same_domain {b : Grid} {a1 a2 : Answer} (h1 : Shaped b a1) (h2 : Shaped b a2)
    {X Y : Nat} {v : Int} (hv : cell_get a1 X Y = some v) : ∃ w, cell_get a2 X Y = some w := by
  have hb := cell_get_bounds_of_shaped h1 hv
  exact cell_get_some_of_shaped h2 hb.1 hb.2

/-! ## The scans `is_sunk` and `is_game_over` -/

theorem scan_col_spec {b : Grid} {a : Answer} (h : Shaped b a) (p : Int → Bool) (i : Nat)
    (hi : i < b.width) : ∀ fuel j, j + fuel = b.height →
      ∃ r, scan_col p a i fuel j = some r ∧
        (r = true ↔ ∃ y v, j ≤ y ∧ cell_get a i y = some v ∧ p v = true) := by
  intro fuel
  induction fuel with
  | zero =>
    intro j hj
    refine ⟨false, rfl, ?_⟩
    constructor
    · intro h1; cases h1
    · rintro ⟨y, v, hy, hv, _⟩
      have := (cell_get_bounds_of_shaped h hv).2
      omega
  | succ fuel ih =>
    intro j hj
    rcases cell_get_some_of_shaped h hi (show j < b.height by omega) with ⟨w, hw⟩
    unfold scan_col
    rw [hw]
    by_cases hp : p w = true
    · refine ⟨true, by simp [hp], ?_⟩
      simp only [true_iff]
      exact ⟨j, w, le_refl _, hw, hp⟩
    · rcases ih (j + 1) (by omega) with ⟨r, hr, hiff⟩
      refine ⟨r, by simp [hp, hr], ?_⟩
      rw [hiff]
      constructor
      · rintro ⟨y, v, hy, hv, hpv⟩
        exact ⟨y, v, by omega, hv, hpv⟩
      · rintro ⟨y, v, hy, hv, hpv⟩
        have hne : y ≠ j := by
          intro he
          subst he
          rw [hw] at hv
          cases hv
          exact hp hpv
        exact ⟨y, v, by omega, hv, hpv⟩

theorem scan_grid_spec {b : Grid} {a : Answer} (h : Shaped b a) (p : Int → Bool) :
    ∀ fuel i, i + fuel = b.width →
      ∃ r, scan_grid p b.height a fuel i = some r ∧
        (r = true ↔ ∃ x y v, i ≤ x ∧ cell_get a x y = some v ∧ p v = true) := by
  intro fuel
  induction fuel with
  | zero =>
    intro i hi
    refine ⟨false, rfl, ?_⟩
    constructor
    · intro h1; cases h1
    · rintro ⟨x, y, v, hx, hv, _⟩
      have := (cell_get_bounds_of_shaped h hv).1
      omega
  | succ fuel ih =>
    intro i hi
    rcases scan_col_spec h p i (by omega) b.height 0 (by omega) with ⟨rc, hrc, hciff⟩
    unfold scan_grid
    rw [hrc]
    cases rc with
    | true =>
      refine ⟨true, rfl, ?_⟩
      simp only [true_iff]
      rcases hciff.mp rfl with ⟨y, v, _, hv, hpv⟩
      exact ⟨i, y, v, le_refl _, hv, hpv⟩
    | false =>
      rcases ih (i + 1) (by omega) with ⟨r, hr, hiff⟩
      refine ⟨r, hr, ?_⟩
      rw [hiff]
      constructor
      · rintro ⟨x, y, v, hx, hv, hpv⟩
        exact ⟨x, y, v, by omega, hv, hpv⟩
      · rintro ⟨x, y, v, hx, hv, hpv⟩
        have hne : x ≠ i := by
          intro he
          subst he
          have : false = true := hciff.mpr ⟨y, v, Nat.zero_le _, hv, hpv⟩
          cases this
        exact ⟨x, y, v, by omega, hv, hpv⟩

/-- On an array of the allocated shape `is_sunk` returns 0 or 1, and 1 exactly when no cell
holds `n`. -/
theorem is_sunk_spec {b : Grid} {a : Answer} (h : Shaped b a) (n : Int) :
    ∃ r, is_sunk n b a = some r ∧ (r = 0 ∨ r = 1) ∧
      (r ≠ 0 ↔ ∀ x y, cell_get a x y ≠ some n) := by
  rcases scan_grid_spec h (fun v => v == n) b.width 0 (by omega) with ⟨r, hr, hiff⟩
  unfold is_sunk
  rw [hr]
  cases r with
  | true =>
    refine ⟨0, rfl, Or.inl rfl, ?_⟩
    rcases hiff.mp rfl with ⟨x, y, v, _, hv, hpv⟩
    have hvn : v = n := by simpa using hpv
    subst hvn
    constructor
    · intro h1; exact absurd rfl h1
    · intro h1; exact absurd hv (h1 x y)
  | false =>
    refine ⟨1, rfl, Or.inr rfl, ?_⟩
    constructor
    · intro _ x y hv
      have : false = true := hiff.mpr ⟨x, y, n, Nat.zero_le _, hv, by simp⟩
      cases this
    · intro _; decide

/-- On an array of the allocated shape `is_game_over` returns 0 or 1, and 1 exactly when no
cell is greater than 1. -/
theorem is_game_over_spec {b : Grid} {a : Answer} (h : Shaped b a) :
    ∃ r, is_game_over b a = some r ∧ (r = 0 ∨ r = 1) ∧
      (r ≠ 0 ↔ ∀ x y v, cell_get a x y = some v → v ≤ 1) := by
  rcases scan_grid_spec h (fun v => decide (v > 1)) b.width 0 (by omega) with ⟨r, hr, hiff⟩
  unfold is_game_over
  rw [hr]
  cases r with
  | true =>
    refine ⟨0, rfl, Or.inl rfl, ?_⟩
    rcases hiff.mp rfl with ⟨x, y, v, _, hv, hpv⟩
    have hvn : v > 1 := by simpa using hpv
    constructor
    · intro h1; exact absurd rfl h1
    · intro h1
      have := h1 x y v hv
      omega
  | false =>
    refine ⟨1, rfl, Or.inr rfl, ?_⟩
    constructor
    · intro _ x y v hv
      by_contra hgt
      have : false = true := hiff.mpr ⟨x, y, v, Nat.zero_le _, hv, by simpa using hgt⟩
      cases this
    · intro _; decide

/-! ## One guess and sequences of guesses -/

/-- On an array of the allocated shape `make_guess` returns. -/
theorem make_guess_returns {b : Grid} {a : Answer} (hs : Shaped b a) (x y : Nat) :
    ∃ r, make_guess x y b a = some r := by
  unfold make_guess
  by_cases hb : x ≥ b.width ∨ y ≥ b.height
  · rw [if_pos hb]; exact ⟨_, rfl⟩
  · rw [if_neg hb]
    rcases cell_get_some_of_shaped hs (show x < b.width by omega) (show y < b.height by omega)
      with ⟨v, hv⟩
    rw [hv]
    simp only
    split_ifs with h1 h2
    · exact ⟨_, rfl⟩
    · rcases is_sunk_spec (shaped_cell_set hs x y (-v)) (- -v) with ⟨sunk, hsunk, _⟩
      rcases is_game_over_spec (shaped_cell_set hs x y (-v)) with ⟨over, hover, _⟩
      rw [hsunk, hover]
      exact ⟨_, rfl⟩
    · rcases is_game_over_spec hs with ⟨over, hover, _⟩
      rw [hover]
      exact ⟨_, rfl⟩

/-- The array left by `make_guess` at an in-bounds cell holding `v`. -/
theorem make_guess_answer {b : Grid} {a : Answer} {x y : Nat} {r : GuessResult} {v : Int}
    (hx : x < b.width) (hy : y < b.height) (hv : cell_get a x y = some v)
    (h : make_guess x y b a = some r) :
    r.answer = if v = 1 ∨ v = -1 then cell_set a x y (-1)
      else if v > 0 then cell_set a x y (-v) else a := by
  have hbounds : ¬ (x ≥ b.width ∨ y ≥ b.height) := by omega
  unfold make_guess at h
  rw [if_neg hbounds, hv] at h
  simp only at h
  split_ifs at h with h1 h2
  · cases h; rw [if_pos h1]
  · cases hsk : is_sunk (- -v) b (cell_set a x y (-v)) with
    | none => rw [hsk] at h; cases h
    | some sunk =>
      rw [hsk] at h
      simp only at h
      cases hov : is_game_over b (cell_set a x y (-v)) with
      | none => rw [hov] at h; cases h
      | some over => rw [hov] at h; cases h; rw [if_neg h1, if_pos h2]
  · cases hov : is_game_over b a with
    | none => rw [hov] at h; cases h
    | some over => rw [hov] at h; cases h; rw [if_neg h1, if_neg h2]

/-- One guess: the array keeps its shape, and a cell either keeps its value, or goes from
Empty (1) to Missed (-1), or from a value `v > 1` to `-v`. -/
theorem make_guess_step {b : Grid} {g : Answer} {x y : Nat} {r : GuessResult}
    (h : make_guess x y b g = some r) :
    (Shaped b g → Shaped b r.answer) ∧
    ∀ X Y, cell_get r.answer X Y = cell_get g X Y ∨
      (cell_get g X Y = some 1 ∧ cell_get r.answer X Y = some (-1)) ∨
      (∃ v : Int, 1 < v ∧ cell_get g X Y = some v ∧ cell_get r.answer X Y = some (-v)) := by
  unfold make_guess at h
  split_ifs at h with hb
  · cases h
    exact ⟨fun hs => hs, fun X Y => Or.inl rfl⟩
  · cases hc : cell_get g x y with
    | none => rw [hc] at h; cases h
    | some v =>
      rw [hc] at h
      simp only at h
      have hupd : ∀ (w : Int) X Y, cell_get (cell_set g x y w) X Y =
          if X = x ∧ Y = y then some w else cell_get g X Y := by
        intro w X Y
        rw [cell_get_cell_set]
        simp [hc]
      split_ifs at h with h1 h2
      · cases h
        refine ⟨fun hs => shaped_cell_set hs _ _ _, ?_⟩
        intro X Y
        simp only
        rw [hupd]
        by_cases hxy : X = x ∧ Y = y
        · rw [if_pos hxy, hxy.1, hxy.2, hc]
          rcases h1 with h1 | h1
          · right; left; rw [h1]; exact ⟨rfl, rfl⟩
          · left; rw [h1]
        · rw [if_neg hxy]; left; rfl
      · cases hsk : is_sunk (- -v) b (cell_set g x y (-v)) with
        | none => rw [hsk] at h; cases h
        | some sunk =>
          rw [hsk] at h
          simp only at h
          cases hov : is_game_over b (cell_set g x y (-v)) with
          | none => rw [hov] at h; cases h
          | some over =>
            rw [hov] at h
            cases h
            refine ⟨fun hs => shaped_cell_set hs _ _ _, ?_⟩
            intro X Y
            simp only
            rw [hupd]
            by_cases hxy : X = x ∧ Y = y
            · rw [if_pos hxy, hxy.1, hxy.2, hc]
              right; right
              push_neg at h1
              exact ⟨v, by omega, rfl, rfl⟩
            · rw [if_neg hxy]; left; rfl
      · cases hov : is_game_over b g with
        | none => rw [hov] at h; cases h
        | some over =>
          rw [hov] at h
          cases h
          exact ⟨fun hs => hs, fun X Y => Or.inl rfl⟩

/-- Along the guesses the array keeps its shape and every cell holds the value given at
placement or its opposite. -/
theorem play_tracks {b : Grid} {g0 : Answer}
    (hf : ∀ X Y v, cell_get g0 X Y = some v → 1 ≤ v) :
    ∀ (gs : List (Nat × Nat)) (g1 g : Answer),
      (Shaped b g1 ∧ ∀ X Y v0, cell_get g0 X Y = some v0 →
        cell_get g1 X Y = some v0 ∨ cell_get g1 X Y = some (-v0)) →
      play b gs g1 = some g →
      (Shaped b g ∧ ∀ X Y v0, cell_get g0 X Y = some v0 →
        cell_get g X Y = some v0 ∨ cell_get g X Y = some (-v0)) := by
  intro gs
  induction gs with
  | nil =>
    intro g1 g hinv h
    simp only [play, Option.some.injEq] at h
    rw [← h]
    exact hinv
  | cons p rest ih =>
    intro g1 g hinv h
    rcases p with ⟨x, y⟩
    rw [play] at h
    cases hmg : make_guess x y b g1 with
    | none => rw [hmg] at h; cases h
    | some r =>
      rw [hmg] at h
      simp only at h
      have hstep := make_guess_step hmg
      have hinv1 : Shaped b r.answer ∧ ∀ X Y v0, cell_get g0 X Y = some v0 →
          cell_get r.answer X Y = some v0 ∨ cell_get r.answer X Y = some (-v0) := by
        refine ⟨hstep.1 hinv.1, ?_⟩
        intro X Y v0 hv0
        have hv0pos := hf X Y v0 hv0
        rcases hstep.2 X Y with he | ⟨h1, h2⟩ | ⟨v, hv, h1, h2⟩
        · rw [he]; exact hinv.2 X Y v0 hv0
        · rcases hinv.2 X Y v0 hv0 with h3 | h3
          · rw [h1] at h3
            cases h3
            right; exact h2
          · rw [h1] at h3
            simp only [Option.some.injEq] at h3
            omega
        · rcases hinv.2 X Y v0 hv0 with h3 | h3
          · rw [h1] at h3
            cases h3
            right; exact h2
          · rw [h1] at h3
            simp only [Option.some.injEq] at h3
            omega
      split_ifs at h
      · simp only [Option.some.injEq] at h
        rw [← h]
        exact hinv1
      · exact ih _ _ hinv1 h

/-! ## Ship cells and index arithmetic -/

theorem uadd_to_uint_cast (a : Nat) (x : Int) :
    ((uadd a (to_uint x) : Nat) : Int) = ((a : Int) + x) % 4294967296 := by
  unfold uadd to_uint UINT_MOD
  omega

theorem ship_cell_inj {s : Ship} (hd : ValidDir s.direction) {k1 k2 : Nat}
    (h : ship_cell s k1 = ship_cell s k2) : k1 = k2 := by
  unfold ship_cell unit_vec at h
  rcases hd with hd | hd | hd | hd <;> simp [hd] at h <;> omega

theorem unit_vec_bounds (d : Char) :
    -1 ≤ (unit_vec d).1 ∧ (unit_vec d).1 ≤ 1 ∧ -1 ≤ (unit_vec d).2 ∧ (unit_vec d).2 ≤ 1 := by
  unfold unit_vec
  split_ifs <;> simp

theorem ship_cell_succ (s : Ship) (j : Nat) :
    ship_cell s (j + 1) =
      ((ship_cell s j).1 + (unit_vec s.direction).1, (ship_cell s j).2 + (unit_vec s.direction).2) := by
  unfold ship_cell
  simp only [Prod.mk.injEq]
  constructor <;> (push_cast; ring)

theorem cell_in_nat {b : Grid} {X Y : Int} (h : CellIn b (X, Y)) :
    ∃ Xn Yn : Nat, X = (Xn : Int) ∧ Y = (Yn : Int) ∧ Xn < b.width ∧ Yn < b.height := by
  unfold CellIn at h
  simp only at h
  exact ⟨X.toNat, Y.toNat, by omega, by omega, by omega, by omega⟩

/-! ## The inner loop of `place_ships` -/

theorem place_ship_succ {s : Ship} (hd : ValidDir s.direction) (i fuel : Nat) (x y : Int)
    (a : Answer) :
    place_ship s i (fuel + 1) x y a =
      match cell_get a (uadd s.xPos (to_uint x)) (uadd s.yPos (to_uint y)) with
      | none => none
      | some v =>
        if v ≠ 1 then some (map_overlap, a)
        else place_ship s i fuel (x + (unit_vec s.direction).1) (y + (unit_vec s.direction).2)
          (cell_set a (uadd s.xPos (to_uint x)) (uadd s.yPos (to_uint y)) ((i : Int) + 2)) := by
  rcases hd with hd | hd | hd | hd <;>
    · rw [place_ship]
      simp only [hd, unit_vec]
      cases cell_get a (uadd s.xPos (to_uint x)) (uadd s.yPos (to_uint y)) with
      | none => rfl
      | some v =>
        by_cases hv : v = 1
        · simp [hv]
          try rfl
        · simp [hv]

theorem place_ship_spec {b : Grid} {s : Ship} (i : Nat)
    (hw : b.width < UINT_MOD) (hh : b.height < UINT_MOD) (hd : ValidDir s.direction) :
    ∀ fuel j (a : Answer), Shaped b a → NoWrap (ship_cell s j) →
      ∃ k0, j ≤ k0 ∧ k0 ≤ j + fuel ∧
        (∀ k, j ≤ k → k < k0 → CellIn b (ship_cell s k)) ∧
        (∀ k (X Y : Nat), j ≤ k → k < k0 → ship_cell s k = ((X : Int), (Y : Int)) →
          cell_get a X Y = some 1) ∧
        ((k0 = j + fuel ∧ ∃ a1,
            place_ship s i fuel ((j : Int) * (unit_vec s.direction).1)
              ((j : Int) * (unit_vec s.direction).2) a = some (0, a1) ∧
            Marked b s i j k0 a a1) ∨
         (k0 < j + fuel ∧ CellIn b (ship_cell s k0) ∧
            (∃ (X Y : Nat) (v : Int), ship_cell s k0 = ((X : Int), (Y : Int)) ∧
              cell_get a X Y = some v ∧ v ≠ 1) ∧
            ∃ a1,
            place_ship s i fuel ((j : Int) * (unit_vec s.direction).1)
              ((j : Int) * (unit_vec s.direction).2) a = some (map_overlap, a1) ∧
            Marked b s i j k0 a a1) ∨
         (k0 < j + fuel ∧ ¬ CellIn b (ship_cell s k0) ∧
            place_ship s i fuel ((j : Int) * (unit_vec s.direction).1)
              ((j : Int) * (unit_vec s.direction).2) a = none)) := by
  intro fuel
  induction fuel with
  | zero =>
    intro j a hs _
    refine ⟨j, le_refl _, le_refl _, ?_, ?_, Or.inl ⟨rfl, a, rfl, hs, ?_, ?_⟩⟩
    · intro k h1 h2; omega
    · intro k X Y h1 h2; omega
    · rintro X Y ⟨k, h1, h2, _⟩; omega
    · intro X Y _; rfl
  | succ fuel ih =>
    intro j a hs hnw
    have hcx := uadd_to_uint_cast s.xPos ((j : Int) * (unit_vec s.direction).1)
    have hcy := uadd_to_uint_cast s.yPos ((j : Int) * (unit_vec s.direction).2)
    have hub := unit_vec_bounds s.direction
    rw [place_ship_succ hd]
    generalize hX : uadd s.xPos (to_uint ((j : Int) * (unit_vec s.direction).1)) = X at hcx
    generalize hY : uadd s.yPos (to_uint ((j : Int) * (unit_vec s.direction).2)) = Y at hcy
    have hc1 : (ship_cell s j).1 = (s.xPos : Int) + (j : Int) * (unit_vec s.direction).1 := rfl
    have hc2 : (ship_cell s j).2 = (s.yPos : Int) + (j : Int) * (unit_vec s.direction).2 := rfl
    rw [← hc1] at hcx
    rw [← hc2] at hcy
    unfold NoWrap at hnw
    unfold UINT_MOD at hw hh
    by_cases hin : CellIn b (ship_cell s j)
    · -- the cell read is inside the array
      have hin0 := hin
      unfold CellIn at hin
      have hXe : (X : Int) = (ship_cell s j).1 := by omega
      have hYe : (Y : Int) = (ship_cell s j).2 := by omega
      have hcell : ship_cell s j = ((X : Int), (Y : Int)) := by
        rw [hXe, hYe]
      rcases cell_get_some_of_shaped hs (show X < b.width by omega) (show Y < b.height by omega)
        with ⟨v, hv⟩
      rw [hv]
      by_cases hv1 : v = 1
      · -- free cell: it is marked and the loop goes on
        subst hv1
        simp only [ne_eq, not_true_eq_false, if_false]
        have hs1 : Shaped b (cell_set a X Y ((i : Int) + 2)) := shaped_cell_set hs _ _ _
        have hnw1 : NoWrap (ship_cell s (j + 1)) := by
          rw [ship_cell_succ]
          unfold NoWrap
          simp only
          omega
        have hoff1 : (j : Int) * (unit_vec s.direction).1 + (unit_vec s.direction).1 =
            ((j + 1 : Nat) : Int) * (unit_vec s.direction).1 := by push_cast; ring
        have hoff2 : (j : Int) * (unit_vec s.direction).2 + (unit_vec s.direction).2 =
            ((j + 1 : Nat) : Int) * (unit_vec s.direction).2 := by push_cast; ring
        rw [hoff1, hoff2]
        rcases ih (j + 1) _ hs1 hnw1 with ⟨k0, hk1, hk2, hcin, hfree, hres⟩
        have hfree0 : ∀ k (X1 Y1 : Nat), j ≤ k → k < k0 →
            ship_cell s k = ((X1 : Int), (Y1 : Int)) → cell_get a X1 Y1 = some 1 := by
          intro k X1 Y1 h1 h2 hk
          by_cases hkj : k = j
          · rw [hkj, hcell] at hk
            simp only [Prod.mk.injEq, Nat.cast_inj] at hk
            rw [← hk.1, ← hk.2]
            exact hv
          · have := hfree k X1 Y1 (by omega) h2 hk
            rw [cell_get_cell_set] at this
            split_ifs at this with hc
            · simp at this
              omega
            · exact this
        have hmark : ∀ a1, Marked b s i (j + 1) k0 (cell_set a X Y ((i : Int) + 2)) a1 →
            Marked b s i j k0 a a1 := by
          rintro a1 ⟨hsa1, hm1, hm2⟩
          refine ⟨hsa1, ?_, ?_⟩
          · rintro X1 Y1 ⟨k, h1, h2, hk⟩
            by_cases hkj : k = j
            · rw [hkj, hcell] at hk
              simp only [Prod.mk.injEq, Nat.cast_inj] at hk
              by_cases hex : ∃ k1, j + 1 ≤ k1 ∧ k1 < k0 ∧ ship_cell s k1 = ((X1 : Int), (Y1 : Int))
              · exact hm1 X1 Y1 hex
              · rw [hm2 X1 Y1 hex, ← hk.1, ← hk.2]
                exact cell_get_cell_set_self _ _ _ _ _ hv
            · exact hm1 X1 Y1 ⟨k, by omega, h2, hk⟩
          · intro X1 Y1 hnex
            have hnex1 : ¬ ∃ k1, j + 1 ≤ k1 ∧ k1 < k0 ∧
                ship_cell s k1 = ((X1 : Int), (Y1 : Int)) := by
              rintro ⟨k1, h1, h2, h3⟩
              exact hnex ⟨k1, by omega, h2, h3⟩
            rw [hm2 X1 Y1 hnex1]
            apply cell_get_cell_set_other
            rintro ⟨h1, h2⟩
            apply hnex
            refine ⟨j, le_refl _, by omega, ?_⟩
            rw [hcell, h1, h2]
        refine ⟨k0, by omega, by omega, ?_, hfree0, ?_⟩
        · intro k h1 h2
          by_cases hkj : k = j
          · rw [hkj]; exact hin0
          · exact hcin k (by omega) h2
        · rcases hres with ⟨hk0, a1, hp, hm⟩ | ⟨hk0, hc0, ⟨X1, Y1, v1, hx1, hv1, hne1⟩, a1, hp, hm⟩ |
              ⟨hk0, hc0, hp⟩
          · exact Or.inl ⟨by omega, a1, hp, hmark a1 hm⟩
          · refine Or.inr (Or.inl ⟨by omega, hc0, ⟨X1, Y1, v1, hx1, ?_, hne1⟩, a1, hp, hmark a1 hm⟩)
            rw [cell_get_cell_set_other] at hv1
            · exact hv1
            · rintro ⟨h1, h2⟩
              have : ship_cell s k0 = ship_cell s j := by rw [hx1, hcell, h1, h2]
              have := ship_cell_inj hd this
              omega
          · exact Or.inr (Or.inr ⟨by omega, hc0, hp⟩)
      · -- occupied cell
        simp only [ne_eq, hv1, not_false_eq_true, if_true]
        refine ⟨j, le_refl _, by omega, ?_, ?_, Or.inr (Or.inl ⟨by omega, hin0,
          ⟨X, Y, v, hcell, hv, hv1⟩, a, rfl, hs, ?_, ?_⟩)⟩
        · intro k h1 h2; omega
        · intro k X1 Y1 h1 h2; omega
        · rintro X1 Y1 ⟨k, h1, h2, _⟩; omega
        · intro X1 Y1 _; rfl
    · -- the cell read is outside the array
      have hnone : cell_get a X Y = none := by
        cases hg : cell_get a X Y with
        | none => rfl
        | some v =>
          exfalso
          have hb := cell_get_bounds_of_shaped hs hg
          apply hin
          unfold CellIn
          omega
      rw [hnone]
      refine ⟨j, le_refl _, by omega, ?_, ?_, Or.inr (Or.inr ⟨by omega, hin, rfl⟩)⟩
      · intro k h1 h2; omega
      · intro k X1 Y1 h1 h2; omega

theorem place_ship_invalid {s : Ship} (hd : ¬ ValidDir s.direction) (i fuel : Nat) (x y : Int)
    (a a1 : Answer) : place_ship s i (fuel + 1) x y a ≠ some (0, a1) := by
  unfold ValidDir at hd
  push_neg at hd
  rw [place_ship]
  cases cell_get a (uadd s.xPos (to_uint x)) (uadd s.yPos (to_uint y)) with
  | none => simp
  | some v =>
    by_cases hv : v = 1
    · simp [hv, hd.1, hd.2.1, hd.2.2.1, hd.2.2.2, map_invalid, ERR_MAPS_INVALID]
    · simp [hv, map_overlap, ERR_MAP_OVERLAP]

theorem fresh_cell_set {a : Answer} (h : ∀ X Y v, cell_get a X Y = some v → 1 ≤ v)
    (x y i : Nat) : ∀ X Y v, cell_get (cell_set a x y ((i : Int) + 2)) X Y = some v → 1 ≤ v := by
  intro X Y v hv
  rw [cell_get_cell_set] at hv
  split_ifs at hv
  · cases hv; omega
  · exact h X Y v hv

/-- The inner loop of `place_ships` keeps the shape of the array and writes only values above
1. -/
theorem place_ship_keeps (b : Grid) (s : Ship) (i : Nat) :
    ∀ fuel x y a st a1, Shaped b a → (∀ X Y v, cell_get a X Y = some v → 1 ≤ v) →
      place_ship s i fuel x y a = some (st, a1) →
      Shaped b a1 ∧ ∀ X Y v, cell_get a1 X Y = some v → 1 ≤ v := by
  intro fuel
  induction fuel with
  | zero =>
    intro x y a st a1 hs hf h
    simp only [place_ship, Option.some.injEq, Prod.mk.injEq] at h
    rw [← h.2]
    exact ⟨hs, hf⟩
  | succ fuel ih =>
    intro x y a st a1 hs hf h
    rw [place_ship] at h
    cases hc : cell_get a (uadd s.xPos (to_uint x)) (uadd s.yPos (to_uint y)) with
    | none => rw [hc] at h; cases h
    | some v =>
      rw [hc] at h
      simp only at h
      have hs1 := shaped_cell_set hs (uadd s.xPos (to_uint x)) (uadd s.yPos (to_uint y))
        ((i : Int) + 2)
      have hf1 := fresh_cell_set hf (uadd s.xPos (to_uint x)) (uadd s.yPos (to_uint y)) i
      split_ifs at h
      · simp only [Option.some.injEq, Prod.mk.injEq] at h
        rw [← h.2]
        exact ⟨hs, hf⟩
      · exact ih _ _ _ _ _ hs1 hf1 h
      · exact ih _ _ _ _ _ hs1 hf1 h
      · exact ih _ _ _ _ _ hs1 hf1 h
      · exact ih _ _ _ _ _ hs1 hf1 h
      · simp only [Option.some.injEq, Prod.mk.injEq] at h
        rw [← h.2]
        exact ⟨hs1, hf1⟩

/-! ## The outer loop of `place_ships` -/

theorem placed_init (ships : List Ship) (b : Grid) : Placed ships b 0 (init_answer b) := by
  refine ⟨shaped_init_answer b, ?_⟩
  intro X Y v hv
  rw [cell_get_init_answer] at hv
  split_ifs at hv
  cases hv
  exact Or.inl ⟨rfl, fun k s hk => by omega⟩

/-- Marking the free cells of ship `i` extends the placement by one ship. -/
theorem placed_succ_of_marked {ships : List Ship} {b : Grid} {i : Nat} {s : Ship} {a a1 : Answer}
    (hs : ships[i]? = some s) (hp : Placed ships b i a)
    (hfree : ∀ k (X Y : Nat), k < s.length → ship_cell s k = ((X : Int), (Y : Int)) →
      cell_get a X Y = some 1)
    (hm : Marked b s i 0 s.length a a1) : Placed ships b (i + 1) a1 := by
  rcases hm with ⟨hsa1, hm1, hm2⟩
  refine ⟨hsa1, ?_⟩
  intro X Y v hv
  by_cases hocc : Occupies s X Y
  · -- a cell of ship `i`
    right
    rcases hocc with ⟨k, hk, hck⟩
    have hv1 := hm1 X Y ⟨k, Nat.zero_le _, hk, hck⟩
    rw [hv] at hv1
    cases hv1
    have hfree1 := hfree k X Y hk hck
    refine ⟨i, s, by omega, hs, rfl, ⟨k, hk, hck⟩, ?_⟩
    intro k1 s1 hk1 hs1 hocc1
    by_contra hne
    have hlt : k1 < i := by omega
    rcases hp.2 X Y 1 hfree1 with ⟨_, hno⟩ | ⟨k2, s2, _, _, h2, _⟩
    · exact hno k1 s1 hlt hs1 hocc1
    · omega
  · have hnex : ¬ ∃ k, 0 ≤ k ∧ k < s.length ∧ ship_cell s k = ((X : Int), (Y : Int)) := by
      rintro ⟨k, _, hk, hck⟩
      exact hocc ⟨k, hk, hck⟩
    rw [hm2 X Y hnex] at hv
    rcases hp.2 X Y v hv with ⟨hv1, hno⟩ | ⟨k2, s2, hk2, hs2, hv2, hocc2, huniq⟩
    · left
      refine ⟨hv1, ?_⟩
      intro k1 s1 hk1 hs1
      by_cases hki : k1 = i
      · rw [hki, hs] at hs1
        cases hs1
        exact hocc
      · exact hno k1 s1 (by omega) hs1
    · right
      refine ⟨k2, s2, by omega, hs2, hv2, hocc2, ?_⟩
      intro k1 s1 hk1 hs1 hocc1
      by_cases hki : k1 = i
      · rw [hki, hs] at hs1
        cases hs1
        exact absurd hocc1 hocc
      · exact huniq k1 s1 (by omega) hs1 hocc1

theorem owned_mono {ships : List Ship} {n m : Nat} {a : Answer} (hnm : n ≤ m)
    (h : Owned ships n a) : Owned ships m a := by
  intro X Y v hv hne
  rcases h X Y v hv hne with ⟨k, hk, hrest⟩
  exact ⟨k, by omega, hrest⟩

/-- Cells marked so far, when the placement of ship `i` stops at an occupied cell, carry the
index of their first owner. -/
theorem owned_of_marked {ships : List Ship} {b : Grid} {i k0 : Nat} {s : Ship} {a a1 : Answer}
    (hs : ships[i]? = some s) (hp : Placed ships b i a) (hk0 : k0 ≤ s.length)
    (hfree : ∀ k (X Y : Nat), k < k0 → ship_cell s k = ((X : Int), (Y : Int)) →
      cell_get a X Y = some 1)
    (hm : Marked b s i 0 k0 a a1) : Owned ships (i + 1) a1 := by
  rcases hm with ⟨_, hm1, hm2⟩
  intro X Y v hv hne
  by_cases hex : ∃ k, 0 ≤ k ∧ k < k0 ∧ ship_cell s k = ((X : Int), (Y : Int))
  · have hv1 := hm1 X Y hex
    rw [hv] at hv1
    cases hv1
    rcases hex with ⟨k, _, hk, hck⟩
    have hfree1 := hfree k X Y hk hck
    refine ⟨i, by omega, rfl, ⟨s, hs, ⟨k, by omega, hck⟩⟩, ?_⟩
    intro k1 s1 hk1 hs1 hocc1
    rcases hp.2 X Y 1 hfree1 with ⟨_, hno⟩ | ⟨k2, s2, _, _, h2, _⟩
    · exact hno k1 s1 hk1 hs1 hocc1
    · omega
  · rw [hm2 X Y hex] at hv
    rcases hp.2 X Y v hv with ⟨hv1, _⟩ | ⟨k2, s2, hk2, hs2, hv2, hocc2, huniq⟩
    · exact absurd hv1 hne
    · refine ⟨k2, by omega, hv2, ⟨s2, hs2, hocc2⟩, ?_⟩
      intro k1 s1 hk1 hs1 hocc1
      have := huniq k1 s1 (by omega) hs1 hocc1
      omega

theorem owned_of_placed {ships : List Ship} {b : Grid} {i : Nat} {a : Answer}
    (hp : Placed ships b i a) : Owned ships i a := by
  intro X Y v hv hne
  rcases hp.2 X Y v hv with ⟨hv1, _⟩ | ⟨k2, s2, hk2, hs2, hv2, hocc2, huniq⟩
  · exact absurd hv1 hne
  · refine ⟨k2, hk2, hv2, ⟨s2, hs2, hocc2⟩, ?_⟩
    intro k1 s1 hk1 hs1 hocc1
    have := huniq k1 s1 (by omega) hs1 hocc1
    omega

/-- The inner loop of `place_ships` on ship `i`, started on an array where the ships before
`i` are placed. -/
theorem place_one_spec {ships : List Ship} {b : Grid} {i : Nat} {s : Ship} {a : Answer}
    (hw : b.width < UINT_MOD) (hh : b.height < UINT_MOD)
    (hd : 0 < s.length → ValidDir s.direction)
    (hxy : 0 < s.length → s.xPos < UINT_MOD ∧ s.yPos < UINT_MOD)
    (hs : ships[i]? = some s) (hp : Placed ships b i a) :
    (∃ a1, place_ship s i s.length 0 0 a = some (0, a1) ∧ Placed ships b (i + 1) a1 ∧
        InBoard b s) ∨
    (∃ a1, place_ship s i s.length 0 0 a = some (map_overlap, a1) ∧ Clash ships i s ∧
        Owned ships (i + 1) a1 ∧ Shaped b a1) ∨
    (place_ship s i s.length 0 0 a = none ∧ ¬ InBoard b s) := by
  by_cases hlen : s.length = 0
  · left
    refine ⟨a, by rw [hlen]; rfl, ?_, ?_⟩
    · refine placed_succ_of_marked hs hp (fun k X Y hk => by omega) ⟨hp.1, ?_, ?_⟩
      · rintro X Y ⟨k, _, hk, _⟩; omega
      · intro X Y _; rfl
    · intro k hk; omega
  have hd := hd (by omega)
  have hx := (hxy (by omega)).1
  have hy := (hxy (by omega)).2
  have hnw : NoWrap (ship_cell s 0) := by
    unfold NoWrap ship_cell
    unfold UINT_MOD at hx hy
    simp only [Nat.cast_zero, zero_mul, add_zero]
    omega
  have h := place_ship_spec i hw hh hd s.length 0 a hp.1 hnw
  simp only [Nat.cast_zero, zero_mul, zero_add] at h
  rcases h with ⟨k0, _, hk0, hcin, hfree, hres⟩
  rcases hres with ⟨hk, a1, hpl, hm⟩ | ⟨hk, hc0, ⟨X, Y, v, hxy, hv, hne⟩, a1, hpl, hm⟩ |
      ⟨hk, hc0, hpl⟩
  · left
    subst hk
    refine ⟨a1, hpl, ?_, ?_⟩
    · exact placed_succ_of_marked hs hp
        (fun k X Y hk hc => hfree k X Y (Nat.zero_le _) hk hc) hm
    · intro k hk
      exact hcin k (Nat.zero_le _) hk
  · right; left
    refine ⟨a1, hpl, ?_, ?_, hm.1⟩
    · rcases hp.2 X Y v hv with ⟨hv1, _⟩ | ⟨k2, s2, hk2, hs2, _, hocc2, _⟩
      · exact absurd hv1 hne
      · exact ⟨k2, s2, X, Y, hk2, hs2, hocc2, ⟨k0, hk, hxy⟩⟩
    · exact owned_of_marked hs hp (by omega)
        (fun k X Y hk hc => hfree k X Y (Nat.zero_le _) hk hc) hm
  · right; right
    refine ⟨hpl, ?_⟩
    intro hin
    exact hc0 (hin k0 hk)

/-- Placement of in-board ships with valid directions: either every ship is placed, or the
loop stops with the overlap code at a ship that shares a cell with an earlier one. -/
theorem place_ships_from_forward {ships : List Ship} {b : Grid}
    (hw : b.width < UINT_MOD) (hh : b.height < UINT_MOD) :
    ∀ fuel i a, Placed ships b i a →
      (∀ k, i ≤ k → k < i + fuel →
        ∃ s, ships[k]? = some s ∧ InBoard b s ∧ ValidDir s.direction) →
      (∃ a1, place_ships_from ships fuel i a = some (0, a1) ∧ Placed ships b (i + fuel) a1) ∨
      (∃ a1, place_ships_from ships fuel i a = some (map_overlap, a1) ∧
        (∃ m s, i ≤ m ∧ m < i + fuel ∧ ships[m]? = some s ∧ Clash ships m s) ∧
        Owned ships (i + fuel) a1 ∧ Shaped b a1) := by
  intro fuel
  induction fuel with
  | zero =>
    intro i a hp _
    exact Or.inl ⟨a, rfl, hp⟩
  | succ fuel ih =>
    intro i a hp hall
    rcases hall i (le_refl _) (by omega) with ⟨s, hs, hin, hd⟩
    have hxy : 0 < s.length → s.xPos < UINT_MOD ∧ s.yPos < UINT_MOD := by
      intro hl
      have h0 := hin 0 hl
      unfold CellIn ship_cell at h0
      simp only [Nat.cast_zero, zero_mul, add_zero] at h0
      omega
    rw [place_ships_from, hs]
    simp only
    rcases place_one_spec hw hh (fun _ => hd) hxy hs hp with
      ⟨a1, hpl, hp1, _⟩ | ⟨a1, hpl, hclash, hown, hsh⟩ | ⟨_, hnin⟩
    · rw [hpl]
      simp only [if_true]
      rcases ih (i + 1) a1 hp1 (fun k h1 h2 => hall k (by omega) (by omega)) with
        ⟨a2, hr, hp2⟩ | ⟨a2, hr, ⟨m, sm, hm1, hm2, hsm, hcl⟩, hown, hsh⟩
      · left
        refine ⟨a2, hr, ?_⟩
        rw [show i + (fuel + 1) = i + 1 + fuel by omega]
        exact hp2
      · right
        refine ⟨a2, hr, ⟨m, sm, by omega, by omega, hsm, hcl⟩, ?_, hsh⟩
        rw [show i + (fuel + 1) = i + 1 + fuel by omega]
        exact hown
    · rw [hpl]
      right
      refine ⟨a1, by simp [map_overlap, ERR_MAP_OVERLAP], ⟨i, s, le_refl _, by omega, hs, hclash⟩,
        owned_mono (by omega) hown, hsh⟩
    · exact absurd hin hnin

/-- A placement that returns 0 has placed every ship inside the board. -/
theorem place_ships_from_success {ships : List Ship} {b : Grid}
    (hw : b.width < UINT_MOD) (hh : b.height < UINT_MOD)
    (hpos : ∀ (k : Nat) (s : Ship), ships[k]? = some s →
      s.xPos < UINT_MOD ∧ s.yPos < UINT_MOD) :
    ∀ fuel i a a1, Placed ships b i a → place_ships_from ships fuel i a = some (0, a1) →
      Placed ships b (i + fuel) a1 ∧
      ∀ k, i ≤ k → k < i + fuel →
        ∃ s, ships[k]? = some s ∧ InBoard b s ∧ (0 < s.length → ValidDir s.direction) := by
  intro fuel
  induction fuel with
  | zero =>
    intro i a a1 hp hr
    simp only [place_ships_from, Option.some.injEq, Prod.mk.injEq, true_and] at hr
    subst hr
    exact ⟨hp, fun k h1 h2 => by omega⟩
  | succ fuel ih =>
    intro i a a1 hp hr
    rw [place_ships_from] at hr
    cases hs : ships[i]? with
    | none => rw [hs] at hr; cases hr
    | some s =>
      rw [hs] at hr
      simp only at hr
      have hd : 0 < s.length → ValidDir s.direction := by
        intro hl
        by_contra hnd
        obtain ⟨n, hn⟩ : ∃ n, s.length = n + 1 := ⟨s.length - 1, by omega⟩
        rw [hn] at hr
        have hne := place_ship_invalid hnd i n 0 0 a
        cases hps : place_ship s i (n + 1) 0 0 a with
        | none => rw [hps] at hr; cases hr
        | some res =>
          rcases res with ⟨st, a2⟩
          rw [hps] at hr
          simp only at hr
          by_cases hst : st = 0
          · subst hst
            exact hne a2 hps
          · rw [if_neg hst] at hr
            simp only [Option.some.injEq, Prod.mk.injEq] at hr
            exact hst hr.1
      rcases place_one_spec hw hh hd (fun _ => hpos i s hs) hs hp with
        ⟨a2, hpl, hp1, hin⟩ | ⟨a2, hpl, _⟩ | ⟨hpl, _⟩
      · rw [hpl] at hr
        simp only [if_true] at hr
        rcases ih (i + 1) a2 a1 hp1 hr with ⟨hp2, hall⟩
        refine ⟨by rw [show i + (fuel + 1) = i + 1 + fuel by omega]; exact hp2, ?_⟩
        intro k h1 h2
        by_cases hki : k = i
        · rw [hki]
          exact ⟨s, hs, hin, hd⟩
        · exact hall k (by omega) (by omega)
      · rw [hpl] at hr
        simp [map_overlap, ERR_MAP_OVERLAP] at hr
      · rw [hpl] at hr
        cases hr

/-- The function `place_ships` keeps the shape of the array and writes only values above 1. -/
theorem place_ships_from_keeps (b : Grid) (ships : List Ship) :
    ∀ fuel i a st a1, Shaped b a → (∀ X Y v, cell_get a X Y = some v → 1 ≤ v) →
      place_ships_from ships fuel i a = some (st, a1) →
      Shaped b a1 ∧ ∀ X Y v, cell_get a1 X Y = some v → 1 ≤ v := by
  intro fuel
  induction fuel with
  | zero =>
    intro i a st a1 hs hf h
    simp only [place_ships_from, Option.some.injEq, Prod.mk.injEq] at h
    rw [← h.2]
    exact ⟨hs, hf⟩
  | succ fuel ih =>
    intro i a st a1 hs hf h
    rw [place_ships_from] at h
    cases hsi : ships[i]? with
    | none => rw [hsi] at h; cases h
    | some s =>
      rw [hsi] at h
      simp only at h
      cases hps : place_ship s i s.length 0 0 a with
      | none => rw [hps] at h; cases h
      | some res =>
        rcases res with ⟨st2, a2⟩
        rw [hps] at h
        simp only at h
        have h2 := place_ship_keeps b s i _ _ _ _ _ _ hs hf hps
        split_ifs at h
        · exact ih _ _ _ _ h2.1 h2.2 h
        · simp only [Option.some.injEq, Prod.mk.injEq] at h
          rw [← h.2]
          exact h2

theorem fresh_of_placed {ships : List Ship} {b : Grid} {n : Nat} {a : Answer}
    (hp : Placed ships b n a) : ∀ X Y v, cell_get a X Y = some v → 1 ≤ v := by
  intro X Y v hv
  rcases hp.2 X Y v hv with ⟨h1, _⟩ | ⟨k, _, _, _, h2, _⟩
  · omega
  · omega

/-- In a finished placement of in-board ships no two ships share a cell. -/
theorem placed_no_clash {ships : List Ship} {b : Grid} {n : Nat} {a : Answer}
    (hp : Placed ships b n a) {i j : Nat} {si sj : Ship} {X Y : Int}
    (hi : i < n) (hj : j < n) (hsi : ships[i]? = some si) (hsj : ships[j]? = some sj)
    (hin : InBoard b si) (hoi : Occupies si X Y) (hoj : Occupies sj X Y) : i = j := by
  rcases hoi with ⟨k, hk, hck⟩
  have hc := hin k hk
  rw [hck] at hc
  rcases cell_in_nat hc with ⟨Xn, Yn, hX, hY, hXn, hYn⟩
  subst hX hY
  rcases cell_get_some_of_shaped hp.1 hXn hYn with ⟨v, hv⟩
  rcases hp.2 Xn Yn v hv with ⟨_, hno⟩ | ⟨k2, s2, _, _, _, _, huniq⟩
  · exact absurd ⟨k, hk, hck⟩ (hno i si hi hsi)
  · have h1 := huniq i si hi hsi ⟨k, hk, hck⟩
    have h2 := huniq j sj hj hsj hoj
    omega

/-- In a finished placement the cells holding `i + 2` are the cells of ship `i`. -/
theorem placed_cell_iff {ships : List Ship} {b : Grid} {n : Nat} {a : Answer}
    (hp : Placed ships b n a) {i : Nat} {s : Ship} (hi : i < n) (hs : ships[i]? = some s)
    (hin : InBoard b s) (X Y : Nat) :
    cell_get a X Y = some ((i : Int) + 2) ↔ Occupies s X Y := by
  constructor
  · intro hv
    rcases hp.2 X Y _ hv with ⟨h1, _⟩ | ⟨k2, s2, _, hs2, hv2, hocc2, _⟩
    · omega
    · have : k2 = i := by omega
      subst this
      rw [hs] at hs2
      cases hs2
      exact hocc2
  · rintro ⟨k, hk, hck⟩
    have hc := hin k hk
    rw [hck] at hc
    unfold CellIn at hc
    simp only [Nat.cast_lt] at hc
    rcases cell_get_some_of_shaped hp.1 hc.2.1 hc.2.2.2 with ⟨v, hv⟩
    rcases hp.2 X Y v hv with ⟨_, hno⟩ | ⟨k2, s2, _, _, hv2, _, huniq⟩
    · exact absurd ⟨k, hk, hck⟩ (hno i s hi hs)
    · have := huniq i s hi hs ⟨k, hk, hck⟩
      subst this
      rw [hv, hv2]

/-- The cells of the array that hold `i + 2` are as many as the ship is long. -/
theorem card_cells_of_iff {b : Grid} {a : Answer} {s : Ship} (i : Nat) (hsh : Shaped b a)
    (hin : InBoard b s) (hd : ValidDir s.direction)
    (hiff : ∀ X Y : Nat, cell_get a X Y = some ((i : Int) + 2) ↔ Occupies s X Y) :
    ((Finset.range b.width ×ˢ Finset.range b.height).filter
      (fun p => cell_get a p.1 p.2 = some ((i : Int) + 2))).card = s.length := by
  have hset : (Finset.range b.width ×ˢ Finset.range b.height).filter
      (fun p => cell_get a p.1 p.2 = some ((i : Int) + 2)) =
      (Finset.range s.length).image
        (fun k => ((ship_cell s k).1.toNat, (ship_cell s k).2.toNat)) := by
    ext p
    simp only [Finset.mem_filter, Finset.mem_product, Finset.mem_range, Finset.mem_image]
    constructor
    · rintro ⟨_, hv⟩
      rcases (hiff p.1 p.2).mp hv with ⟨k, hk, hck⟩
      refine ⟨k, hk, ?_⟩
      rw [hck]
      simp
    · rintro ⟨k, hk, hp⟩
      have hc := hin k hk
      unfold CellIn at hc
      have h1 : ((p.1 : Nat) : Int) = (ship_cell s k).1 := by rw [← hp]; simp; omega
      have h2 : ((p.2 : Nat) : Int) = (ship_cell s k).2 := by rw [← hp]; simp; omega
      have hocc : Occupies s p.1 p.2 := ⟨k, hk, by rw [h1, h2]⟩
      have hv := (hiff p.1 p.2).mpr hocc
      have hb := cell_get_bounds_of_shaped hsh hv
      exact ⟨hb, hv⟩
  rw [hset, Finset.card_image_of_injOn, Finset.card_range]
  intro k1 hk1 k2 hk2 heq
  simp only [Finset.coe_range, Set.mem_Iio] at hk1 hk2
  simp only [Prod.mk.injEq] at heq
  have hc1 := hin k1 hk1
  have hc2 := hin k2 hk2
  unfold CellIn at hc1 hc2
  apply ship_cell_inj hd
  apply Prod.ext
  · omega
  · omega

/-! ## The C library: `fgets` and `%u` -/

theorem fgets_chars_append : ∀ (n : Nat) (s : List Char),
    (fgets_chars n s).1 ++ (fgets_chars n s).2 = s := by
  intro n
  induction n with
  | zero => intro s; rfl
  | succ n ih =>
    intro s
    cases s with
    | nil => rfl
    | cons c s =>
      rw [fgets_chars]
      split_ifs
      · rfl
      · simp only [List.cons_append, ih s]

/-- What `fgets` stores and what it leaves make up the stream. -/
theorem fgets_append {n : Nat} {s line : List Char} (h : (fgets n s).1 = some line) :
    s = line ++ (fgets n s).2 := by
  cases s with
  | nil => simp [fgets] at h
  | cons c s =>
    simp only [fgets, Option.some.injEq] at h ⊢
    rw [← h]
    exact (fgets_chars_append _ _).symm

theorem fgets_nil (n : Nat) : fgets n [] = (none, []) := rfl

theorem fgets_rest_of_none {n : Nat} {s : List Char} (h : (fgets n s).1 = none) :
    (fgets n s).2 = [] := by
  cases s with
  | nil => rfl
  | cons c s => simp [fgets] at h

theorem fgets_keep_some {line0 stream line : List Char}
    (h : (fgets BUFF_LEN stream).1 = some line) :
    fgets_keep line0 stream = (line, (fgets BUFF_LEN stream).2) := by
  unfold fgets_keep
  rw [h]

theorem fgets_keep_none {line0 stream : List Char}
    (h : (fgets BUFF_LEN stream).1 = none) :
    fgets_keep line0 stream = (line0, []) := by
  unfold fgets_keep
  rw [h, fgets_rest_of_none h]

/-- A line that fits in the buffer is stored whole by `fgets`, line break included. -/
theorem fgets_chars_line : ∀ (n : Nat) (text rest : List Char),
    (∀ c, c ∈ text → c ≠ '\n') → text.length < n →
    fgets_chars n (text ++ '\n' :: rest) = (text ++ ['\n'], rest) := by
  intro n
  induction n with
  | zero => intro text rest _ h; omega
  | succ n ih =>
    intro text rest hnl hlen
    cases text with
    | nil =>
      simp only [List.nil_append, fgets_chars, if_true]
    | cons a text =>
      have ha : a ≠ '\n' := hnl a (List.mem_cons_self _ _)
      simp only [List.cons_append, fgets_chars, if_neg ha, List.append_eq]
      rw [ih text rest (fun c hc => hnl c (List.mem_cons_of_mem _ hc))
        (by simp only [List.length_cons] at hlen; omega)]

/-- Of a line that does not fit in the buffer `fgets` stores the first characters only. -/
theorem fgets_chars_long : ∀ (n : Nat) (text rest : List Char),
    (∀ c, c ∈ text → c ≠ '\n') → n ≤ text.length →
    fgets_chars n (text ++ '\n' :: rest) = (text.take n, text.drop n ++ '\n' :: rest) := by
  intro n
  induction n with
  | zero => intro text rest _ _; rfl
  | succ n ih =>
    intro text rest hnl hlen
    cases text with
    | nil => simp at hlen
    | cons a text =>
      have ha : a ≠ '\n' := hnl a (List.mem_cons_self _ _)
      simp only [List.cons_append, fgets_chars, if_neg ha, List.take_succ_cons,
        List.drop_succ_cons, List.append_eq]
      rw [ih text rest (fun c hc => hnl c (List.mem_cons_of_mem _ hc))
        (by simp only [List.length_cons] at hlen; omega)]

theorem c_str_of_no_nul : ∀ (l : List Char), (∀ c, c ∈ l → c ≠ '\x00') → c_str l = l := by
  intro l
  induction l with
  | nil => intro _; rfl
  | cons a l ih =>
    intro h
    have ha : (a != '\x00') = true := by simpa using h a (List.mem_cons_self _ _)
    have ih1 := ih (fun c hc => h c (List.mem_cons_of_mem _ hc))
    unfold c_str at ih1 ⊢
    rw [List.takeWhile_cons]
    simp only [ha, if_true, ih1]

theorem check_length_terminated {text : List Char} (h : ∀ c, c ∈ text → c ≠ '\x00') :
    check_length (text ++ ['\n']) = 1 := by
  have hc : c_str (text ++ ['\n']) = text ++ ['\n'] := by
    apply c_str_of_no_nul
    intro c hc
    rcases List.mem_append.mp hc with h1 | h1
    · exact h c h1
    · simp only [List.mem_singleton] at h1
      rw [h1]
      decide
  unfold check_length
  rw [hc, List.getLast?_concat]
  simp

theorem check_length_unterminated {t : List Char} (hne : t ≠ [])
    (h : ∀ c, c ∈ t → c ≠ '\n' ∧ c ≠ '\x00') : check_length t = -1 := by
  have hc : c_str t = t := c_str_of_no_nul t (fun c hc => (h c hc).2)
  unfold check_length
  rw [hc]
  have hlast : t.getLast? ≠ some '\n' := by
    intro hl
    have := List.mem_of_getLast?_eq_some hl
    exact (h _ this).1 rfl
  have hlen : ¬ t.length = 0 := by
    intro h0
    exact hne (List.length_eq_zero.mp h0)
  rw [if_pos hlast, if_neg hlen]

theorem takeWhile_all {p : Char → Bool} : ∀ (l : List Char) (c : Char),
    c ∈ l.takeWhile p → p c = true := by
  intro l
  induction l with
  | nil => intro c h; simp at h
  | cons a l ih =>
    intro c h
    by_cases ha : p a = true
    · rw [List.takeWhile_cons_of_pos ha] at h
      rcases List.mem_cons.mp h with h1 | h1
      · rw [h1]; exact ha
      · exact ih c h1
    · rw [List.takeWhile_cons_of_neg ha] at h
      simp at h

theorem head_dropWhile {p : Char → Bool} : ∀ (l : List Char) (c : Char),
    (l.dropWhile p).head? = some c → p c = false := by
  intro l
  induction l with
  | nil => intro c h; simp at h
  | cons a l ih =>
    intro c h
    by_cases ha : p a = true
    · rw [List.dropWhile_cons_of_pos ha] at h
      exact ih c h
    · rw [List.dropWhile_cons_of_neg ha] at h
      simp only [List.head?_cons, Option.some.injEq] at h
      rw [← h]
      simpa using ha

theorem takeWhile_append_stop {p : Char → Bool} : ∀ (d r : List Char),
    (∀ c, c ∈ d → p c = true) → (∀ c, r.head? = some c → p c = false) →
    (d ++ r).takeWhile p = d ∧ (d ++ r).dropWhile p = r := by
  intro d
  induction d with
  | nil =>
    intro r _ hr
    cases r with
    | nil => exact ⟨rfl, rfl⟩
    | cons a r =>
      have ha : ¬ p a = true := by simp [hr a rfl]
      simp only [List.nil_append]
      exact ⟨List.takeWhile_cons_of_neg ha, List.dropWhile_cons_of_neg ha⟩
  | cons a d ih =>
    intro r hd hr
    have ha : p a = true := hd a (List.mem_cons_self _ _)
    have := ih r (fun c hc => hd c (List.mem_cons_of_mem _ hc)) hr
    simp only [List.cons_append, List.takeWhile_cons_of_pos ha, List.dropWhile_cons_of_pos ha,
      this.1, this.2, and_self]

theorem scan_digits_iff (neg : Bool) (t : List Char) (v : Nat) (r : List Char) :
    scan_digits neg t = some (v, r) ↔
      ∃ d, t = d ++ r ∧ d ≠ [] ∧ (∀ c, c ∈ d → c.isDigit = true) ∧
        (∀ c, r.head? = some c → c.isDigit = false) ∧ v = store_uint neg d := by
  unfold scan_digits
  constructor
  · intro h
    split_ifs at h with h0
    simp only [Option.some.injEq, Prod.mk.injEq] at h
    refine ⟨t.takeWhile Char.isDigit, ?_, h0, takeWhile_all t, ?_, h.1.symm⟩
    · rw [← h.2, List.takeWhile_append_dropWhile]
    · rw [← h.2]
      exact head_dropWhile t
  · rintro ⟨d, ht, hd, hall, hr, hv⟩
    have := takeWhile_append_stop d r hall hr
    rw [ht, this.1, this.2, if_neg hd, hv]

theorem digit_not_space {c : Char} (h : c.isDigit = true) : is_space c = false := by
  unfold Char.isDigit at h
  unfold is_space
  simp only [Bool.and_eq_true, decide_eq_true_eq] at h
  have h1 : c.val ≥ 48 := h.1
  have hne : ∀ d : Char, d.val < 48 → ¬ c = d := by
    intro d hd he
    rw [he] at h1
    exact absurd h1 (by simpa using hd)
  simp [hne ' ' (by decide), hne '\t' (by decide), hne '\n' (by decide),
    hne '\x0b' (by decide), hne '\x0c' (by decide), hne '\r' (by decide)]

theorem digit_not_sign {c : Char} (h : c.isDigit = true) : c ≠ '-' ∧ c ≠ '+' := by
  unfold Char.isDigit at h
  simp only [Bool.and_eq_true, decide_eq_true_eq] at h
  have h1 : c.val ≥ 48 := h.1
  constructor
  · intro he
    rw [he] at h1
    exact absurd h1 (by decide)
  · intro he
    rw [he] at h1
    exact absurd h1 (by decide)

/-- The conversion `%u` reads exactly a leading unsigned integer. -/
theorem scan_uint_iff (s : List Char) (v : Nat) (r : List Char) :
    scan_uint s = some (v, r) ↔ LeadingUInt s v r := by
  constructor
  · intro h
    unfold scan_uint at h
    have hs : s = s.takeWhile is_space ++ s.dropWhile is_space :=
      (List.takeWhile_append_dropWhile is_space s).symm
    split at h
    · rename_i t ht
      rcases (scan_digits_iff true t v r).mp h with ⟨d, htd, hd, hall, hr, hv⟩
      refine ⟨s.takeWhile is_space, ['-'], d, ?_, takeWhile_all s, Or.inr (Or.inr rfl), hd, hall,
        hr, by simpa using hv⟩
      rw [List.append_assoc, List.append_assoc, List.singleton_append, ← htd, ← ht]
      exact hs
    · rename_i t ht
      rcases (scan_digits_iff false t v r).mp h with ⟨d, htd, hd, hall, hr, hv⟩
      refine ⟨s.takeWhile is_space, ['+'], d, ?_, takeWhile_all s, Or.inr (Or.inl rfl), hd, hall,
        hr, by simpa using hv⟩
      rw [List.append_assoc, List.append_assoc, List.singleton_append, ← htd, ← ht]
      exact hs
    · rename_i t _ _
      rcases (scan_digits_iff false _ v r).mp h with ⟨d, htd, hd, hall, hr, hv⟩
      refine ⟨s.takeWhile is_space, [], d, ?_, takeWhile_all s, Or.inl rfl, hd, hall,
        hr, by simpa using hv⟩
      rw [List.append_nil, List.append_assoc, ← htd]
      exact hs
  · rintro ⟨w, sg, d, hs, hw, hsg, hd, hall, hr, hv⟩
    obtain ⟨d0, d', hdd⟩ : ∃ d0 d', d = d0 :: d' := by
      cases d with
      | nil => exact absurd rfl hd
      | cons a l => exact ⟨a, l, rfl⟩
    have hd0 : d0.isDigit = true := hall d0 (by rw [hdd]; exact List.mem_cons_self _ _)
    have hdrop : s.dropWhile is_space = sg ++ d ++ r := by
      rw [hs, List.append_assoc, List.append_assoc]
      apply (takeWhile_append_stop w (sg ++ (d ++ r)) hw ?_).2.trans
      · rw [List.append_assoc]
      · intro c hc
        rcases hsg with h | h | h
        · rw [h, hdd] at hc
          simp only [List.nil_append, List.cons_append, List.head?_cons,
            Option.some.injEq] at hc
          rw [← hc]
          exact digit_not_space hd0
        · rw [h] at hc
          simp only [List.cons_append, List.head?_cons, Option.some.injEq] at hc
          rw [← hc]
          decide
        · rw [h] at hc
          simp only [List.cons_append, List.head?_cons, Option.some.injEq] at hc
          rw [← hc]
          decide
    unfold scan_uint
    rw [hdrop]
    rcases hsg with h | h | h
    · subst h
      rw [hdd]
      simp only [List.nil_append, List.cons_append]
      have hn := digit_not_sign hd0
      split
      · rename_i t ht
        simp only [List.cons.injEq] at ht
        exact absurd ht.1 hn.1
      · rename_i t ht
        simp only [List.cons.injEq] at ht
        exact absurd ht.1 hn.2
      · rw [scan_digits_iff]
        refine ⟨d, by rw [hdd]; rfl, hd, hall, hr, by simpa using hv⟩
    · subst h
      simp only [List.cons_append, List.nil_append]
      rw [scan_digits_iff]
      exact ⟨d, rfl, hd, hall, hr, by simpa using hv⟩
    · subst h
      simp only [List.cons_append, List.nil_append]
      rw [scan_digits_iff]
      exact ⟨d, rfl, hd, hall, hr, by simpa using hv⟩

theorem sscanf_uu_iff (line : List Char) (a b : Nat) :
    sscanf_uu line = some (a, b) ↔
      ∃ r1 r2, LeadingUInt (c_str line) a r1 ∧ LeadingUInt r1 b r2 := by
  unfold sscanf_uu
  constructor
  · intro h
    cases h1 : scan_uint (c_str line) with
    | none => rw [h1] at h; cases h
    | some p1 =>
      rcases p1 with ⟨a1, r1⟩
      rw [h1] at h
      simp only at h
      cases h2 : scan_uint r1 with
      | none => rw [h2] at h; cases h
      | some p2 =>
        rcases p2 with ⟨b1, r2⟩
        rw [h2] at h
        simp only [Option.some.injEq, Prod.mk.injEq] at h
        rw [← h.1, ← h.2]
        exact ⟨r1, r2, (scan_uint_iff _ _ _).mp h1, (scan_uint_iff _ _ _).mp h2⟩
  · rintro ⟨r1, r2, h1, h2⟩
    rw [(scan_uint_iff _ _ _).mpr h1]
    simp only
    rw [(scan_uint_iff _ _ _).mpr h2]

theorem sscanf_uu_iff_text {line : List Char} (hc : c_str line = line) (a b : Nat) :
    sscanf_uu line = some (a, b) ↔ ∃ r1 r2, LeadingUInt line a r1 ∧ LeadingUInt r1 b r2 := by
  rw [sscanf_uu_iff, hc]

/-- A status 0 of `read_two_uints` comes with two stored values that fit in an `int`. -/
theorem read_two_uints_ok {line : List Char} (h : (read_two_uints line).1 = 0) :
    ∃ a b, (read_two_uints line).2 = some (a, b) ∧ a ≤ INT_MAX ∧ b ≤ INT_MAX ∧
      sscanf_uu line = some (a, b) ∧ check_length line ≠ 0 := by
  unfold read_two_uints at h ⊢
  split_ifs at h ⊢ with h1
  · simp at h
  · cases hs : sscanf_uu line with
    | none => rw [hs] at h; simp at h
    | some ab =>
      rcases ab with ⟨a, b⟩
      rw [hs] at h
      simp only at h ⊢
      split_ifs at h ⊢ with h2
      · simp at h
      · exact ⟨a, b, rfl, by omega, by omega, rfl, h1⟩

theorem read_two_uints_iff {line : List Char} (hcl : check_length line ≠ 0) (a b : Nat) :
    ((read_two_uints line).1 = 0 ∧ (read_two_uints line).2 = some (a, b)) ↔
      (sscanf_uu line = some (a, b) ∧ a ≤ INT_MAX ∧ b ≤ INT_MAX) := by
  unfold read_two_uints
  rw [if_neg hcl]
  cases hs : sscanf_uu line with
  | none => simp
  | some ab =>
    rcases ab with ⟨a1, b1⟩
    simp only
    by_cases hgt : a1 > INT_MAX ∨ b1 > INT_MAX
    · rw [if_pos hgt]
      simp only [Option.some.injEq, Prod.mk.injEq]
      constructor
      · rintro ⟨h, _⟩
        simp at h
      · rintro ⟨⟨h1, h2⟩, h3, h4⟩
        omega
    · rw [if_neg hgt]
      simp only [Option.some.injEq, Prod.mk.injEq, true_and]
      constructor
      · rintro ⟨h1, h2⟩
        exact ⟨⟨h1, h2⟩, by omega, by omega⟩
      · rintro ⟨h, _, _⟩
        exact h

theorem read_two_uints_status (line : List Char) :
    (read_two_uints line).1 = 0 ∨ (read_two_uints line).1 = -1 := by
  unfold read_two_uints
  split_ifs
  · right; rfl
  · cases sscanf_uu line with
    | none => right; rfl
    | some ab =>
      simp only
      split_ifs
      · right; rfl
      · left; rfl

/-- The loop that reads the rest of an over-long line stops after its line break. -/
theorem flush_line_line : ∀ (t rest : List Char),
    (∀ c, c ∈ t → c ≠ '\n' ∧ c ≠ '\xff') → flush_line (t ++ '\n' :: rest) = (1, rest) := by
  intro t
  induction t with
  | nil => intro rest _; simp [flush_line]
  | cons a t ih =>
    intro rest h
    have ha := h a (List.mem_cons_self _ _)
    simp only [List.cons_append, flush_line, if_neg ha.1, if_neg ha.2]
    exact ih rest (fun c hc => h c (List.mem_cons_of_mem _ hc))

/-! ## The parse functions -/

/-- The loop of `parse_rules` on an array with room for the ships left: it fails with code 40
or it reads one line for each ship and stores a length of at least 1 for each. -/
theorem parse_rules_from_spec : ∀ (fuel i : Nat) (stream : List Char) (ships : List Ship),
    i + fuel ≤ ships.length →
    parse_rules_from fuel i stream ships = some (.error ERR_RULES_INVALID) ∨
    ∃ (ships1 : List Ship) (rest : List Char) (lines : List (List Char)),
      parse_rules_from fuel i stream ships = some (.ok (ships1, rest)) ∧
      lines.length = fuel ∧ stream = lines.flatten ++ rest ∧
      ships1.length = ships.length ∧
      (∀ m, m < i → ships1[m]? = ships[m]?) ∧
      ∀ k, k < fuel → ∃ (line : List Char) (s : Ship), lines[k]? = some line ∧
        check_length line ≠ 0 ∧ ships1[i + k]? = some s ∧ sscanf_u line = some s.length ∧
        1 ≤ s.length := by
  intro fuel
  induction fuel with
  | zero =>
    intro i stream ships _
    right
    exact ⟨ships, stream, [], rfl, rfl, rfl, rfl, fun m _ => rfl, fun k hk => by omega⟩
  | succ fuel ih =>
    intro i stream ships hlen
    rw [parse_rules_from]
    cases hf : (fgets BUFF_LEN stream).1 with
    | none => left; rfl
    | some line =>
      simp only
      by_cases hcl : check_length line = 0
      · left; rw [if_pos hcl]; rfl
      · rw [if_neg hcl]
        have hi : i < ships.length := by omega
        rw [List.getElem?_eq_getElem hi]
        simp only
        cases hsc : sscanf_u line with
        | none => left; rfl
        | some len =>
          simp only
          by_cases hl1 : len < 1
          · left; rw [if_pos hl1]; rfl
          · rw [if_neg hl1]
            rcases ih (i + 1) (fgets BUFF_LEN stream).2
                (ships.set i { ships[i] with length := len })
                (by rw [List.length_set]; omega) with
              herr | ⟨ships1, rest, lines, hp, hll, hst, hsl, hlow, hcells⟩
            · left; exact herr
            · right
              refine ⟨ships1, rest, line :: lines, hp, by simp [hll], ?_, ?_, ?_, ?_⟩
              · rw [List.flatten_cons, List.append_assoc, ← hst]
                exact fgets_append hf
              · rw [hsl, List.length_set]
              · intro m hm
                rw [hlow m (by omega), List.getElem?_set_ne (by omega)]
              · intro k hk
                rcases k with _ | k
                · have h0 := hlow i (by omega)
                  rw [List.getElem?_set_self hi] at h0
                  exact ⟨line, _, List.getElem?_cons_zero, hcl, h0, hsc, by simp only; omega⟩
                · rcases hcells k (by omega) with ⟨l, s, h1, h2, h3, h4, h5⟩
                  refine ⟨l, s, by rw [List.getElem?_cons_succ]; exact h1, h2, ?_, h4, h5⟩
                  rw [← h3]
                  congr 1
                  omega

theorem parse_rules_from_nil (fuel i : Nat) (ships : List Ship) :
    parse_rules_from (fuel + 1) i [] ships = some (.error ERR_RULES_INVALID) := by
  rw [parse_rules_from]
  rfl

/-- The bounds check of `parse_map` rejects a ship of length 3 heading East from the last
column. -/
theorem map_bounds_east_edge (board : Grid) (s : Ship) (yPos : Nat)
    (hw1 : 1 ≤ board.width) (hw : board.width ≤ INT_MAX) (h3 : s.length = 3) :
    map_bounds board { s with xPos := board.width - 1, yPos := yPos, direction := 'E' } =
      map_oob := by
  have hN : ¬ (('E' : Char) = 'N') := by decide
  have hS : ¬ (('E' : Char) = 'S') := by decide
  have hE : to_uint (to_int (uadd (board.width - 1) (usub 3 1))) ≥ board.width := by
    unfold to_uint to_int uadd usub UINT_MOD INT_MAX
    unfold INT_MAX at hw
    split_ifs <;> omega
  unfold map_bounds
  simp only [h3]
  by_cases h1 : board.width - 1 > board.width ∨ board.width - 1 > board.height
  · rw [if_pos h1]
  · rw [if_neg h1, if_neg hN, if_neg hS]
    simp only [if_true, if_pos hE]

/-! ## The display of the board -/

theorem cell_get_none_of_shaped {b : Grid} {a : Answer} (h : Shaped b a) {x y : Nat}
    (hxy : ¬ (x < b.width ∧ y < b.height)) : cell_get a x y = none := by
  cases hc : cell_get a x y with
  | none => rfl
  | some v => exact absurd (cell_get_bounds_of_shaped h hc) hxy

theorem glyph_of_pos {v : Int} (h : 1 ≤ v) : glyph v = "." := by
  unfold glyph
  split_ifs <;> first | rfl | omega

theorem glyph_missed : glyph (-1) = "/" := by decide

theorem glyph_of_hit {v : Int} (h : v ≤ -2) : glyph v = "*" := by
  unfold glyph
  split_ifs <;> first | rfl | omega

/-- One row of `display_board` on an array of the allocated shape: the glyphs of the cells of
the row, in increasing `x`, then the line break. -/
theorem display_row_spec {b : Grid} {a : Answer} (hs : Shaped b a) {i : Nat}
    (hi : i < b.height) : ∀ fuel j, j + fuel = b.width →
      ∃ row, display_row a i fuel j = some (row ++ ["\n"]) ∧ row.length = fuel ∧
        ∀ k, k < fuel → ∀ v, cell_get a (j + k) i = some v → row[k]? = some (glyph v) := by
  intro fuel
  induction fuel with
  | zero =>
    intro j _
    exact ⟨[], rfl, rfl, fun k hk => by omega⟩
  | succ fuel ih =>
    intro j hj
    rcases cell_get_some_of_shaped hs (show j < b.width by omega) hi with ⟨w, hw⟩
    rcases ih (j + 1) (by omega) with ⟨row, hrow, hlen, hcells⟩
    refine ⟨glyph w :: row, ?_, by simp [hlen], ?_⟩
    · rw [display_row, hw]
      simp only [hrow, List.cons_append]
    · intro k hk v hv
      rcases k with _ | k
      · rw [Nat.add_zero, hw] at hv
        cases hv
        exact List.getElem?_cons_zero
      · rw [List.getElem?_cons_succ]
        apply hcells k (by omega) v
        rw [← hv]
        congr 1
        omega

/-- The rows of `display_board` on an array of the allocated shape, in increasing `y`. -/
theorem display_rows_spec {b : Grid} {a : Answer} (hs : Shaped b a) :
    ∀ fuel i, i + fuel = b.height →
      ∃ rows : List (List String),
        display_rows b.width a fuel i = some ((rows.map (fun r => r ++ ["\n"])).flatten) ∧
        rows.length = fuel ∧
        ∀ k, k < fuel → ∃ r, rows[k]? = some r ∧ r.length = b.width ∧
          ∀ x, x < b.width → ∀ v, cell_get a x (i + k) = some v → r[x]? = some (glyph v) := by
  intro fuel
  induction fuel with
  | zero =>
    intro i _
    exact ⟨[], rfl, rfl, fun k hk => by omega⟩
  | succ fuel ih =>
    intro i hi
    rcases display_row_spec hs (show i < b.height by omega) b.width 0 (by omega) with
      ⟨row, hrow, hlen, hcells⟩
    rcases ih (i + 1) (by omega) with ⟨rows, hrows, hrlen, hrcells⟩
    refine ⟨row :: rows, ?_, by simp [hrlen], ?_⟩
    · rw [display_rows, hrow]
      simp only [hrows, List.map_cons, List.flatten_cons]
    · intro k hk
      rcases k with _ | k
      · refine ⟨row, List.getElem?_cons_zero, hlen, ?_⟩
        intro x hx v hv
        apply hcells x hx v
        rw [Nat.zero_add]
        exact hv
      · rcases hrcells k (by omega) with ⟨r, hr, hrl, hrc⟩
        refine ⟨r, by rw [List.getElem?_cons_succ]; exact hr, hrl, ?_⟩
        intro x hx v hv
        apply hrc x hx v
        rw [← hv]
        congr 1
        omega

/-- Two arrays whose cells have the same glyphs are displayed alike. -/
theorem display_row_congr {a1 a2 : Answer} {i : Nat}
    (h : ∀ x, (cell_get a1 x i).map glyph = (cell_get a2 x i).map glyph) :
    ∀ fuel j, display_row a1 i fuel j = display_row a2 i fuel j := by
  intro fuel
  induction fuel with
  | zero => intro j; rfl
  | succ fuel ih =>
    intro j
    rw [display_row, display_row, ih (j + 1)]
    have hj := h j
    cases h1 : cell_get a1 j i with
    | none =>
      rw [h1] at hj
      cases h2 : cell_get a2 j i with
      | none => rfl
      | some v2 => rw [h2] at hj; cases hj
    | some v1 =>
      rw [h1] at hj
      cases h2 : cell_get a2 j i with
      | none => rw [h2] at hj; cases hj
      | some v2 =>
        rw [h2] at hj
        simp only [Option.map_some', Option.some.injEq] at hj
        simp only [hj]

theorem display_rows_congr {a1 a2 : Answer} (w : Nat)
    (h : ∀ x y, (cell_get a1 x y).map glyph = (cell_get a2 x y).map glyph) :
    ∀ fuel i, display_rows w a1 fuel i = display_rows w a2 fuel i := by
  intro fuel
  induction fuel with
  | zero => intro i; rfl
  | succ fuel ih =>
    intro i
    rw [display_rows, display_rows, ih (i + 1), display_row_congr (fun x => h x i)]

/-- A row whose cells are all Empty or ShipIntact is displayed as dots. -/
theorem display_row_dots {b : Grid} {a : Answer} (hs : Shaped b a) {i : Nat}
    (hi : i < b.height) (hpos : ∀ x v, cell_get a x i = some v → 1 ≤ v) :
    ∀ fuel j, j + fuel = b.width →
      display_row a i fuel j = some (List.replicate fuel "." ++ ["\n"]) := by
  intro fuel
  induction fuel with
  | zero => intro j _; rfl
  | succ fuel ih =>
    intro j hj
    rcases cell_get_some_of_shaped hs (show j < b.width by omega) hi with ⟨w, hw⟩
    rw [display_row, hw]
    simp only [ih (j + 1) (by omega), glyph_of_pos (hpos j w hw), List.replicate_succ,
      List.cons_append]

theorem display_rows_dots {b : Grid} {a : Answer} (hs : Shaped b a)
    (hpos : ∀ x y v, cell_get a x y = some v → 1 ≤ v) :
    ∀ fuel i, i + fuel = b.height →
      display_rows b.width a fuel i =
        some ((List.replicate fuel (List.replicate b.width "." ++ ["\n"])).flatten) := by
  intro fuel
  induction fuel with
  | zero => intro i _; rfl
  | succ fuel ih =>
    intro i hi
    rw [display_rows, display_row_dots hs (show i < b.height by omega) (fun x v => hpos x i v)
      b.width 0 (by omega)]
    simp only [ih (i + 1) (by omega), List.replicate_succ, List.flatten_cons]

/-! ## A guess at an intact ship cell -/

/-- The result of `make_guess` at an in-bounds cell holding a ShipIntact value `v > 1`, with
the values returned by the two scans of the array. -/
theorem make_guess_intact_eq {b : Grid} {a : Answer} {x y : Nat} {v : Int}
    (hs : Shaped b a) (hx : x < b.width) (hy : y < b.height)
    (hc : cell_get a x y = some v) (hv : 1 < v) :
    ∃ sunk over, is_sunk v b (cell_set a x y (-v)) = some sunk ∧
      is_game_over b (cell_set a x y (-v)) = some over ∧
      make_guess x y b a = some ⟨["Hit\n"] ++ (if sunk ≠ 0 then ["Ship sunk\n"] else [])
          ++ (if over ≠ 0 then ["Game over\n"] else []),
        cell_set a x y (-v), if over ≠ 0 then some 0 else none⟩ := by
  have hs1 : Shaped b (cell_set a x y (-v)) := shaped_cell_set hs _ _ _
  rcases is_sunk_spec hs1 v with ⟨sunk, hsunk, _, _⟩
  rcases is_game_over_spec hs1 with ⟨over, hover, _, _⟩
  refine ⟨sunk, over, hsunk, hover, ?_⟩
  have h1 : ¬ (v = 1 ∨ v = -1) := by omega
  have h2 : v > 0 := by omega
  have hbounds : ¬ (x ≥ b.width ∨ y ≥ b.height) := by omega
  unfold make_guess
  rw [if_neg hbounds, hc]
  simp only [if_neg h1, if_pos h2, neg_neg, hsunk, hover]

/-! ## The rules and the prompt -/

/-- With a ship array of `MAX_SHIPS` entries or more, `parse_rules` returns; it returns the
code 40, or it returns 0 with `1 <= width, height <= INT_MAX`, `1 <= numShips <= 15`, the
number of ships being the value scanned on the second read, and a length of at least 1 scanned
and stored for each ship.  Whenever the number scanned on the second read is 0 or more than
15, `parse_rules` returns 40. -/
theorem parse_rules_returns (line0 rules : List Char) (ships : List Ship)
    (hlen : MAX_SHIPS ≤ ships.length) :
    (parse_rules line0 rules ships = some (.error ERR_RULES_INVALID) ∨
      ∃ r, parse_rules line0 rules ships = some (.ok r) ∧
        1 ≤ r.board.width ∧ r.board.width ≤ INT_MAX ∧
        1 ≤ r.board.height ∧ r.board.height ≤ INT_MAX ∧
        1 ≤ r.numShips ∧ r.numShips ≤ 15 ∧
        ∃ (l1 l2 : List Char) (lines : List (List Char)),
          rules = l1 ++ l2 ++ lines.flatten ++ r.rest ∧
          sscanf_uu l1 = some (r.board.width, r.board.height) ∧
          sscanf_u l2 = some r.numShips ∧
          lines.length = r.numShips ∧
          ∀ k, k < r.numShips → ∃ (line : List Char) (s : Ship), lines[k]? = some line ∧
            r.ships[k]? = some s ∧ sscanf_u line = some s.length ∧ 1 ≤ s.length) ∧
    (∀ n, sscanf_u (fgets_keep (fgets_keep line0 rules).1 (fgets_keep line0 rules).2).1 = some n →
      n = 0 ∨ n > 15 → parse_rules line0 rules ships = some (.error ERR_RULES_INVALID)) := by
  have hunf : parse_rules line0 rules ships =
      if (read_two_uints (fgets_keep line0 rules).1).1 ≠ 0 then some (.error rules_invalid)
      else
        match (read_two_uints (fgets_keep line0 rules).1).2 with
        | none => some (.error rules_invalid)
        | some (width, height) =>
          if width ≤ 0 ∨ height ≤ 0 then some (.error rules_invalid)
          else if check_length
              (fgets_keep (fgets_keep line0 rules).1 (fgets_keep line0 rules).2).1 = 0 then
            some (.error rules_invalid)
          else
            match sscanf_u
                (fgets_keep (fgets_keep line0 rules).1 (fgets_keep line0 rules).2).1 with
            | none => some (.error rules_invalid)
            | some numShips =>
              if numShips ≤ 0 then some (.error rules_invalid)
              else if numShips > MAX_SHIPS then some (.error rules_invalid)
              else
                match parse_rules_from numShips 0
                    (fgets_keep (fgets_keep line0 rules).1 (fgets_keep line0 rules).2).2
                    ships with
                | none => none
                | some (.error e) => some (.error e)
                | some (.ok (ships1, rest)) =>
                  some (.ok ⟨⟨width, height⟩, numShips, ships1, rest⟩) := rfl
  have herr : rules_invalid = ERR_RULES_INVALID := rfl
  rw [hunf, herr]
  generalize hL1 : fgets_keep line0 rules = p1
  generalize hL2 : fgets_keep p1.1 p1.2 = p2
  by_cases hst : (read_two_uints p1.1).1 = 0
  swap
  · rw [if_pos hst]
    exact ⟨Or.inl rfl, fun _ _ _ => rfl⟩
  rw [if_neg (not_not.mpr hst)]
  rcases read_two_uints_ok hst with ⟨w, h, hwh, hwmax, hhmax, hscan1, hcl1⟩
  rw [hwh]
  simp only
  by_cases hpos : w ≤ 0 ∨ h ≤ 0
  · rw [if_pos hpos]
    exact ⟨Or.inl rfl, fun _ _ _ => rfl⟩
  rw [if_neg hpos]
  by_cases hcl : check_length p2.1 = 0
  · rw [if_pos hcl]
    exact ⟨Or.inl rfl, fun _ _ _ => rfl⟩
  rw [if_neg hcl]
  cases hn : sscanf_u p2.1 with
  | none =>
    exact ⟨Or.inl rfl, fun _ _ _ => rfl⟩
  | some n =>
    simp only
    by_cases hn0 : n ≤ 0
    · rw [if_pos hn0]
      exact ⟨Or.inl rfl, fun _ _ _ => rfl⟩
    rw [if_neg hn0]
    by_cases hn15 : n > MAX_SHIPS
    · rw [if_pos hn15]
      exact ⟨Or.inl rfl, fun _ _ _ => rfl⟩
    rw [if_neg hn15]
    have hM : MAX_SHIPS = 15 := rfl
    refine ⟨?_, ?_⟩
    swap
    · intro m hm hm15
      simp only [Option.some.injEq] at hm
      omega
    rcases parse_rules_from_spec n 0 p2.2 ships (by omega) with
      herr2 | ⟨ships1, rest, lines, hp, hll, hstream, _, _, hcells⟩
    · left
      rw [herr2]
    · right
      rw [hp]
      simp only
      -- the two first reads met no end of input
      obtain ⟨n1, hn1⟩ : ∃ n1, n = n1 + 1 := ⟨n - 1, by omega⟩
      have hp2ne : p2.2 ≠ [] := by
        intro hnil
        rw [hnil, hn1, parse_rules_from_nil] at hp
        cases hp
      have hf2 : ∃ l2, (fgets BUFF_LEN p1.2).1 = some l2 := by
        cases hf : (fgets BUFF_LEN p1.2).1 with
        | none =>
          rw [fgets_keep_none hf] at hL2
          rw [← hL2] at hp2ne
          exact absurd rfl hp2ne
        | some l2 => exact ⟨l2, rfl⟩
      rcases hf2 with ⟨l2, hl2⟩
      have hp1ne : p1.2 ≠ [] := by
        intro hnil
        rw [hnil] at hl2
        cases hl2
      have hf1 : ∃ l1, (fgets BUFF_LEN rules).1 = some l1 := by
        cases hf : (fgets BUFF_LEN rules).1 with
        | none =>
          rw [fgets_keep_none hf] at hL1
          rw [← hL1] at hp1ne
          exact absurd rfl hp1ne
        | some l1 => exact ⟨l1, rfl⟩
      rcases hf1 with ⟨l1, hl1⟩
      rw [fgets_keep_some hl1] at hL1
      rw [fgets_keep_some hl2] at hL2
      have e1 : p1.1 = l1 := by rw [← hL1]
      have e1r : p1.2 = (fgets BUFF_LEN rules).2 := by rw [← hL1]
      have e2 : p2.1 = l2 := by rw [← hL2]
      have e2r : p2.2 = (fgets BUFF_LEN p1.2).2 := by rw [← hL2]
      refine ⟨_, rfl, by simp only; omega, hwmax, by simp only; omega, hhmax,
        by simp only; omega, by simp only; omega, l1, l2, lines, ?_, ?_, ?_, hll, ?_⟩
      · simp only
        rw [List.append_assoc, List.append_assoc, ← hstream, e2r, ← fgets_append hl2, e1r]
        exact fgets_append hl1
      · simp only
        rw [← e1]
        exact hscan1
      · simp only
        rw [← e2]
        exact hn
      · intro k hk
        rcases hcells k hk with ⟨line, s, h1, _, h3, h4, h5⟩
        rw [Nat.zero_add] at h3
        exact ⟨line, s, h1, h3, h4, h5⟩

/-- On an input that starts with a line `text` free of the bytes 0 and 255 and ended by a line
break, `get_prompt` returns 0 or 1 and leaves the input after that line break; it returns 0
with the values `a`, `b` exactly when the line has at most 20 characters before its line
break and `%u %u` scans `a` and `b`, both at most `INT_MAX`. -/
theorem get_prompt_scan (line0 text rest : List Char)
    (htext : ∀ c, c ∈ text → c ≠ '\n' ∧ c ≠ '\x00' ∧ c ≠ '\xff') :
    ((get_prompt line0 (text ++ '\n' :: rest)).1 = 0 ∨
      (get_prompt line0 (text ++ '\n' :: rest)).1 = 1) ∧
    (get_prompt line0 (text ++ '\n' :: rest)).2.2 = rest ∧
    (∀ a b, ((get_prompt line0 (text ++ '\n' :: rest)).1 = 0 ∧
        (get_prompt line0 (text ++ '\n' :: rest)).2.1 = some (a, b)) ↔
      (text.length ≤ 20 ∧
        (∃ r1 r2, LeadingUInt (text ++ ['\n']) a r1 ∧ LeadingUInt r1 b r2) ∧
        a ≤ INT_MAX ∧ b ≤ INT_MAX)) ∧
    ((get_prompt line0 (text ++ '\n' :: rest)).1 = 0 →
      ∃ a b, (get_prompt line0 (text ++ '\n' :: rest)).2.1 = some (a, b)) ∧
    (20 < text.length → (get_prompt line0 (text ++ '\n' :: rest)).1 = 1) := by
  have hnl : ∀ c, c ∈ text → c ≠ '\n' := fun c hc => (htext c hc).1
  have hnul : ∀ c, c ∈ text → c ≠ '\x00' := fun c hc => (htext c hc).2.1
  have hfg : ∀ l r, fgets_chars 21 (text ++ '\n' :: rest) = (l, r) →
      fgets_keep line0 (text ++ '\n' :: rest) = (l, r) := by
    intro l r h
    unfold fgets_keep fgets
    cases hst : text ++ '\n' :: rest with
    | nil => simp at hst
    | cons c s =>
      rw [hst] at h
      simp only
      have h21 : BUFF_LEN - 1 = 21 := rfl
      rw [h21, h]
  by_cases hlen : text.length ≤ 20
  · -- the line fits in the buffer
    have hk := hfg _ _ (fgets_chars_line 21 text rest hnl (by omega))
    have hcl : check_length (text ++ ['\n']) = 1 := check_length_terminated hnul
    have hcl0 : check_length (text ++ ['\n']) ≠ 0 := by rw [hcl]; decide
    have hcstr : c_str (text ++ ['\n']) = text ++ ['\n'] := by
      apply c_str_of_no_nul
      intro c hc
      rcases List.mem_append.mp hc with h1 | h1
      · exact hnul c h1
      · simp only [List.mem_singleton] at h1
        rw [h1]
        decide
    have hgp : get_prompt line0 (text ++ '\n' :: rest) =
        if (read_two_uints (text ++ ['\n'])).1 ≠ 0 then
          (1, (read_two_uints (text ++ ['\n'])).2, rest)
        else (0, (read_two_uints (text ++ ['\n'])).2, rest) := by
      unfold get_prompt
      rw [hk]
      simp only [hcl]
      rw [if_neg (by decide), if_neg (by decide)]
    rw [hgp]
    have hiff := fun a b => read_two_uints_iff hcl0 a b
    by_cases hst : (read_two_uints (text ++ ['\n'])).1 = 0
    · rw [if_neg (not_not.mpr hst)]
      rcases read_two_uints_ok hst with ⟨a0, b0, h2, _, _, _, _⟩
      refine ⟨Or.inl rfl, rfl, ?_, fun _ => ⟨a0, b0, h2⟩, fun h => by omega⟩
      intro a b
      simp only [true_and]
      rw [← sscanf_uu_iff_text hcstr a b]
      constructor
      · intro h
        have := (hiff a b).mp ⟨hst, h⟩
        exact ⟨hlen, this.1, this.2.1, this.2.2⟩
      · rintro ⟨_, h1, h2, h3⟩
        exact ((hiff a b).mpr ⟨h1, h2, h3⟩).2
    · rw [if_pos hst]
      refine ⟨Or.inr rfl, rfl, ?_, fun h => by simp at h, fun _ => rfl⟩
      intro a b
      constructor
      · rintro ⟨h, _⟩
        simp at h
      · rintro ⟨_, h1, h2, h3⟩
        rw [← sscanf_uu_iff_text hcstr a b] at h1
        exact absurd ((hiff a b).mpr ⟨h1, h2, h3⟩).1 hst
  · -- the line is longer than the buffer
    have hk := hfg _ _ (fgets_chars_long 21 text rest hnl (by omega))
    have htake : ∀ c, c ∈ text.take 21 → c ≠ '\n' ∧ c ≠ '\x00' := fun c hc =>
      ⟨hnl c (List.mem_of_mem_take hc), hnul c (List.mem_of_mem_take hc)⟩
    have hne : text.take 21 ≠ [] := by
      intro h
      have := congrArg List.length h
      simp only [List.length_take, List.length_nil] at this
      omega
    have hcl : check_length (text.take 21) = -1 := check_length_unterminated hne htake
    have hfl : flush_line (text.drop 21 ++ '\n' :: rest) = (1, rest) :=
      flush_line_line _ rest (fun c hc =>
        ⟨hnl c (List.mem_of_mem_drop hc), (htext c (List.mem_of_mem_drop hc)).2.2⟩)
    have hgp : get_prompt line0 (text ++ '\n' :: rest) = (1, none, rest) := by
      unfold get_prompt
      rw [hk]
      simp only [hcl, hfl]
      rw [if_neg (by decide)]
      simp only [if_true]
    rw [hgp]
    refine ⟨Or.inr rfl, rfl, ?_, fun h => by simp at h, fun _ => rfl⟩
    intro a b
    constructor
    · rintro ⟨h, _⟩
      simp at h
    · rintro ⟨h, _⟩
      omega

theorem append_singleton_split {l m r : List Char} {x : Char}
    (h : l ++ [x] = m ++ r) (hr : r ≠ []) : ∃ r1, r = r1 ++ [x] ∧ l = m ++ r1 := by
  rcases List.eq_nil_or_concat r with h0 | ⟨L, b, hL⟩
  · exact absurd h0 hr
  · rw [hL, List.concat_eq_append, ← List.append_assoc] at h
    have := List.append_inj' h rfl
    simp only [List.cons.injEq, and_true] at this
    rw [hL, List.concat_eq_append, ← this.2]
    exact ⟨L, rfl, this.1⟩

theorem last_mem_of_append {l m r : List Char} {x : Char}
    (h : l ++ [x] = m ++ r) (hr : r ≠ []) : x ∈ r := by
  rcases append_singleton_split h hr with ⟨r1, h1, _⟩
  rw [h1]
  simp

theorem store_uint_small {d : List Char} (h : digits_value d < UINT_MOD) :
    store_uint false d = digits_value d := by
  unfold store_uint
  unfold UINT_MOD at h
  have h1 : ¬ ULONG_MOD ≤ digits_value d := by unfold ULONG_MOD; omega
  simp only [if_neg h1, Bool.false_eq_true, if_false]
  unfold UINT_MOD
  omega

theorem space_not_digit {c : Char} (h : is_space c = true) : c.isDigit = false := by
  cases hd : c.isDigit with
  | false => rfl
  | true =>
    rw [digit_not_space hd] at h
    cases h

/-- Without a sign in the text, the conversion `%u` reads white space and digits. -/
theorem leading_no_sign {s r : List Char} {v : Nat} (h : LeadingUInt s v r)
    (hs : ∀ c, c ∈ s → c ≠ '+' ∧ c ≠ '-') :
    ∃ w d : List Char, s = w ++ d ++ r ∧ (∀ c, c ∈ w → is_space c = true) ∧ d ≠ [] ∧
      (∀ c, c ∈ d → c.isDigit = true) ∧ (∀ c, r.head? = some c → c.isDigit = false) ∧
      v = store_uint false d := by
  rcases h with ⟨w, sg, d, hsd, hw, hsg, hd, hall, hr, hv⟩
  have hsg0 : sg = [] := by
    rcases hsg with h0 | h0 | h0
    · exact h0
    · exfalso
      have : '+' ∈ s := by rw [hsd, h0]; simp
      exact (hs _ this).1 rfl
    · exfalso
      have : '-' ∈ s := by rw [hsd, h0]; simp
      exact (hs _ this).2 rfl
  subst hsg0
  refine ⟨w, d, by simpa using hsd, hw, hd, hall, hr, by simpa using hv⟩

/-- On a line without signs and without numerals of `2 ^ 32` or more, `%u %u` scans two values
exactly when the line starts with two non-negative integers separated by white space. -/
theorem two_leading_iff {text : List Char} (a b : Nat)
    (hs : ∀ c, c ∈ text → c ≠ '+' ∧ c ≠ '-') (hn : SmallNumerals text) :
    (∃ r1 r2, LeadingUInt (text ++ ['\n']) a r1 ∧ LeadingUInt r1 b r2) ↔
      StartsWithTwoNumbers (text ++ ['\n']) a b := by
  have hnl_digit : ('\n' : Char).isDigit = false := by decide
  have hsl : ∀ c, c ∈ text ++ ['\n'] → c ≠ '+' ∧ c ≠ '-' := by
    intro c hc
    rcases List.mem_append.mp hc with h1 | h1
    · exact hs c h1
    · simp only [List.mem_singleton] at h1
      rw [h1]
      decide
  constructor
  · rintro ⟨r1, r2, h1, h2⟩
    rcases leading_no_sign h1 hsl with ⟨w1, d1, hl1, hw1, hd1, hall1, hr1, ha⟩
    have hr1ne : r1 ≠ [] := by
      intro h0
      rw [h0, List.append_nil] at hl1
      have := last_mem_of_append hl1 hd1
      rw [hall1 _ this] at hnl_digit
      cases hnl_digit
    rcases append_singleton_split hl1 hr1ne with ⟨r1', hr1', ht1⟩
    have hsr1 : ∀ c, c ∈ r1 → c ≠ '+' ∧ c ≠ '-' := by
      intro c hc
      apply hsl
      rw [hl1]
      exact List.mem_append_right _ hc
    rcases leading_no_sign h2 hsr1 with ⟨w2, d2, hl2, hw2, hd2, hall2, hr2, hb⟩
    have hw2ne : w2 ≠ [] := by
      intro h0
      rw [h0, List.nil_append] at hl2
      obtain ⟨c0, d', hd'⟩ : ∃ c0 d', d2 = c0 :: d' := by
        cases d2 with
        | nil => exact absurd rfl hd2
        | cons c0 d' => exact ⟨c0, d', rfl⟩
      have hc0 := hall2 c0 (by rw [hd']; exact List.mem_cons_self _ _)
      have := hr1 c0 (by rw [hl2, hd']; rfl)
      rw [hc0] at this
      cases this
    rw [hr1'] at hl2
    have hr2ne : r2 ≠ [] := by
      intro h0
      rw [h0, List.append_nil] at hl2
      have := last_mem_of_append hl2 hd2
      rw [hall2 _ this] at hnl_digit
      cases hnl_digit
    rcases append_singleton_split hl2 hr2ne with ⟨r2', hr2', ht2⟩
    have hv1 : digits_value d1 < UINT_MOD := hn w1 d1 r1' ht1 hall1
    have hv2 : digits_value d2 < UINT_MOD := by
      apply hn (w1 ++ d1 ++ w2) d2 r2' _ hall2
      rw [ht1, ht2]
      simp only [List.append_assoc]
    refine ⟨w1, d1, w2, d2, r2, ?_, hw1, hd1, hall1, hw2ne, hw2, hd2, hall2, hr2, ?_, ?_⟩
    · rw [hl1, hr1', hl2]
      simp only [List.append_assoc]
    · rw [ha, store_uint_small hv1]
    · rw [hb, store_uint_small hv2]
  · rintro ⟨w1, d1, w2, d2, rest, hl, hw1, hd1, hall1, hw2ne, hw2, hd2, hall2, hrest, ha, hb⟩
    have hrestne : rest ≠ [] := by
      intro h0
      rw [h0, List.append_nil] at hl
      have := last_mem_of_append hl hd2
      rw [hall2 _ this] at hnl_digit
      cases hnl_digit
    rcases append_singleton_split hl hrestne with ⟨rest', _, ht⟩
    have hv1 : digits_value d1 < UINT_MOD := by
      apply hn w1 d1 (w2 ++ d2 ++ rest') _ hall1
      rw [ht]
      simp only [List.append_assoc]
    have hv2 : digits_value d2 < UINT_MOD := hn (w1 ++ d1 ++ w2) d2 rest' ht hall2
    refine ⟨w2 ++ d2 ++ rest, rest, ⟨w1, [], d1, ?_, hw1, Or.inl rfl, hd1, hall1, ?_, ?_⟩,
      ⟨w2, [], d2, ?_, hw2, Or.inl rfl, hd2, hall2, hrest, ?_⟩⟩
    · rw [hl]
      simp only [List.append_assoc, List.append_nil]
    · intro c hc
      obtain ⟨c0, w', hw'⟩ : ∃ c0 w', w2 = c0 :: w' := by
        cases w2 with
        | nil => exact absurd rfl hw2ne
        | cons c0 w' => exact ⟨c0, w', rfl⟩
      rw [hw'] at hc
      simp only [List.cons_append, List.head?_cons, Option.some.injEq] at hc
      rw [← hc]
      exact space_not_digit (hw2 c0 (by rw [hw']; exact List.mem_cons_self _ _))
    · rw [ha, ← store_uint_small hv1]
      simp
    · simp only [List.append_nil]
    · rw [hb, ← store_uint_small hv2]
      simp

theorem digit_le_nine {c : Char} (h : c.isDigit = true) : c.toNat - 48 ≤ 9 := by
  unfold Char.isDigit at h
  simp only [Bool.and_eq_true, decide_eq_true_eq] at h
  have h2 : c.val ≤ 57 := h.2
  have h3 : c.val.toNat ≤ 57 := by
    have h4 : c.val.toNat ≤ (57 : UInt32).toNat := h2
    exact h4
  unfold Char.toNat
  omega

theorem foldl_digits_lt : ∀ (d : List Char) (acc : Nat), (∀ c, c ∈ d → c.isDigit = true) →
    d.foldl (fun acc c => 10 * acc + (c.toNat - 48)) acc < (acc + 1) * 10 ^ d.length := by
  intro d
  induction d with
  | nil => intro acc _; simp
  | cons c d ih =>
    intro acc h
    have hc := digit_le_nine (h c (List.mem_cons_self _ _))
    have := ih (10 * acc + (c.toNat - 48)) (fun x hx => h x (List.mem_cons_of_mem _ hx))
    simp only [List.foldl_cons, List.length_cons]
    calc List.foldl (fun acc c => 10 * acc + (c.toNat - 48)) (10 * acc + (c.toNat - 48)) d
        < (10 * acc + (c.toNat - 48) + 1) * 10 ^ d.length := this
      _ ≤ (10 * acc + 10) * 10 ^ d.length := Nat.mul_le_mul_right _ (by omega)
      _ = (acc + 1) * 10 ^ (d.length + 1) := by ring

/-- A text of at most 9 characters holds no numeral of `2 ^ 32` or more. -/
theorem small_numerals_of_short {text : List Char} (h : text.length ≤ 9) :
    SmallNumerals text := by
  intro pre d post ht hall
  have hlen : d.length ≤ 9 := by
    have := congrArg List.length ht
    simp only [List.length_append] at this
    omega
  have h1 := foldl_digits_lt d 0 hall
  have h2 : 10 ^ d.length ≤ 10 ^ 9 := Nat.pow_le_pow_right (by decide) hlen
  unfold digits_value UINT_MOD
  simp only [Nat.zero_add, Nat.one_mul] at h1
  omega


/-- Of a last line without line break `fgets` stores the first characters. -/
theorem fgets_chars_no_nl : ∀ (n : Nat) (text : List Char), (∀ c, c ∈ text → c ≠ '\n') →
    fgets_chars n text = (text.take n, text.drop n) := by
  intro n
  induction n with
  | zero => intro text _; rfl
  | succ n ih =>
    intro text hnl
    cases text with
    | nil => rfl
    | cons a text =>
      have ha : a ≠ '\n' := hnl a (List.mem_cons_self _ _)
      simp only [fgets_chars, if_neg ha, List.take_succ_cons, List.drop_succ_cons]
      rw [ih text (fun c hc => hnl c (List.mem_cons_of_mem _ hc))]

/-- The loop that reads the rest of an over-long line returns -1 when the input ends before a
line break. -/
theorem flush_line_end : ∀ (t : List Char), (∀ c, c ∈ t → c ≠ '\n' ∧ c ≠ '\xff') →
    flush_line t = (-1, []) := by
  intro t
  induction t with
  | nil => intro _; rfl
  | cons a t ih =>
    intro h
    have ha := h a (List.mem_cons_self _ _)
    simp only [flush_line, if_neg ha.1, if_neg ha.2]
    exact ih (fun c hc => h c (List.mem_cons_of_mem _ hc))

/-- On a last line without line break `get_prompt` returns -1. -/
theorem get_prompt_last_line (line0 text : List Char) (hne : text ≠ [])
    (htext : ∀ c, c ∈ text → c ≠ '\n' ∧ c ≠ '\x00' ∧ c ≠ '\xff') :
    get_prompt line0 text = (-1, none, []) := by
  have hnl : ∀ c, c ∈ text → c ≠ '\n' := fun c hc => (htext c hc).1
  have hk : fgets_keep line0 text = (text.take 21, text.drop 21) := by
    unfold fgets_keep fgets
    cases hst : text with
    | nil => exact absurd hst hne
    | cons c s =>
      simp only
      have h21 : BUFF_LEN - 1 = 21 := rfl
      rw [h21, ← hst, fgets_chars_no_nl 21 text hnl]
  have hne2 : text.take 21 ≠ [] := by
    intro h
    have := congrArg List.length h
    simp only [List.length_take, List.length_nil] at this
    have : text.length = 0 := by omega
    exact hne (List.length_eq_zero.mp this)
  have hcl : check_length (text.take 21) = -1 :=
    check_length_unterminated hne2 (fun c hc =>
      ⟨hnl c (List.mem_of_mem_take hc), (htext c (List.mem_of_mem_take hc)).2.1⟩)
  have hfl : flush_line (text.drop 21) = (-1, []) :=
    flush_line_end _ (fun c hc =>
      ⟨hnl c (List.mem_of_mem_drop hc), (htext c (List.mem_of_mem_drop hc)).2.2⟩)
  unfold get_prompt
  rw [hk]
  simp only [hcl, hfl]
  rw [if_neg (by decide)]
  simp only [if_true]

/-! ## The claims -/

/-- C1: on an array of the allocated shape, an in-bounds guess at a cell holding
`ShipIntact(id)` (the value `id + 2`) returns, sets exactly that cell to `ShipHit(id)` (the
value `-(id + 2)`) and leaves every other cell as it was; `Hit` is printed; `Ship sunk` is
printed exactly when no cell of the resulting array holds `id + 2`; `Game over` is printed, and
the program exits with code 0, exactly when no cell of the resulting array holds `k + 2` for any
ship `k`. -/
theorem make_guess_ship_intact (board : Grid) (answer : Answer) (x y id : Nat)
    (hs : Shaped board answer) (hx : x < board.width) (hy : y < board.height)
    (hc : cell_get answer x y = some ((id : Int) + 2)) :
    ∃ r, make_guess x y board answer = some r ∧
      cell_get r.answer x y = some (-((id : Int) + 2)) ∧
      (∀ x1 y1, ¬ (x1 = x ∧ y1 = y) → cell_get r.answer x1 y1 = cell_get answer x1 y1) ∧
      "Hit\n" ∈ r.out ∧
      ("Ship sunk\n" ∈ r.out ↔ ∀ x1 y1, cell_get r.answer x1 y1 ≠ some ((id : Int) + 2)) ∧
      ("Game over\n" ∈ r.out ↔
        ∀ x1 y1 (k : Nat), cell_get r.answer x1 y1 ≠ some ((k : Int) + 2)) ∧
      (r.exited = some 0 ↔
        ∀ x1 y1 (k : Nat), cell_get r.answer x1 y1 ≠ some ((k : Int) + 2)) ∧
      (r.exited = none ↔ ¬ "Game over\n" ∈ r.out) := by
  have hs1 : Shaped board (cell_set answer x y (-((id : Int) + 2))) := shaped_cell_set hs _ _ _
  rcases is_sunk_spec hs1 ((id : Int) + 2) with ⟨sunk, hsunk, _, hsunk_iff⟩
  rcases is_game_over_spec hs1 with ⟨over, hover, _, hover_iff⟩
  have hover_iff2 : over ≠ 0 ↔
      ∀ x1 y1 (k : Nat),
        cell_get (cell_set answer x y (-((id : Int) + 2))) x1 y1 ≠ some ((k : Int) + 2) := by
    rw [hover_iff]
    constructor
    · intro h x1 y1 k hk
      have := h x1 y1 _ hk
      omega
    · intro h x1 y1 v hv
      by_contra hgt
      have hv2 : v = ((v - 2).toNat : Int) + 2 := by omega
      rw [hv2] at hv
      exact h x1 y1 _ hv
  have h1 : ¬ ((id : Int) + 2 = 1 ∨ (id : Int) + 2 = -1) := by omega
  have h2 : (id : Int) + 2 > 0 := by omega
  have hbounds : ¬ (x ≥ board.width ∨ y ≥ board.height) := by omega
  refine ⟨⟨["Hit\n"] ++ (if sunk ≠ 0 then ["Ship sunk\n"] else [])
              ++ (if over ≠ 0 then ["Game over\n"] else []),
            cell_set answer x y (-((id : Int) + 2)),
            if over ≠ 0 then some 0 else none⟩, ?_, ?_⟩
  · unfold make_guess
    rw [if_neg hbounds, hc]
    simp only [if_neg h1, if_pos h2, neg_neg, hsunk, hover]
  · refine ⟨cell_get_cell_set_self _ _ _ _ _ hc, ?_, ?_, ?_, ?_, ?_, ?_⟩
    · intro x1 y1 hne
      exact cell_get_cell_set_other _ _ _ _ _ _ hne
    · simp
    · rw [← hsunk_iff]
      by_cases h0 : sunk = 0 <;> simp [h0]
    · rw [← hover_iff2]
      by_cases h0 : over = 0 <;> simp [h0]
    · rw [← hover_iff2]
      by_cases h0 : over = 0 <;> simp [h0]
    · by_cases h0 : over = 0 <;> simp [h0]

/-- Witness of C1 : scenario A, the board 3 x 1 with one ship of length 1 at (0,0). -/
theorem make_guess_ship_intact_witness :
    ∃ r, make_guess 0 0 ⟨3, 1⟩ [[2], [1], [1]] = some r ∧
      cell_get r.answer 0 0 = some (-(((0 : Nat) : Int) + 2)) ∧
      (∀ x1 y1, ¬ (x1 = 0 ∧ y1 = 0) →
        cell_get r.answer x1 y1 = cell_get [[2], [1], [1]] x1 y1) ∧
      "Hit\n" ∈ r.out ∧
      ("Ship sunk\n" ∈ r.out ↔
        ∀ x1 y1, cell_get r.answer x1 y1 ≠ some (((0 : Nat) : Int) + 2)) ∧
      ("Game over\n" ∈ r.out ↔
        ∀ x1 y1 (k : Nat), cell_get r.answer x1 y1 ≠ some ((k : Int) + 2)) ∧
      (r.exited = some 0 ↔
        ∀ x1 y1 (k : Nat), cell_get r.answer x1 y1 ≠ some ((k : Int) + 2)) ∧
      (r.exited = none ↔ ¬ "Game over\n" ∈ r.out) :=
  make_guess_ship_intact ⟨3, 1⟩ [[2], [1], [1]] 0 0 0 (by decide) (by decide) (by decide)
    (by decide)

/-- C2: an in-bounds guess at a cell holding Empty (1) or Missed (-1) returns, sets that cell
to Missed (-1) and leaves every other cell as it was; the only text printed is `Miss` and the
program does not exit. -/
theorem make_guess_empty_or_missed (board : Grid) (answer : Answer) (x y : Nat)
    (hx : x < board.width) (hy : y < board.height)
    (hc : cell_get answer x y = some 1 ∨ cell_get answer x y = some (-1)) :
    ∃ r, make_guess x y board answer = some r ∧
      cell_get r.answer x y = some (-1) ∧
      (∀ x1 y1, ¬ (x1 = x ∧ y1 = y) → cell_get r.answer x1 y1 = cell_get answer x1 y1) ∧
      r.out = ["Miss\n"] ∧ r.exited = none := by
  have hbounds : ¬ (x ≥ board.width ∨ y ≥ board.height) := by omega
  rcases hc with hc | hc
  · refine ⟨⟨["Miss\n"], cell_set answer x y (-1), none⟩, ?_, ?_, ?_, rfl, rfl⟩
    · unfold make_guess
      rw [if_neg hbounds, hc]
      simp
    · exact cell_get_cell_set_self _ _ _ _ _ hc
    · intro x1 y1 hne
      exact cell_get_cell_set_other _ _ _ _ _ _ hne
  · refine ⟨⟨["Miss\n"], cell_set answer x y (-1), none⟩, ?_, ?_, ?_, rfl, rfl⟩
    · unfold make_guess
      rw [if_neg hbounds, hc]
      simp
    · exact cell_get_cell_set_self _ _ _ _ _ hc
    · intro x1 y1 hne
      exact cell_get_cell_set_other _ _ _ _ _ _ hne

/-- Witness of C2 : a guess at the empty cell (1,0) of the board 3 x 1. -/
theorem make_guess_empty_or_missed_witness :
    ∃ r, make_guess 1 0 ⟨3, 1⟩ [[2], [1], [1]] = some r ∧
      cell_get r.answer 1 0 = some (-1) ∧
      (∀ x1 y1, ¬ (x1 = 1 ∧ y1 = 0) →
        cell_get r.answer x1 y1 = cell_get [[2], [1], [1]] x1 y1) ∧
      r.out = ["Miss\n"] ∧ r.exited = none :=
  make_guess_empty_or_missed ⟨3, 1⟩ [[2], [1], [1]] 1 0 (by decide) (by decide)
    (Or.inl (by decide))

/-- C3: a guess with `x >= width` or `y >= height` prints `Bad guess`, leaves the array as it
is and does not end the program. -/
theorem make_guess_out_of_bounds (board : Grid) (answer : Answer) (x y : Nat)
    (h : x ≥ board.width ∨ y ≥ board.height) :
    make_guess x y board answer = some ⟨["Bad guess\n"], answer, none⟩ := by
  unfold make_guess
  rw [if_pos h]

/-- Witness of C3 : the guess (3,0) on the board 3 x 1. -/
theorem make_guess_out_of_bounds_witness :
    make_guess 3 0 ⟨3, 1⟩ [[2], [1], [1]] = some ⟨["Bad guess\n"], [[2], [1], [1]], none⟩ :=
  make_guess_out_of_bounds ⟨3, 1⟩ [[2], [1], [1]] 3 0 (Or.inl (by decide))

/-- C4: in every array reached from a placement that returned 0 by a sequence of guesses,
`is_game_over` returns, with 0 or 1, and it returns 1 exactly when every cell given to a ship
at placement (value `i + 2`) is now ShipHit (value `-(i + 2)`), which is exactly when no cell
holds a ShipIntact value.  The result of `is_game_over` is a value only: the function has no
write to the array. -/
theorem is_game_over_reachable (ships : List Ship) (numShips : Nat) (board : Grid)
    (g0 : Answer) (gs : List (Nat × Nat)) (g : Answer)
    (hplace : place_ships ships numShips (init_answer board) = some (0, g0))
    (hplay : play board gs g0 = some g) :
    ∃ r, is_game_over board g = some r ∧ (r = 0 ∨ r = 1) ∧
      (r ≠ 0 ↔ ∀ (X Y i : Nat), cell_get g0 X Y = some ((i : Int) + 2) →
        cell_get g X Y = some (-((i : Int) + 2))) ∧
      (r ≠ 0 ↔ ∀ (X Y i : Nat), cell_get g X Y ≠ some ((i : Int) + 2)) := by
  have h0 := place_ships_from_keeps board ships numShips 0 (init_answer board) 0 g0
    (shaped_init_answer board) (fresh_init_answer board) hplace
  have ht := play_tracks h0.2 gs g0 g ⟨h0.1, fun X Y v0 hv0 => Or.inl hv0⟩ hplay
  rcases is_game_over_spec ht.1 with ⟨r, hr, h01, hiff⟩
  refine ⟨r, hr, h01, ?_, ?_⟩
  · rw [hiff]
    constructor
    · intro hall X Y i hi
      rcases ht.2 X Y _ hi with h1 | h1
      · have := hall X Y _ h1
        omega
      · exact h1
    · intro hall X Y v hv
      rcases same_domain ht.1 h0.1 hv with ⟨v0, hv0⟩
      have hpos := h0.2 X Y v0 hv0
      by_cases h1 : v0 = 1
      · rcases ht.2 X Y v0 hv0 with h2 | h2
        · rw [hv] at h2; cases h2; omega
        · rw [hv] at h2; cases h2; omega
      · have hv0e : v0 = (((v0 - 2).toNat : Nat) : Int) + 2 := by omega
        rw [hv0e] at hv0
        have := hall X Y _ hv0
        rw [hv] at this
        cases this
        omega
  · rw [hiff]
    constructor
    · intro hall X Y i hi
      have := hall X Y _ hi
      omega
    · intro hall X Y v hv
      by_contra hgt
      have hve : v = (((v - 2).toNat : Nat) : Int) + 2 := by omega
      rw [hve] at hv
      exact hall X Y _ hv

/-- Witness of C4 : scenario A after the guess (1,0). -/
theorem is_game_over_reachable_witness :
    ∃ r, is_game_over ⟨3, 1⟩ [[2], [-1], [1]] = some r ∧ (r = 0 ∨ r = 1) ∧
      (r ≠ 0 ↔ ∀ (X Y i : Nat), cell_get [[2], [1], [1]] X Y = some ((i : Int) + 2) →
        cell_get [[2], [-1], [1]] X Y = some (-((i : Int) + 2))) ∧
      (r ≠ 0 ↔ ∀ (X Y i : Nat), cell_get [[2], [-1], [1]] X Y ≠ some ((i : Int) + 2)) :=
  is_game_over_reachable [⟨1, 0, 0, 'E'⟩] 1 ⟨3, 1⟩ [[2], [1], [1]] [(1, 0)] [[2], [-1], [1]]
    (by decide) (by decide)

/-- C5: for a fleet of ships with valid directions that all lie within the board,
`place_ships` on the all-Empty array returns, and it returns the overlap code 50 exactly when
some ship's occupied-cell set contains a cell of a ship of lower index; when it returns 50,
every marked cell carries `k + 2` for the first ship `k`, in fleet order, that occupies it. -/
theorem place_ships_overlap_iff (ships : List Ship) (numShips : Nat) (board : Grid)
    (hw : board.width < UINT_MOD) (hh : board.height < UINT_MOD)
    (hfleet : ∀ i, i < numShips →
      ∃ s, ships[i]? = some s ∧ InBoard board s ∧ ValidDir s.direction) :
    ∃ st a1, place_ships ships numShips (init_answer board) = some (st, a1) ∧
      (st = ERR_MAP_OVERLAP ↔
        ∃ (i j : Nat) (si sj : Ship) (X Y : Int), j < i ∧ i < numShips ∧
          ships[i]? = some si ∧ ships[j]? = some sj ∧ Occupies si X Y ∧ Occupies sj X Y) ∧
      (st = ERR_MAP_OVERLAP →
        ∀ (X Y : Nat) (v : Int), cell_get a1 X Y = some v → v ≠ 1 →
          ∃ k : Nat, k < numShips ∧ v = (k : Int) + 2 ∧ FirstOwner ships X Y k) := by
  have hall : ∀ k, 0 ≤ k → k < 0 + numShips →
      ∃ s, ships[k]? = some s ∧ InBoard board s ∧ ValidDir s.direction :=
    fun k _ hk => hfleet k (by omega)
  unfold place_ships
  rcases place_ships_from_forward hw hh numShips 0 (init_answer board)
      (placed_init ships board) hall with
    ⟨a1, hr, hp⟩ | ⟨a1, hr, ⟨m, s, _, hm, hs, k, sk, X, Y, hk, hsk, ho1, ho2⟩, hown, _⟩
  · rw [Nat.zero_add] at hp
    refine ⟨0, a1, hr, ?_, ?_⟩
    · constructor
      · intro h
        simp [ERR_MAP_OVERLAP] at h
      · rintro ⟨i, j, si, sj, X, Y, hji, hin, hsi, hsj, hoi, hoj⟩
        exfalso
        rcases hfleet i hin with ⟨s1, hs1, hinb, _⟩
        rw [hsi] at hs1
        cases hs1
        have := placed_no_clash hp hin (by omega) hsi hsj hinb hoi hoj
        omega
    · intro h
      simp [ERR_MAP_OVERLAP] at h
  · rw [Nat.zero_add] at hown hm
    refine ⟨ERR_MAP_OVERLAP, a1, hr, ?_, ?_⟩
    · simp only [true_iff]
      exact ⟨m, k, s, sk, X, Y, hk, hm, hs, hsk, ho2, ho1⟩
    · intro _
      exact hown

/-- Witness of C5 : two ships on the board 3 x 2, the second crossing the first. -/
theorem place_ships_overlap_iff_witness :
    ∃ st a1, place_ships [⟨2, 0, 0, 'E'⟩, ⟨2, 1, 1, 'N'⟩] 2 (init_answer ⟨3, 2⟩) = some (st, a1) ∧
      (st = ERR_MAP_OVERLAP ↔
        ∃ (i j : Nat) (si sj : Ship) (X Y : Int), j < i ∧ i < 2 ∧
          [(⟨2, 0, 0, 'E'⟩ : Ship), ⟨2, 1, 1, 'N'⟩][i]? = some si ∧
          [(⟨2, 0, 0, 'E'⟩ : Ship), ⟨2, 1, 1, 'N'⟩][j]? = some sj ∧
          Occupies si X Y ∧ Occupies sj X Y) ∧
      (st = ERR_MAP_OVERLAP →
        ∀ (X Y : Nat) (v : Int), cell_get a1 X Y = some v → v ≠ 1 →
          ∃ k : Nat, k < 2 ∧ v = (k : Int) + 2 ∧
            FirstOwner [⟨2, 0, 0, 'E'⟩, ⟨2, 1, 1, 'N'⟩] X Y k) :=
  place_ships_overlap_iff [⟨2, 0, 0, 'E'⟩, ⟨2, 1, 1, 'N'⟩] 2 ⟨3, 2⟩ (by decide) (by decide)
    (by
      intro i hi
      match i, hi with
      | 0, _ => exact ⟨_, rfl, by decide, by decide⟩
      | 1, _ => exact ⟨_, rfl, by decide, by decide⟩)

/-- The claim C6 fails on the map line `0 5 E` for the board 3 x 1 and one ship of length 1:
`parse_map` accepts the line, the ship's cell (0,5) is outside the board, and `place_ships`
reads `answer[0][5]` outside the array. -/
theorem parse_map_accepts_ship_outside_board :
    parse_map ['0', ' ', '5', ' ', 'E', '\n'] [⟨1, 0, 0, 'N'⟩] ⟨3, 1⟩ 1 =
        some (.ok [⟨1, 0, 5, 'E'⟩]) ∧
      ¬ InBoard ⟨3, 1⟩ ⟨1, 0, 5, 'E'⟩ ∧
      place_ships [⟨1, 0, 5, 'E'⟩] 1 (init_answer ⟨3, 1⟩) = none := by
  refine ⟨by rfl, by decide, by decide⟩

/-- C7: for a fleet of ships with valid directions that lie within the board and whose
occupied-cell sets are pairwise disjoint, `place_ships` on the all-Empty array returns 0; the
resulting array holds `i + 2` at `(X, Y)` exactly when `(X, Y)` is a cell
`anchor + k * unit(direction)`, `k < length`, of ship `i`, and 1 at every cell that belongs to
no ship; exactly `length` cells hold `i + 2`. -/
theorem place_ships_disjoint (ships : List Ship) (numShips : Nat) (board : Grid)
    (hw : board.width < UINT_MOD) (hh : board.height < UINT_MOD)
    (hfleet : ∀ i, i < numShips →
      ∃ s, ships[i]? = some s ∧ InBoard board s ∧ ValidDir s.direction)
    (hdisj : ∀ (i j : Nat) (si sj : Ship) (X Y : Int), i < numShips → j < numShips →
      ships[i]? = some si → ships[j]? = some sj → Occupies si X Y → Occupies sj X Y → i = j) :
    ∃ a1, place_ships ships numShips (init_answer board) = some (0, a1) ∧
      Shaped board a1 ∧
      (∀ (i : Nat) (s : Ship) (X Y : Nat), i < numShips → ships[i]? = some s →
        (cell_get a1 X Y = some ((i : Int) + 2) ↔
          ∃ k, k < s.length ∧
            ((s.xPos : Int) + (k : Int) * (unit_vec s.direction).1,
             (s.yPos : Int) + (k : Int) * (unit_vec s.direction).2) = ((X : Int), (Y : Int)))) ∧
      (∀ X Y : Nat, X < board.width → Y < board.height →
        (∀ (i : Nat) (s : Ship), i < numShips → ships[i]? = some s → ¬ Occupies s X Y) →
        cell_get a1 X Y = some 1) ∧
      (∀ (i : Nat) (s : Ship), i < numShips → ships[i]? = some s →
        ((Finset.range board.width ×ˢ Finset.range board.height).filter
          (fun p => cell_get a1 p.1 p.2 = some ((i : Int) + 2))).card = s.length) := by
  have hall : ∀ k, 0 ≤ k → k < 0 + numShips →
      ∃ s, ships[k]? = some s ∧ InBoard board s ∧ ValidDir s.direction :=
    fun k _ hk => hfleet k (by omega)
  unfold place_ships
  rcases place_ships_from_forward hw hh numShips 0 (init_answer board)
      (placed_init ships board) hall with
    ⟨a1, hr, hp⟩ | ⟨a1, hr, ⟨m, s, _, hm, hs, k, sk, X, Y, hk, hsk, ho1, ho2⟩, _, _⟩
  · rw [Nat.zero_add] at hp
    have hinb : ∀ (i : Nat) (s : Ship), i < numShips → ships[i]? = some s →
        InBoard board s ∧ ValidDir s.direction := by
      intro i s hi hs
      rcases hfleet i hi with ⟨s1, hs1, h1, h2⟩
      rw [hs] at hs1
      cases hs1
      exact ⟨h1, h2⟩
    refine ⟨a1, hr, hp.1, ?_, ?_, ?_⟩
    · intro i s X Y hi hs
      exact placed_cell_iff hp hi hs (hinb i s hi hs).1 X Y
    · intro X Y hX hY hno
      rcases cell_get_some_of_shaped hp.1 hX hY with ⟨v, hv⟩
      rcases hp.2 X Y v hv with ⟨h1, _⟩ | ⟨k2, s2, hk2, hs2, _, hocc2, _⟩
      · rw [hv, h1]
      · exact absurd hocc2 (hno k2 s2 hk2 hs2)
    · intro i s hi hs
      exact card_cells_of_iff i hp.1 (hinb i s hi hs).1 (hinb i s hi hs).2
        (placed_cell_iff hp hi hs (hinb i s hi hs).1)
  · exfalso
    rw [Nat.zero_add] at hm
    have := hdisj k m sk s X Y (by omega) hm hsk hs ho1 ho2
    omega

/-- Witness of C7 : two disjoint ships on the board 3 x 2. -/
theorem place_ships_disjoint_witness :
    ∃ a1, place_ships [⟨2, 0, 0, 'E'⟩, ⟨2, 2, 1, 'N'⟩] 2 (init_answer ⟨3, 2⟩) = some (0, a1) ∧
      Shaped ⟨3, 2⟩ a1 ∧
      (∀ (i : Nat) (s : Ship) (X Y : Nat), i < 2 →
        [(⟨2, 0, 0, 'E'⟩ : Ship), ⟨2, 2, 1, 'N'⟩][i]? = some s →
        (cell_get a1 X Y = some ((i : Int) + 2) ↔
          ∃ k, k < s.length ∧
            ((s.xPos : Int) + (k : Int) * (unit_vec s.direction).1,
             (s.yPos : Int) + (k : Int) * (unit_vec s.direction).2) = ((X : Int), (Y : Int)))) ∧
      (∀ X Y : Nat, X < (⟨3, 2⟩ : Grid).width → Y < (⟨3, 2⟩ : Grid).height →
        (∀ (i : Nat) (s : Ship), i < 2 →
          [(⟨2, 0, 0, 'E'⟩ : Ship), ⟨2, 2, 1, 'N'⟩][i]? = some s → ¬ Occupies s X Y) →
        cell_get a1 X Y = some 1) ∧
      (∀ (i : Nat) (s : Ship), i < 2 →
        [(⟨2, 0, 0, 'E'⟩ : Ship), ⟨2, 2, 1, 'N'⟩][i]? = some s →
        ((Finset.range (⟨3, 2⟩ : Grid).width ×ˢ Finset.range (⟨3, 2⟩ : Grid).height).filter
          (fun p => cell_get a1 p.1 p.2 = some ((i : Int) + 2))).card = s.length) :=
  place_ships_disjoint [⟨2, 0, 0, 'E'⟩, ⟨2, 2, 1, 'N'⟩] 2 ⟨3, 2⟩ (by decide) (by decide)
    (by
      intro i hi
      match i, hi with
      | 0, _ => exact ⟨_, rfl, by decide, by decide⟩
      | 1, _ => exact ⟨_, rfl, by decide, by decide⟩)
    (by
      intro i j si sj X Y hi hj hsi hsj hoi hoj
      rcases hoi with ⟨k1, hk1, hc1⟩
      rcases hoj with ⟨k2, hk2, hc2⟩
      match i, hi, j, hj with
      | 0, _, 0, _ => rfl
      | 1, _, 1, _ => rfl
      | 0, _, 1, _ =>
        simp only [List.getElem?_cons_zero, List.getElem?_cons_succ, Option.some.injEq] at hsi hsj
        subst hsi hsj
        simp [ship_cell, unit_vec] at hc1 hc2 hk1 hk2
        omega
      | 1, _, 0, _ =>
        simp only [List.getElem?_cons_zero, List.getElem?_cons_succ, Option.some.injEq] at hsi hsj
        subst hsi hsj
        simp [ship_cell, unit_vec] at hc1 hc2 hk1 hk2
        omega)

/-- C8: in every array reached from a placement that returned 0 by a sequence of guesses, a
cell holds `i + 2` or `-(i + 2)` exactly when it belongs to the occupied-cell set of ship `i`,
every cell outside all ships holds 1 or -1, every ship lies within the board, and a further
guess leaves each cell as it is or takes it from 1 to -1 or from `i + 2` to `-(i + 2)`. -/
theorem reachable_cells (ships : List Ship) (numShips : Nat) (board : Grid)
    (g0 : Answer) (gs : List (Nat × Nat)) (g : Answer)
    (hw : board.width < UINT_MOD) (hh : board.height < UINT_MOD)
    (hpos : ∀ (k : Nat) (s : Ship), ships[k]? = some s →
      s.xPos < UINT_MOD ∧ s.yPos < UINT_MOD)
    (hplace : place_ships ships numShips (init_answer board) = some (0, g0))
    (hplay : play board gs g0 = some g) :
    (∀ (i : Nat) (s : Ship) (X Y : Nat), i < numShips → ships[i]? = some s →
      ((cell_get g X Y = some ((i : Int) + 2) ∨ cell_get g X Y = some (-((i : Int) + 2))) ↔
        Occupies s X Y)) ∧
    (∀ (X Y : Nat) (v : Int), cell_get g X Y = some v →
      (∀ (i : Nat) (s : Ship), i < numShips → ships[i]? = some s → ¬ Occupies s X Y) →
      v = 1 ∨ v = -1) ∧
    (∀ i, i < numShips → ∃ s, ships[i]? = some s ∧ InBoard board s) ∧
    (∀ (x y : Nat) (r : GuessResult), make_guess x y board g = some r →
      ∀ X Y : Nat, cell_get r.answer X Y = cell_get g X Y ∨
        (cell_get g X Y = some 1 ∧ cell_get r.answer X Y = some (-1)) ∨
        (∃ i : Nat, i < numShips ∧ cell_get g X Y = some ((i : Int) + 2) ∧
          cell_get r.answer X Y = some (-((i : Int) + 2)))) := by
  have hsucc := place_ships_from_success hw hh hpos numShips 0 (init_answer board) g0
    (placed_init ships board) hplace
  rw [Nat.zero_add] at hsucc
  rcases hsucc with ⟨hp, hgood⟩
  have hfresh := fresh_of_placed hp
  have ht := play_tracks hfresh gs g0 g ⟨hp.1, fun X Y v0 hv0 => Or.inl hv0⟩ hplay
  have hinb : ∀ (i : Nat) (s : Ship), i < numShips → ships[i]? = some s → InBoard board s := by
    intro i s hi hs
    rcases hgood i (Nat.zero_le _) hi with ⟨s1, hs1, h1, _⟩
    rw [hs] at hs1
    cases hs1
    exact h1
  refine ⟨?_, ?_, ?_, ?_⟩
  · intro i s X Y hi hs
    rw [← placed_cell_iff hp hi hs (hinb i s hi hs) X Y]
    constructor
    · intro hv
      have hex : ∃ v, cell_get g X Y = some v := by
        rcases hv with hv | hv
        · exact ⟨_, hv⟩
        · exact ⟨_, hv⟩
      rcases hex with ⟨v, hgv⟩
      rcases same_domain ht.1 hp.1 hgv with ⟨v0, hv0⟩
      have hpos0 := hfresh X Y v0 hv0
      rcases ht.2 X Y v0 hv0 with h1 | h1 <;> rcases hv with hv | hv <;>
        · rw [h1] at hv
          simp only [Option.some.injEq] at hv
          first
            | omega
            | (rw [hv0]; exact congrArg some (by omega))
    · intro hv0
      exact ht.2 X Y _ hv0
  · intro X Y v hv hno
    rcases same_domain ht.1 hp.1 hv with ⟨v0, hv0⟩
    rcases hp.2 X Y v0 hv0 with ⟨h1, _⟩ | ⟨k, s, hk, hs, _, hocc, _⟩
    · subst h1
      rcases ht.2 X Y 1 hv0 with h2 | h2
      · rw [hv] at h2; cases h2; left; rfl
      · rw [hv] at h2; cases h2; right; rfl
    · exact absurd hocc (hno k s hk hs)
  · intro i hi
    rcases hgood i (Nat.zero_le _) hi with ⟨s, hs, h1, _⟩
    exact ⟨s, hs, h1⟩
  · intro x y r hmg X Y
    rcases (make_guess_step hmg).2 X Y with h1 | h1 | ⟨v, hv1, hgv, hrv⟩
    · exact Or.inl h1
    · exact Or.inr (Or.inl h1)
    · right; right
      rcases same_domain ht.1 hp.1 hgv with ⟨v0, hv0⟩
      have hpos0 := hfresh X Y v0 hv0
      have hvv0 : v = v0 := by
        rcases ht.2 X Y v0 hv0 with h2 | h2
        · rw [hgv] at h2; cases h2; rfl
        · rw [hgv] at h2
          simp only [Option.some.injEq] at h2
          omega
      subst hvv0
      rcases hp.2 X Y v hv0 with ⟨h1, _⟩ | ⟨k, s, hk, _, hvk, _, _⟩
      · omega
      · subst hvk
        exact ⟨k, hk, hgv, hrv⟩

/-- Witness of C8 : scenario A after the guess (1,0). -/
theorem reachable_cells_witness :
    (∀ (i : Nat) (s : Ship) (X Y : Nat), i < 1 → [(⟨1, 0, 0, 'E'⟩ : Ship)][i]? = some s →
      ((cell_get [[2], [-1], [1]] X Y = some ((i : Int) + 2) ∨
          cell_get [[2], [-1], [1]] X Y = some (-((i : Int) + 2))) ↔
        Occupies s X Y)) ∧
    (∀ (X Y : Nat) (v : Int), cell_get [[2], [-1], [1]] X Y = some v →
      (∀ (i : Nat) (s : Ship), i < 1 → [(⟨1, 0, 0, 'E'⟩ : Ship)][i]? = some s →
        ¬ Occupies s X Y) →
      v = 1 ∨ v = -1) ∧
    (∀ i, i < 1 → ∃ s, [(⟨1, 0, 0, 'E'⟩ : Ship)][i]? = some s ∧ InBoard ⟨3, 1⟩ s) ∧
    (∀ (x y : Nat) (r : GuessResult), make_guess x y ⟨3, 1⟩ [[2], [-1], [1]] = some r →
      ∀ X Y : Nat, cell_get r.answer X Y = cell_get [[2], [-1], [1]] X Y ∨
        (cell_get [[2], [-1], [1]] X Y = some 1 ∧ cell_get r.answer X Y = some (-1)) ∨
        (∃ i : Nat, i < 1 ∧ cell_get [[2], [-1], [1]] X Y = some ((i : Int) + 2) ∧
          cell_get r.answer X Y = some (-((i : Int) + 2)))) :=
  reachable_cells [⟨1, 0, 0, 'E'⟩] 1 ⟨3, 1⟩ [[2], [1], [1]] [(1, 0)] [[2], [-1], [1]]
    (by decide) (by decide)
    (by
      intro k s h
      match k, h with
      | 0, h =>
        simp only [List.getElem?_cons_zero, Option.some.injEq] at h
        subst h
        decide)
    (by decide) (by decide)

/-- Counterexample to C9 : on the board 2 x 1 with the cell (0,0) already ShipHit(0), the
guess (0,0) prints `Hit`, not `Miss`. -/
theorem make_guess_ship_hit_counterexample :
    cell_get [[-2], [3]] 0 0 = some (-(((0 : Nat) : Int) + 2)) ∧
      make_guess 0 0 ⟨2, 1⟩ [[-2], [3]] = some ⟨["Hit\n"], [[-2], [3]], none⟩ ∧
      ¬ (∃ r, make_guess 0 0 ⟨2, 1⟩ [[-2], [3]] = some r ∧ r.out = ["Miss\n"]) := by
  refine ⟨by decide, by decide, ?_⟩
  rintro ⟨r, hr, hout⟩
  have h : make_guess 0 0 ⟨2, 1⟩ [[-2], [3]] = some ⟨["Hit\n"], [[-2], [3]], none⟩ := by decide
  rw [h] at hr
  cases hr
  revert hout
  decide

/-- C9, amended: on an array of the allocated shape, an in-bounds guess at a cell that is
already ShipHit(id) (value `-(id + 2)`) returns and leaves the array as it is, so the cell
stays ShipHit(id); it prints `Hit`, and neither `Miss` nor `Ship sunk`; it prints `Game over`
and exits with code 0 exactly when no cell holds a ShipIntact value. -/
theorem make_guess_ship_hit (board : Grid) (answer : Answer) (x y id : Nat)
    (hs : Shaped board answer) (hx : x < board.width) (hy : y < board.height)
    (hc : cell_get answer x y = some (-((id : Int) + 2))) :
    ∃ r, make_guess x y board answer = some r ∧
      r.answer = answer ∧
      "Hit\n" ∈ r.out ∧ ¬ "Miss\n" ∈ r.out ∧ ¬ "Ship sunk\n" ∈ r.out ∧
      ("Game over\n" ∈ r.out ↔
        ∀ x1 y1 (k : Nat), cell_get answer x1 y1 ≠ some ((k : Int) + 2)) ∧
      (r.exited = some 0 ↔
        ∀ x1 y1 (k : Nat), cell_get answer x1 y1 ≠ some ((k : Int) + 2)) ∧
      (r.exited = none ↔ ¬ "Game over\n" ∈ r.out) := by
  rcases is_game_over_spec hs with ⟨over, hover, _, hover_iff⟩
  have hover_iff2 : over ≠ 0 ↔
      ∀ x1 y1 (k : Nat), cell_get answer x1 y1 ≠ some ((k : Int) + 2) := by
    rw [hover_iff]
    constructor
    · intro h x1 y1 k hk
      have := h x1 y1 _ hk
      omega
    · intro h x1 y1 v hv
      by_contra hgt
      have hv2 : v = ((v - 2).toNat : Int) + 2 := by omega
      rw [hv2] at hv
      exact h x1 y1 _ hv
  have h1 : ¬ (-((id : Int) + 2) = 1 ∨ -((id : Int) + 2) = -1) := by omega
  have h2 : ¬ (-((id : Int) + 2) > 0) := by omega
  have hbounds : ¬ (x ≥ board.width ∨ y ≥ board.height) := by omega
  refine ⟨⟨["Hit\n"] ++ (if over ≠ 0 then ["Game over\n"] else []), answer,
            if over ≠ 0 then some 0 else none⟩, ?_, rfl, ?_, ?_, ?_, ?_, ?_, ?_⟩
  · unfold make_guess
    rw [if_neg hbounds, hc]
    simp only [if_neg h1, if_neg h2, hover]
  · simp
  · by_cases h0 : over = 0 <;> simp [h0]
  · by_cases h0 : over = 0 <;> simp [h0]
  · rw [← hover_iff2]
    by_cases h0 : over = 0 <;> simp [h0]
  · rw [← hover_iff2]
    by_cases h0 : over = 0 <;> simp [h0]
  · by_cases h0 : over = 0 <;> simp [h0]

/-- Witness of C9 as amended : the board 2 x 1 with the cell (0,0) already hit. -/
theorem make_guess_ship_hit_witness :
    ∃ r, make_guess 0 0 ⟨2, 1⟩ [[-2], [3]] = some r ∧
      r.answer = [[-2], [3]] ∧
      "Hit\n" ∈ r.out ∧ ¬ "Miss\n" ∈ r.out ∧ ¬ "Ship sunk\n" ∈ r.out ∧
      ("Game over\n" ∈ r.out ↔
        ∀ x1 y1 (k : Nat), cell_get [[-2], [3]] x1 y1 ≠ some ((k : Int) + 2)) ∧
      (r.exited = some 0 ↔
        ∀ x1 y1 (k : Nat), cell_get [[-2], [3]] x1 y1 ≠ some ((k : Int) + 2)) ∧
      (r.exited = none ↔ ¬ "Game over\n" ∈ r.out) :=
  make_guess_ship_hit ⟨2, 1⟩ [[-2], [3]] 0 0 0 (by decide) (by decide) (by decide) (by decide)

/-- C10: on an array of the allocated shape and for an in-bounds coordinate, `make_guess`
returns, a second `make_guess` at the same coordinate returns too and leaves the array
unchanged, so that `is_sunk` for every value and `is_game_over` return after the second guess
what they return after the first. -/
theorem make_guess_twice (board : Grid) (answer : Answer) (x y : Nat)
    (hs : Shaped board answer) (hx : x < board.width) (hy : y < board.height) :
    ∃ r1 r2, make_guess x y board answer = some r1 ∧
      make_guess x y board r1.answer = some r2 ∧
      r2.answer = r1.answer ∧
      (∀ n, is_sunk n board r2.answer = is_sunk n board r1.answer) ∧
      is_game_over board r2.answer = is_game_over board r1.answer := by
  rcases make_guess_returns hs x y with ⟨r1, hr1⟩
  have hs1 : Shaped board r1.answer := (make_guess_step hr1).1 hs
  rcases make_guess_returns hs1 x y with ⟨r2, hr2⟩
  rcases cell_get_some_of_shaped hs hx hy with ⟨v, hv⟩
  have ha1 := make_guess_answer hx hy hv hr1
  have heq : r2.answer = r1.answer := by
    by_cases h1 : v = 1 ∨ v = -1
    · rw [if_pos h1] at ha1
      have hv1 : cell_get r1.answer x y = some (-1) := by
        rw [ha1]; exact cell_get_cell_set_self _ _ _ _ _ hv
      have ha2 := make_guess_answer hx hy hv1 hr2
      rw [if_pos (Or.inr rfl)] at ha2
      rw [ha2]
      exact cell_set_same hs1 hv1
    · rw [if_neg h1] at ha1
      by_cases h2 : v > 0
      · rw [if_pos h2] at ha1
        have hv1 : cell_get r1.answer x y = some (-v) := by
          rw [ha1]; exact cell_get_cell_set_self _ _ _ _ _ hv
        have ha2 := make_guess_answer hx hy hv1 hr2
        rw [if_neg (by omega), if_neg (by omega)] at ha2
        exact ha2
      · rw [if_neg h2] at ha1
        have hv1 : cell_get r1.answer x y = some v := by rw [ha1]; exact hv
        have ha2 := make_guess_answer hx hy hv1 hr2
        rw [if_neg h1, if_neg h2] at ha2
        exact ha2
  refine ⟨r1, r2, hr1, hr2, heq, ?_, ?_⟩
  · intro n; rw [heq]
  · rw [heq]

/-- Witness of C10 : the guess (0,0) made twice on the board 2 x 1. -/
theorem make_guess_twice_witness :
    ∃ r1 r2, make_guess 0 0 ⟨2, 1⟩ [[2], [3]] = some r1 ∧
      make_guess 0 0 ⟨2, 1⟩ r1.answer = some r2 ∧
      r2.answer = r1.answer ∧
      (∀ n, is_sunk n ⟨2, 1⟩ r2.answer = is_sunk n ⟨2, 1⟩ r1.answer) ∧
      is_game_over ⟨2, 1⟩ r2.answer = is_game_over ⟨2, 1⟩ r1.answer :=
  make_guess_twice ⟨2, 1⟩ [[2], [3]] 0 0 (by decide) (by decide) (by decide)

/-- The claim C11 fails on the rules `3 1`, `2` and one line made of `1`, twenty spaces and
`2`: that file holds one ship-length line (three line breaks in all), and `parse_rules` returns
0 with `numShips = 2`, the lengths 1 and 2 being read from the two halves of that line, whatever
the buffer held.  The first read of the loop stores 21 characters without a line break, on
which `check_length` returns -1, and the test of the code lets every value but 0 through. -/
theorem parse_rules_two_ships_one_line (line0 : List Char) :
    (['3', ' ', '1', '\n', '2', '\n', '1'] ++ List.replicate 20 ' ' ++ ['2', '\n']).count '\n'
        = 3 ∧
      (fgets BUFF_LEN (['1'] ++ List.replicate 20 ' ' ++ ['2', '\n'])).1 =
        some (['1'] ++ List.replicate 20 ' ') ∧
      check_length (['1'] ++ List.replicate 20 ' ') = -1 ∧
      parse_rules line0
          (['3', ' ', '1', '\n', '2', '\n', '1'] ++ List.replicate 20 ' ' ++ ['2', '\n'])
          (List.replicate 15 ⟨0, 0, 0, 'N'⟩) =
        some (.ok ⟨⟨3, 1⟩, 2,
          ⟨1, 0, 0, 'N'⟩ :: ⟨2, 0, 0, 'N'⟩ :: List.replicate 13 ⟨0, 0, 0, 'N'⟩, []⟩) := by
  refine ⟨by decide, by rfl, by decide, by rfl⟩

/-- The claim C12 fails on a ship-length line and on a map line of more than 21 characters:
`check_length` returns -1 on what `fgets` stores, and `parse_rules` and `parse_map` return 0. -/
theorem parse_accepts_unterminated_line :
    (fgets BUFF_LEN (['1'] ++ List.replicate 25 ' ' ++ ['\n'])).1 =
        some (['1'] ++ List.replicate 20 ' ') ∧
      check_length (['1'] ++ List.replicate 20 ' ') = -1 ∧
      parse_rules [] (['3', ' ', '1', '\n', '1', '\n', '1'] ++ List.replicate 25 ' ' ++ ['\n'])
          [⟨0, 0, 0, 'N'⟩] =
        some (.ok ⟨⟨3, 1⟩, 1, [⟨1, 0, 0, 'N'⟩], List.replicate 5 ' ' ++ ['\n']⟩) ∧
      (fgets BUFF_LEN (['0', ' ', '0', ' ', 'E'] ++ List.replicate 25 ' ' ++ ['\n'])).1 =
        some (['0', ' ', '0', ' ', 'E'] ++ List.replicate 16 ' ') ∧
      check_length (['0', ' ', '0', ' ', 'E'] ++ List.replicate 16 ' ') = -1 ∧
      parse_map (['0', ' ', '0', ' ', 'E'] ++ List.replicate 25 ' ' ++ ['\n'])
          [⟨1, 0, 0, 'N'⟩] ⟨3, 1⟩ 1 =
        some (.ok [⟨1, 0, 0, 'E'⟩]) := by
  refine ⟨by decide, by decide, by rfl, by decide, by decide, by rfl⟩

/-- The claim C13 fails on the board 5 x 2: the ship of length 1 at (3,0) heading East lies
within the board and `parse_map` reports out of bounds, code 51. -/
theorem parse_map_rejects_ship_inside_board :
    InBoard ⟨5, 2⟩ ⟨1, 3, 0, 'E'⟩ ∧
      parse_map ['3', ' ', '0', ' ', 'E', '\n'] [⟨1, 0, 0, 'N'⟩] ⟨5, 2⟩ 1 =
        some (.error ERR_MAP_OOB) := by
  refine ⟨by decide, by rfl⟩

/-- The claim C14 fails on the rules `3 1`, `1`, `1`, the map `0 0 N` and the input made of
twenty-one `a`, the byte 255, a line break and the line `0 0`: the files are accepted and the
ship cell (0, 0) is intact; whatever the buffer held, `get_prompt` returns -1 on the over-long
first line, whose remainder is read into a `char`, and the turn of the loop prints `Bad guess`
and ends the program with code 60 while the line `0 0` is still unread; a turn that reads the
line `0 0` prints `Hit`, `Ship sunk`, `Game over` and ends the program with code 0. -/
theorem main_turn_byte_255 (line0 : List Char) :
    parse_rules line0 ['3', ' ', '1', '\n', '1', '\n', '1', '\n']
        (List.replicate 15 ⟨0, 0, 0, 'N'⟩) =
      some (.ok ⟨⟨3, 1⟩, 1, ⟨1, 0, 0, 'N'⟩ :: List.replicate 14 ⟨0, 0, 0, 'N'⟩, []⟩) ∧
    parse_map ['0', ' ', '0', ' ', 'N', '\n']
        (⟨1, 0, 0, 'N'⟩ :: List.replicate 14 ⟨0, 0, 0, 'N'⟩) ⟨3, 1⟩ 1 =
      some (.ok (⟨1, 0, 0, 'N'⟩ :: List.replicate 14 ⟨0, 0, 0, 'N'⟩)) ∧
    place_ships (⟨1, 0, 0, 'N'⟩ :: List.replicate 14 ⟨0, 0, 0, 'N'⟩) 1 (init_answer ⟨3, 1⟩) =
      some (0, [[2], [1], [1]]) ∧
    get_prompt line0 (List.replicate 21 'a' ++ ['\xff', '\n', '0', ' ', '0', '\n']) =
      (-1, none, ['\n', '0', ' ', '0', '\n']) ∧
    main_turn line0 ⟨3, 1⟩ [[2], [1], [1]]
        (List.replicate 21 'a' ++ ['\xff', '\n', '0', ' ', '0', '\n']) =
      some ⟨[".", ".", ".", "\n", "(x,y)>", "Bad guess\n"], [[2], [1], [1]],
        ['\n', '0', ' ', '0', '\n'], some 60⟩ ∧
    main_turn line0 ⟨3, 1⟩ [[2], [1], [1]] ['0', ' ', '0', '\n'] =
      some ⟨[".", ".", ".", "\n", "(x,y)>", "Hit\n", "Ship sunk\n", "Game over\n"],
        [[-2], [1], [1]], [], some 0⟩ := by
  have hk : fgets_keep line0 (List.replicate 21 'a' ++ ['\xff', '\n', '0', ' ', '0', '\n']) =
      (List.replicate 21 'a', ['\xff', '\n', '0', ' ', '0', '\n']) := by rfl
  have hg : get_prompt line0 (List.replicate 21 'a' ++ ['\xff', '\n', '0', ' ', '0', '\n']) =
      (-1, none, ['\n', '0', ' ', '0', '\n']) := by
    unfold get_prompt
    rw [hk]
    decide
  have hk0 : fgets_keep line0 ['0', ' ', '0', '\n'] = (['0', ' ', '0', '\n'], []) := by rfl
  have hg0 : get_prompt line0 ['0', ' ', '0', '\n'] = (0, some (0, 0), []) := by
    unfold get_prompt
    rw [hk0]
    decide
  refine ⟨by rfl, by rfl, by rfl, hg, ?_, ?_⟩
  · unfold main_turn
    rw [hg]
    decide
  · unfold main_turn
    rw [hg0]
    decide

/-- C15, as amended: take a line of input whose text holds no sign, no byte 0 or 255 and no
numeral of `2 ^ 32` or more.  When the line ends with a line break, `get_prompt` returns 0 or
1 and leaves the input just after that line break; it returns 0 with the guess `(a, b)` stored
exactly when the text has at most 20 characters and starts, after optional white space, with
two non-negative decimal integers `a` and `b` separated by white space, each at most `INT_MAX`
(what follows the second integer is not looked at); a text of more than 20 characters returns 1.
When the line is the last one, is not empty and has no line break, `get_prompt` returns -1. -/
theorem get_prompt_two_numbers (line0 text rest : List Char)
    (htext : ∀ c, c ∈ text → c ≠ '\n' ∧ c ≠ '\x00' ∧ c ≠ '\xff' ∧ c ≠ '+' ∧ c ≠ '-')
    (hnum : SmallNumerals text) :
    ((get_prompt line0 (text ++ '\n' :: rest)).1 = 0 ∨
      (get_prompt line0 (text ++ '\n' :: rest)).1 = 1) ∧
    (get_prompt line0 (text ++ '\n' :: rest)).2.2 = rest ∧
    (∀ a b, ((get_prompt line0 (text ++ '\n' :: rest)).1 = 0 ∧
        (get_prompt line0 (text ++ '\n' :: rest)).2.1 = some (a, b)) ↔
      (text.length ≤ 20 ∧ StartsWithTwoNumbers (text ++ ['\n']) a b ∧
        a ≤ INT_MAX ∧ b ≤ INT_MAX)) ∧
    ((get_prompt line0 (text ++ '\n' :: rest)).1 = 0 →
      ∃ a b, (get_prompt line0 (text ++ '\n' :: rest)).2.1 = some (a, b)) ∧
    (20 < text.length → (get_prompt line0 (text ++ '\n' :: rest)).1 = 1) ∧
    (text ≠ [] → get_prompt line0 text = (-1, none, [])) := by
  have h3 : ∀ c, c ∈ text → c ≠ '\n' ∧ c ≠ '\x00' ∧ c ≠ '\xff' :=
    fun c hc => ⟨(htext c hc).1, (htext c hc).2.1, (htext c hc).2.2.1⟩
  have hs : ∀ c, c ∈ text → c ≠ '+' ∧ c ≠ '-' :=
    fun c hc => ⟨(htext c hc).2.2.2.1, (htext c hc).2.2.2.2⟩
  rcases get_prompt_scan line0 text rest h3 with ⟨h01, hrest, hiff, hsome, hlong⟩
  refine ⟨h01, hrest, ?_, hsome, hlong, fun hne => get_prompt_last_line line0 text hne h3⟩
  intro a b
  rw [hiff a b, two_leading_iff a b hs hnum]

/-- Witness of C15 as amended : the line `0 0 x` followed by the line `1 1`, taken as the
guess (0, 0), and the same text as a last line without line break. -/
theorem get_prompt_two_numbers_witness :
    (∀ c, c ∈ ['0', ' ', '0', ' ', 'x'] →
        c ≠ '\n' ∧ c ≠ '\x00' ∧ c ≠ '\xff' ∧ c ≠ '+' ∧ c ≠ '-') ∧
    SmallNumerals ['0', ' ', '0', ' ', 'x'] ∧
    get_prompt [] (['0', ' ', '0', ' ', 'x'] ++ '\n' :: ['1', ' ', '1', '\n']) =
      (0, some (0, 0), ['1', ' ', '1', '\n']) ∧
    ((['0', ' ', '0', ' ', 'x'] : List Char).length ≤ 20 ∧
      StartsWithTwoNumbers (['0', ' ', '0', ' ', 'x'] ++ ['\n']) 0 0 ∧
      0 ≤ INT_MAX ∧ 0 ≤ INT_MAX) ∧
    get_prompt [] ['0', ' ', '0', ' ', 'x'] = (-1, none, []) :=
  have h := get_prompt_two_numbers [] ['0', ' ', '0', ' ', 'x'] ['1', ' ', '1', '\n']
    (by decide) (small_numerals_of_short (by decide))
  ⟨by decide, small_numerals_of_short (by decide), by decide,
    (h.2.2.1 0 0).mp ⟨by decide, by decide⟩, h.2.2.2.2.2 (by decide)⟩

/-- The claim C15 fails on the line `0 0 x`, which is not made of two integers only and is
taken as the guess (0, 0), and on the last line `0 0` without line break, on which
`get_prompt` returns -1 and not 1; the buffer may hold anything. -/
theorem get_prompt_trailing_text_counterexample :
    (∀ line0 : List Char,
        get_prompt line0 ['0', ' ', '0', ' ', 'x', '\n'] = (0, some (0, 0), [])) ∧
      ('x'.isDigit = false ∧ is_space 'x' = false) ∧
      (∀ line0 : List Char, get_prompt line0 ['0', ' ', '0'] = (-1, none, [])) := by
  refine ⟨fun line0 => ?_, by decide, fun line0 => ?_⟩
  · have hk : fgets_keep line0 ['0', ' ', '0', ' ', 'x', '\n'] =
        (['0', ' ', '0', ' ', 'x', '\n'], []) := by rfl
    unfold get_prompt
    rw [hk]
    decide
  · have hk : fgets_keep line0 ['0', ' ', '0'] = (['0', ' ', '0'], []) := by rfl
    unfold get_prompt
    rw [hk]
    decide

/-- C16: on an array of the allocated shape `display_board` returns, and prints `height` rows,
in increasing `y`, each made of `width` glyphs, in increasing `x`, followed by a line break;
the glyph of a cell is `.` if the cell is Empty or ShipIntact, `/` if it is Missed and `*` if
it is ShipHit. -/
theorem display_board_rows (board : Grid) (answer : Answer) (hs : Shaped board answer) :
    ∃ rows : List (List String),
      display_board board.width board.height answer =
        some ((rows.map (fun r => r ++ ["\n"])).flatten) ∧
      rows.length = board.height ∧
      ∀ y, y < board.height → ∃ r, rows[y]? = some r ∧ r.length = board.width ∧
        ∀ x, x < board.width → ∀ v, cell_get answer x y = some v →
          ((v = 1 ∨ ∃ k : Nat, v = (k : Int) + 2) → r[x]? = some ".") ∧
          (v = -1 → r[x]? = some "/") ∧
          ((∃ k : Nat, v = -((k : Int) + 2)) → r[x]? = some "*") := by
  rcases display_rows_spec hs board.height 0 (by omega) with ⟨rows, hrows, hlen, hcells⟩
  refine ⟨rows, hrows, hlen, ?_⟩
  intro y hy
  rcases hcells y hy with ⟨r, hr, hrl, hrc⟩
  refine ⟨r, hr, hrl, ?_⟩
  intro x hx v hv
  have hg := hrc x hx v (by rw [Nat.zero_add]; exact hv)
  refine ⟨?_, ?_, ?_⟩
  · intro h
    rw [hg, glyph_of_pos]
    rcases h with h | ⟨k, h⟩ <;> omega
  · intro h
    rw [hg, h, glyph_missed]
  · rintro ⟨k, h⟩
    rw [hg, glyph_of_hit]
    omega

/-- Witness of C16 : the board 3 x 1 with an intact, a missed and a hit cell. -/
theorem display_board_rows_witness :
    ∃ rows : List (List String),
      display_board (⟨3, 1⟩ : Grid).width (⟨3, 1⟩ : Grid).height [[2], [-1], [-3]] =
        some ((rows.map (fun r => r ++ ["\n"])).flatten) ∧
      rows.length = (⟨3, 1⟩ : Grid).height ∧
      ∀ y, y < (⟨3, 1⟩ : Grid).height → ∃ r, rows[y]? = some r ∧
        r.length = (⟨3, 1⟩ : Grid).width ∧
        ∀ x, x < (⟨3, 1⟩ : Grid).width → ∀ v, cell_get [[2], [-1], [-3]] x y = some v →
          ((v = 1 ∨ ∃ k : Nat, v = (k : Int) + 2) → r[x]? = some ".") ∧
          (v = -1 → r[x]? = some "/") ∧
          ((∃ k : Nat, v = -((k : Int) + 2)) → r[x]? = some "*") :=
  display_board_rows ⟨3, 1⟩ [[2], [-1], [-3]] (by decide)

/-- C17: two arrays of the shape of the same board whose cells are Empty, Missed, ShipIntact
or ShipHit and which agree on the cells that are Missed and on the cells that are ShipHit are
displayed alike, and the display returns; the array left by a placement that returned 0 is
displayed as `height` rows of `width` dots. -/
theorem display_board_hides_fleet (board : Grid) (a1 a2 : Answer)
    (hs1 : Shaped board a1) (hs2 : Shaped board a2)
    (hv1 : ∀ x y v, cell_get a1 x y = some v → ValidCell v)
    (hv2 : ∀ x y v, cell_get a2 x y = some v → ValidCell v)
    (hmiss : ∀ x y, cell_get a1 x y = some (-1) ↔ cell_get a2 x y = some (-1))
    (hhit : ∀ x y, (∃ v, cell_get a1 x y = some v ∧ v ≤ -2) ↔
      (∃ v, cell_get a2 x y = some v ∧ v ≤ -2)) :
    (∃ out, display_board board.width board.height a1 = some out ∧
      display_board board.width board.height a2 = some out) ∧
    (∀ (ships : List Ship) (numShips : Nat) (g0 : Answer),
      place_ships ships numShips (init_answer board) = some (0, g0) →
      display_board board.width board.height g0 =
        some ((List.replicate board.height
          (List.replicate board.width "." ++ ["\n"])).flatten)) := by
  constructor
  · rcases display_rows_spec hs1 board.height 0 (by omega) with ⟨rows, hrows, _, _⟩
    refine ⟨_, hrows, ?_⟩
    rw [← hrows]
    unfold display_board
    symm
    apply display_rows_congr
    intro x y
    cases h1 : cell_get a1 x y with
    | none =>
      cases h2 : cell_get a2 x y with
      | none => rfl
      | some v2 =>
        rcases same_domain hs2 hs1 h2 with ⟨w, hw⟩
        rw [h1] at hw
        cases hw
    | some v1 =>
      rcases same_domain hs1 hs2 h1 with ⟨v2, h2⟩
      rw [h2]
      simp only [Option.map_some', Option.some.injEq]
      have hva := hv1 x y v1 h1
      have hvb := hv2 x y v2 h2
      have hm := hmiss x y
      have hh := hhit x y
      rw [h1, h2] at hm hh
      simp only [Option.some.injEq, exists_eq_left'] at hm hh
      unfold ValidCell at hva hvb
      by_cases hm1 : v1 = -1
      · rw [hm1, hm.mp hm1]
      · by_cases hh1 : v1 ≤ -2
        · rw [glyph_of_hit hh1, glyph_of_hit (hh.mp hh1)]
        · have hm2 : ¬ v2 = -1 := fun h => hm1 (hm.mpr h)
          have hh2 : ¬ v2 ≤ -2 := fun h => hh1 (hh.mpr h)
          rw [glyph_of_pos (by omega), glyph_of_pos (by omega)]
  · intro ships numShips g0 hplace
    have h0 := place_ships_from_keeps board ships numShips 0 (init_answer board) 0 g0
      (shaped_init_answer board) (fresh_init_answer board) hplace
    exact display_rows_dots h0.1 h0.2 board.height 0 (by omega)

/-- Witness of C17 : two fleets on the board 3 x 1 with the same missed and hit cells. -/
theorem display_board_hides_fleet_witness :
    (∃ out, display_board (⟨3, 1⟩ : Grid).width (⟨3, 1⟩ : Grid).height [[2], [-1], [-3]] =
        some out ∧
      display_board (⟨3, 1⟩ : Grid).width (⟨3, 1⟩ : Grid).height [[1], [-1], [-2]] =
        some out) ∧
    (∀ (ships : List Ship) (numShips : Nat) (g0 : Answer),
      place_ships ships numShips (init_answer ⟨3, 1⟩) = some (0, g0) →
      display_board (⟨3, 1⟩ : Grid).width (⟨3, 1⟩ : Grid).height g0 =
        some ((List.replicate (⟨3, 1⟩ : Grid).height
          (List.replicate (⟨3, 1⟩ : Grid).width "." ++ ["\n"])).flatten)) :=
  display_board_hides_fleet ⟨3, 1⟩ [[2], [-1], [-3]] [[1], [-1], [-2]] (by decide) (by decide)
    (by
      intro x y v h
      have hb := cell_get_bounds_of_shaped (show Shaped ⟨3, 1⟩ [[2], [-1], [-3]] by decide) h
      have hx : x < 3 := hb.1
      have hy : y < 1 := hb.2
      interval_cases x <;> interval_cases y <;> (cases h; decide))
    (by
      intro x y v h
      have hb := cell_get_bounds_of_shaped (show Shaped ⟨3, 1⟩ [[1], [-1], [-2]] by decide) h
      have hx : x < 3 := hb.1
      have hy : y < 1 := hb.2
      interval_cases x <;> interval_cases y <;> (cases h; decide))
    (by
      intro x y
      by_cases hxy : x < 3 ∧ y < 1
      · rcases hxy with ⟨hx, hy⟩
        interval_cases x <;> interval_cases y <;> decide
      · rw [cell_get_none_of_shaped (show Shaped ⟨3, 1⟩ [[2], [-1], [-3]] by decide) hxy,
          cell_get_none_of_shaped (show Shaped ⟨3, 1⟩ [[1], [-1], [-2]] by decide) hxy])
    (by
      intro x y
      by_cases hxy : x < 3 ∧ y < 1
      · rcases hxy with ⟨hx, hy⟩
        interval_cases x <;> interval_cases y <;> simp [cell_get]
      · rw [cell_get_none_of_shaped (show Shaped ⟨3, 1⟩ [[2], [-1], [-3]] by decide) hxy,
          cell_get_none_of_shaped (show Shaped ⟨3, 1⟩ [[1], [-1], [-2]] by decide) hxy])

/-- C18: for a board of width `1 <= w <= INT_MAX`, any height and any `yPos`, when the loop of
`parse_map` reads for a ship of length 3 a line that scans as `w - 1`, `yPos`, `E`, it returns
the out of bounds code 51; so does `parse_map` when the ship is the first one. -/
theorem parse_map_east_edge (board : Grid) (ships : List Ship) (s : Ship) (i fuel : Nat)
    (stream line : List Char) (yPos : Nat)
    (hw1 : 1 ≤ board.width) (hw : board.width ≤ INT_MAX)
    (hline : (fgets BUFF_LEN stream).1 = some line) (hlen : check_length line ≠ 0)
    (hscan : sscanf_uuc line = some (board.width - 1, yPos, 'E'))
    (hs : ships[i]? = some s) (h3 : s.length = 3) :
    parse_map_from board (fuel + 1) i stream ships = some (.error ERR_MAP_OOB) ∧
      (i = 0 → parse_map stream ships board (fuel + 1) = some (.error ERR_MAP_OOB)) := by
  have hb := map_bounds_east_edge board s yPos hw1 hw h3
  have hmain : parse_map_from board (fuel + 1) i stream ships = some (.error ERR_MAP_OOB) := by
    rw [parse_map_from, hline]
    simp only [if_neg hlen, hs, hscan]
    have hd : ¬ ('E' ≠ 'N' ∧ 'E' ≠ 'S' ∧ 'E' ≠ 'E' ∧ 'E' ≠ 'W') := by decide
    rw [if_neg hd, hb]
    simp [map_oob, ERR_MAP_OOB]
  refine ⟨hmain, ?_⟩
  intro hi
  subst hi
  exact hmain

/-- Witness of C18 : the line `7 0 E` for a ship of length 3 on the board 8 x 8. -/
theorem parse_map_east_edge_witness :
    parse_map_from ⟨8, 8⟩ (0 + 1) 0 ['7', ' ', '0', ' ', 'E', '\n'] [⟨3, 0, 0, 'N'⟩] =
        some (.error ERR_MAP_OOB) ∧
      (0 = 0 → parse_map ['7', ' ', '0', ' ', 'E', '\n'] [⟨3, 0, 0, 'N'⟩] ⟨8, 8⟩ (0 + 1) =
        some (.error ERR_MAP_OOB)) :=
  parse_map_east_edge ⟨8, 8⟩ [⟨3, 0, 0, 'N'⟩] ⟨3, 0, 0, 'N'⟩ 0 0
    ['7', ' ', '0', ' ', 'E', '\n'] ['7', ' ', '0', ' ', 'E', '\n'] 0
    (by decide) (by decide) (by decide) (by decide) (by decide) (by decide) (by decide)

/-- The claim C19 fails on the board 1 x 1 with a ship of length 2147483650 at (0,0) heading
North: `parse_rules` accepts the length, the furthest cell is (0,-2147483649), and `parse_map`
returns 0; `place_ships` then reads outside the array. -/
theorem parse_map_wraps_around :
    parse_rules [] ['1', ' ', '1', '\n', '1', '\n',
        '2', '1', '4', '7', '4', '8', '3', '6', '5', '0', '\n'] [⟨0, 0, 0, 'N'⟩] =
        some (.ok ⟨⟨1, 1⟩, 1, [⟨2147483650, 0, 0, 'N'⟩], []⟩) ∧
      ship_cell ⟨2147483650, 0, 0, 'N'⟩ (2147483650 - 1) = (0, -2147483649) ∧
      parse_map ['0', ' ', '0', ' ', 'N', '\n'] [⟨2147483650, 0, 0, 'N'⟩] ⟨1, 1⟩ 1 =
        some (.ok [⟨2147483650, 0, 0, 'N'⟩]) ∧
      place_ships [⟨2147483650, 0, 0, 'N'⟩] 1 (init_answer ⟨1, 1⟩) = none := by
  refine ⟨by rfl, by decide, by rfl, by decide⟩

/-- C20: on an array of the allocated shape, an in-bounds guess at a cell holding
ShipIntact(id), `id >= 0`, returns, and when it prints `Game over` it has printed `Ship sunk`
as well. -/
theorem make_guess_game_over_sunk (board : Grid) (answer : Answer) (x y id : Nat)
    (hs : Shaped board answer) (hx : x < board.width) (hy : y < board.height)
    (hc : cell_get answer x y = some ((id : Int) + 2)) :
    ∃ r, make_guess x y board answer = some r ∧
      ("Game over\n" ∈ r.out → "Ship sunk\n" ∈ r.out) := by
  rcases make_guess_intact_eq hs hx hy hc (by omega) with ⟨sunk, over, hsunk, hover, hmg⟩
  have hs1 : Shaped board (cell_set answer x y (-((id : Int) + 2))) := shaped_cell_set hs _ _ _
  rcases is_sunk_spec hs1 ((id : Int) + 2) with ⟨sunk1, hsunk1, _, hsunk_iff⟩
  rcases is_game_over_spec hs1 with ⟨over1, hover1, _, hover_iff⟩
  rw [hsunk] at hsunk1
  rw [hover] at hover1
  cases hsunk1
  cases hover1
  refine ⟨_, hmg, ?_⟩
  intro hgo
  have hover0 : over ≠ 0 := by
    by_contra h0
    simp [h0] at hgo
  have hsunk0 : sunk ≠ 0 := by
    rw [hsunk_iff]
    intro x1 y1 hv
    have := hover_iff.mp hover0 x1 y1 _ hv
    omega
  simp [hsunk0]

/-- Witness of C20 : scenario A, the last ship cell is hit. -/
theorem make_guess_game_over_sunk_witness :
    ∃ r, make_guess 0 0 ⟨3, 1⟩ [[2], [1], [1]] = some r ∧
      ("Game over\n" ∈ r.out → "Ship sunk\n" ∈ r.out) :=
  make_guess_game_over_sunk ⟨3, 1⟩ [[2], [1], [1]] 0 0 0 (by decide) (by decide) (by decide)
    (by decide)

end Naval
